import Mathlib

/-!
# Source-change registry and resource synchronizer: a shallow embedding

The definitions below follow two Go files of the repository:

* `pkg/synchronizer/kubernetes/sync_client.go` (namespace `kubernetes`):
  `GetValidatedGVK`, `AddTemplates`, `CleanupByHost`;
* `pkg/controller/mcmhub/hub_git.go` (namespace `mcmhub`): the git watcher
  registry `HubGitOps` with `RegisterBranch`, `DeregisterBranch`, `GitWatch`,
  `updateCommitAnnotation`, `GetLatestCommitID`.

Conventions of the embedding.

* A Go `map[K]V` is an association list `List (K × V)`; `mapGet`, `mapSet` and
  `mapDelete` are the three map operations.  A Go map never holds a key twice,
  which is the predicate `keysNodup`.  A `range` over a map visits the entries in
  the order of the list, so a statement about all lists is a statement about all
  iteration orders.
* A Go set `map[K]struct{}` is a list without repetition (`setAdd`, `setDelete`).
* A nil map is `none`, an allocated map is `some m`.
* A run-time panic (nil pointer dereference, assignment to an entry of a nil map) is
  the `Except.error` result of a function whose Go original can panic.
* Calls that leave the process (the cluster client, the git fetch, the channels of
  `AddTemplates`) are answered by explicit parameters or by an explicit state.
-/

/-! ## Shared types -/

/-- Go errors as the two files build and inspect them: `errors.New`, `errors.Wrap`,
and the API server's not-found status, which `k8serrors.IsNotFound` recognises. -/
inductive GoError where
  | new (msg : String)
  | wrap (cause : GoError) (msg : String)
  | notFound (msg : String)
  deriving DecidableEq, Repr

/-- The run-time panics the embedded code can raise: reading through a nil pointer,
writing into a nil map, and indexing a slice beyond its length. -/
inductive Panic where
  | nilDeref
  | nilMapAssign
  | indexOutOfRange
  deriving DecidableEq, Repr

/-- The type `types.NamespacedName`. -/
structure NamespacedName where
  Namespace : String
  Name : String
  deriving DecidableEq, Repr

/-- Go map read `m[k]` with the comma-ok result. -/
def mapGet {K V : Type} [DecidableEq K] : List (K × V) → K → Option V
  | [], _ => none
  | (k', v) :: m, k => if k' = k then some v else mapGet m k

/-- Go map write `m[k] = v`: replaces the binding of `k`, or adds one. -/
def mapSet {K V : Type} [DecidableEq K] : List (K × V) → K → V → List (K × V)
  | [], k, v => [(k, v)]
  | (k', v') :: m, k, v => if k' = k then (k, v) :: m else (k', v') :: mapSet m k v

/-- Go `delete(m, k)`. -/
def mapDelete {K V : Type} [DecidableEq K] (m : List (K × V)) (k : K) : List (K × V) :=
  m.filter (fun e => !decide (e.1 = k))

/-- The keys of a map, in iteration order. -/
def mapKeys {K V : Type} (m : List (K × V)) : List K :=
  m.map Prod.fst

/-- A Go map binds every key at most once. -/
def keysNodup {K V : Type} (m : List (K × V)) : Prop :=
  (mapKeys m).Nodup

instance {K V : Type} [DecidableEq K] (m : List (K × V)) : Decidable (keysNodup m) :=
  inferInstanceAs (Decidable (mapKeys m).Nodup)

/-- Adding a member to a set `map[K]struct{}`. -/
def setAdd {K : Type} [DecidableEq K] (s : List K) (k : K) : List K :=
  if k ∈ s then s else s ++ [k]

/-- Go `delete(s, k)` on a set `map[K]struct{}`. -/
def setDelete {K : Type} [DecidableEq K] (s : List K) (k : K) : List K :=
  s.filter (fun x => !decide (x = k))

/-! ## `pkg/synchronizer/kubernetes/sync_client.go` -/

namespace kubernetes

/-- The type `schema.GroupKind`. -/
structure GroupKind where
  Group : String
  Kind : String
  deriving DecidableEq, Repr

/-- The type `schema.GroupVersionKind`. -/
structure GroupVersionKind where
  Group : String
  Version : String
  Kind : String
  deriving DecidableEq, Repr

/-- The method `GroupVersionKind.GroupKind`. -/
def GroupVersionKind.GroupKind (gvk : GroupVersionKind) : GroupKind :=
  { Group := gvk.Group, Kind := gvk.Kind }

/-- The value type of `KubeResources`; the embedded code reads only `Namespaced`. -/
structure ResourceMap where
  Namespaced : Bool
  deriving DecidableEq, Repr

/-- The package-level tables `GetValidatedGVK` consults.  They are declared in another file
of the package, which is not embedded here, so they are parameters. -/
structure Tables where
  internalReplacedGroupVersionKind : List (GroupVersionKind × GroupVersionKind)
  internalIgnoredGroupKind : List (GroupKind × Bool)

/-- What `DplUnit.Dpl` points to; only its identity matters to the code embedded here. -/
structure Deployable where
  Namespace : String
  Name : String
  deriving DecidableEq, Repr

/-- The type `DplUnit`. -/
structure DplUnit where
  Dpl : Deployable
  Gvk : GroupVersionKind
  deriving DecidableEq, Repr

/-- The type `resourceOrder`, without its acknowledgment channel `err`: what the worker
writes to that channel is the `RecvOutcome` given to `AddTemplates`. -/
structure resourceOrder where
  subType : String
  hostSub : NamespacedName
  dpls : List DplUnit
  deriving DecidableEq, Repr

/-- The fields of `KubeSynchronizer` the embedded methods touch.  `Extension` is `none`
for a nil interface, else the predicate `IsIgnoredGroupKind`; `tplCh` lists the orders
sent on the channel, oldest first. -/
structure KubeSynchronizer where
  Interval : Int
  Extension : Option (GroupKind → Bool)
  KubeResources : List (GroupVersionKind × ResourceMap)
  tplCh : List resourceOrder

/-- The method `GetInterval`. -/
def GetInterval (sync : KubeSynchronizer) : Int :=
  sync.Interval

/-- Result of the `for gvk := range sync.KubeResources` loop of `GetValidatedGVK`:
either the loop returned an exact match, or it ran to its end with `found`, `regGvk`. -/
inductive ScanResult where
  | returned (gvk : GroupVersionKind)
  | finished (found : Bool) (regGvk : GroupVersionKind)
  deriving DecidableEq, Repr

/-- The loop of `GetValidatedGVK` (lines 80 to 89), from the state `found`, `regGvk`. -/
def scanKubeResources (valid : GroupVersionKind) :
    List (GroupVersionKind × ResourceMap) → Bool → GroupVersionKind → ScanResult
  | [], found, regGvk => .finished found regGvk
  | (gvk, _) :: rest, found, regGvk =>
    if valid.GroupKind = gvk.GroupKind then
      if valid.Version = gvk.Version then .returned gvk
      else scanKubeResources valid rest true gvk
    else scanKubeResources valid rest found regGvk

/-- Modelled from the spec: `kubeResourceAddVersionToGK` is a function of the package
whose file is not among the source files embedded here.  The spec says that the resolver "register[s]
the incoming version as now-accepted for that (group,kind)", that writes to the table
"only append newly observed compatible versions for an already-known group/kind", and
that each version carries "a namespaced/cluster-scoped flag": the new key is bound to
the entry of the already-known version `regGvk`; nothing is written when `regGvk` is not
in the table. -/
def kubeResourceAddVersionToGK (kubeResource : List (GroupVersionKind × ResourceMap))
    (regGvk newGvk : GroupVersionKind) : List (GroupVersionKind × ResourceMap) :=
  match mapGet kubeResource regGvk with
  | some r => mapSet kubeResource newGvk r
  | none => kubeResource

/-- The pointer `valid` of `GetValidatedGVK` after lines 57 to 61. -/
def validOf (t : Tables) (org : GroupVersionKind) : GroupVersionKind :=
  match mapGet t.internalReplacedGroupVersionKind org with
  | some r => r
  | none => org

/-- The test of lines 67 to 73: the group/kind is on the built-in ignore list, or the
extension is set and ignores it. -/
def isIgnored (t : Tables) (sync : KubeSynchronizer) (gk : GroupKind) : Bool :=
  (mapGet t.internalIgnoredGroupKind gk).isSome ||
    (match sync.Extension with
     | some isIgnoredGroupKind => isIgnoredGroupKind gk
     | none => false)

/-- The method `GetValidatedGVK`: the returned pointer (`none` for nil) and the
synchronizer afterwards. -/
def GetValidatedGVK (t : Tables) (sync : KubeSynchronizer) (org : GroupVersionKind) :
    Option GroupVersionKind × KubeSynchronizer :=
  let valid := validOf t org
  let gk : GroupKind := { Group := valid.Group, Kind := valid.Kind }
  if isIgnored t sync gk then (none, sync)
  else
    match scanKubeResources valid sync.KubeResources false ⟨"", "", ""⟩ with
    | .returned gvk => (some gvk, sync)
    | .finished found regGvk =>
      if found then
        (some valid,
          { sync with KubeResources :=
              kubeResourceAddVersionToGK sync.KubeResources regGvk valid })
      else (none, sync)

/-- The method `IsResourceNamespaced`; reading through the nil pointer of a missing
key panics. -/
def IsResourceNamespaced (sync : KubeSynchronizer) (gvk : GroupVersionKind) :
    Except Panic Bool :=
  match mapGet sync.KubeResources gvk with
  | some r => .ok r.Namespaced
  | none => .error .nilDeref

/-- The function `gerr.Wrap` of github.com/pkg/errors: "If err is nil, Wrap returns
nil"; otherwise the error annotated with the message. -/
def gerrWrap (err : Option GoError) (msg : String) : Option GoError :=
  match err with
  | none => none
  | some e => some (.wrap e msg)

/-- Outcome of the first `select` of `AddTemplates`: the order was sent on `tplCh`, or
`syncTimeout` elapsed first. -/
inductive SendOutcome where
  | sent
  | timedOut
  deriving DecidableEq, Repr

/-- Outcome of the second `select` of `AddTemplates`: the worker's value was received from
the order's `err` channel (`none` is a nil error), or `syncTimeout` elapsed first. -/
inductive RecvOutcome where
  | received (serr : Option GoError)
  | timedOut
  deriving DecidableEq, Repr

/-- The method `AddTemplates`: the returned error (`none` for nil) and the synchronizer
afterwards.  `enq` and `ack` are the outcomes of its two `select` statements. -/
def AddTemplates (sync : KubeSynchronizer) (subType : String) (hostSub : NamespacedName)
    (dpls : List DplUnit) (enq : SendOutcome) (ack : RecvOutcome) :
    Option GoError × KubeSynchronizer :=
  let rsOrder : resourceOrder := { subType := subType, hostSub := hostSub, dpls := dpls }
  match enq with
  | .timedOut => (some (.new "timeout on writing templates to syncrhonizer"), sync)
  | .sent =>
    let sync1 := { sync with tplCh := sync.tplCh ++ [rsOrder] }
    let err : Option GoError := none
    match ack with
    | .received serr =>
      if serr ≠ none then (gerrWrap err "failed to add templates", sync1)
      else (none, sync1)
    | .timedOut =>
      (some (.new "timeout on waiting templates write result from syncrhonizer"), sync1)

/-- The method `CleanupByHost`: the error of `AddTemplates` is logged, nothing is
returned. -/
def CleanupByHost (sync : KubeSynchronizer) (host : NamespacedName) (syncsource : String)
    (enq : SendOutcome) (ack : RecvOutcome) : KubeSynchronizer :=
  (AddTemplates sync syncsource host [] enq ack).2

/-- Modelled from the spec: the operations the Reconciler Worker issues against the
cluster client are code of the package that is not among the source files embedded here.
The spec has the worker "issue create/update/delete operations against the cluster
client"; a resource is named by its unit, which holds its identity and its kind/version. -/
inductive ClusterOp where
  | create (r : DplUnit)
  | update (r : DplUnit)
  | delete (r : DplUnit)
  deriving DecidableEq, Repr

/-- Modelled from the spec: the Reconciler Worker and the Host Template Set are code of the
package that is not among the source files embedded here.  The worker is "the single
consumer of the Synchronization Queue", here the queue `tplCh` of the synchronizer; the
Host Template Set is "keyed by target-host identity; value is the set of resource
identities most recently declared desired by each distinct classification tag for that
host"; `ops` lists the operations issued, oldest first, and `skipped` the entries with
"an error recorded against that entry". -/
structure Reconciler where
  sync : KubeSynchronizer
  hostTemplates : List ((NamespacedName × String) × List DplUnit)
  ops : List ClusterOp
  skipped : List DplUnit

/-- Modelled from the spec: the resolution step of the worker is not among the source
files embedded here.  "For each resource entry: resolve its kind/version through the GVK
Resolver; unresolved entries are skipped with an error recorded against that entry, not
fatal to the batch": the entries that resolve, each with the kind/version the resolver
returns, the entries skipped, and the synchronizer the resolver leaves. -/
def resolveEntries (t : Tables) :
    List DplUnit → KubeSynchronizer → List DplUnit × List DplUnit × KubeSynchronizer
  | [], sync => ([], [], sync)
  | unit :: rest, sync =>
    let resolved := GetValidatedGVK t sync unit.Gvk
    let r := resolveEntries t rest resolved.2
    match resolved.1 with
    | none => (r.1, unit :: r.2.1, r.2.2)
    | some gvk => ({ unit with Gvk := gvk } :: r.1, r.2.1, r.2.2)

/-- Modelled from the spec: the set of the identities of a batch, in the order of their
first occurrence. -/
def identities (dpls : List DplUnit) : List DplUnit :=
  dpls.foldl setAdd []

/-- Modelled from the spec: the processing of one batch by the worker is not among the
source files embedded here.  After the resolution step the worker is to "compute the set
difference between the batch's resource identities and the Host Template Set's
previously recorded identities for the same (host, tag); apply creates/updates for
everything in the new batch, apply deletes for everything present previously but absent
now; then atomically replace the recorded set for (host, tag) with the new set".  A
resource of the batch is created when it was not recorded and updated when it was; a batch
without resources is "a cleanup-only signal". -/
def processOrder (t : Tables) (w : Reconciler) (order : resourceOrder) : Reconciler :=
  let r := resolveEntries t order.dpls w.sync
  let key := (order.hostSub, order.subType)
  let previous := (mapGet w.hostTemplates key).getD []
  let current := identities r.1
  let applies := current.map (fun unit =>
    if unit ∈ previous then ClusterOp.update unit else ClusterOp.create unit)
  let deletes := (previous.filter (fun unit => !decide (unit ∈ current))).map ClusterOp.delete
  { sync := r.2.2,
    hostTemplates := mapSet w.hostTemplates key current,
    ops := w.ops ++ applies ++ deletes,
    skipped := w.skipped ++ r.2.1 }

/-- Modelled from the spec: the worker loop is not among the source files embedded here.
It is a "single task, sequential", which "dequeues one batch at a time, in strict FIFO
arrival order": the batches in the queue are processed from the oldest on, and the queue
is left empty. -/
def drain (t : Tables) (w : Reconciler) : Reconciler :=
  w.sync.tplCh.foldl (processOrder t) { w with sync := { w.sync with tplCh := [] } }

/-- A submission that is enqueued: `AddTemplates` with its first wait ending in the order
being sent, on the synchronizer of the worker. -/
def submit (w : Reconciler) (subType : String) (hostSub : NamespacedName)
    (dpls : List DplUnit) (ack : RecvOutcome) : Reconciler :=
  { w with sync := (AddTemplates w.sync subType hostSub dpls .sent ack).2 }

/-- The set recorded for a host and a tag, empty when there is none. -/
def recorded (w : Reconciler) (hostSub : NamespacedName) (subType : String) : List DplUnit :=
  (mapGet w.hostTemplates (hostSub, subType)).getD []

end kubernetes

/-! ## `pkg/controller/mcmhub/hub_git.go` -/

namespace mcmhub

/-- Modelled from the spec: the constant `subv1.AnnotationGithubBranch` is declared in the
subscription API package, which is not among the source files embedded here; it names
the "github-branch" annotation of a consumer's record. -/
def AnnotationGithubBranch : String := "apps.open-cluster-management.io/github-branch"

/-- Modelled from the spec: the constant `subv1.AnnotationGitBranch` is declared in the
subscription API package, which is not among the source files embedded here; it names
the "git-branch" annotation of a consumer's record. -/
def AnnotationGitBranch : String := "apps.open-cluster-management.io/git-branch"

/-- Modelled from the spec: the constant `subv1.AnnotationGitCommit` is declared in the
subscription API package, which is not among the source files embedded here; it names
the annotation in which the change marker (commit id) is persisted on the consumer's own
record. -/
def AnnotationGitCommit : String := "apps.open-cluster-management.io/git-commit"

/-- Modelled from the spec: the constant `chnv1.ChannelTypeGit` is declared in the channel
API package, which is not among the source files embedded here; a source is a git
repository, and the constant is the type name of such a channel (compared up to letter
case). -/
def ChannelTypeGit : String := "git"

/-- Modelled from the spec: the constant `chnv1.ChannelTypeGitHub` is declared in the
channel API package, which is not among the source files embedded here; the second type
name of a git channel (compared up to letter case). -/
def ChannelTypeGitHub : String := "github"

/-- The parts of `subv1.Subscription` the file reads and writes: the object's key, its
annotation map (`none` is a nil map) and `Spec.Channel`. -/
structure Subscription where
  Namespace : String
  Name : String
  Annotations : Option (List (String × String))
  Channel : String
  deriving DecidableEq, Repr

/-- The parts of `chnv1.Channel` the file reads: `Spec.Pathname` and `Spec.Type`. -/
structure Channel where
  Pathname : String
  ChannelType : String
  deriving DecidableEq, Repr

/-- The cluster as the controller-runtime client shows it to this file: the stored
subscriptions, the keys whose `Get` or `Update` fails with an injected error, and the
history of `Update` calls (the object passed to each, oldest first). -/
structure Client where
  subs : List (NamespacedName × Subscription)
  getErr : List (NamespacedName × GoError)
  updateErr : List (NamespacedName × GoError)
  updateCalls : List Subscription
  deriving DecidableEq, Repr

/-- The call `clt.Get(ctx, key, subIns)`: a missing object is a not-found error. -/
def Client.Get (clt : Client) (key : NamespacedName) : Except GoError Subscription :=
  match mapGet clt.getErr key with
  | some e => .error e
  | none =>
    match mapGet clt.subs key with
    | some s => .ok s
    | none => .error (.notFound "subscription not found")

/-- The call `clt.Update(ctx, subIns)`: the call is recorded; it stores the object unless
the update fails or the object does not exist. -/
def Client.Update (clt : Client) (obj : Subscription) : Option GoError × Client :=
  let key : NamespacedName := { Namespace := obj.Namespace, Name := obj.Name }
  let clt1 := { clt with updateCalls := clt.updateCalls ++ [obj] }
  match mapGet clt.updateErr key with
  | some e => (some e, clt1)
  | none =>
    match mapGet clt.subs key with
    | some _ => (none, { clt1 with subs := mapSet clt.subs key obj })
    | none => (some (.notFound "subscription not found"), clt1)

/-- The test `k8serrors.IsNotFound`. -/
def IsNotFound : GoError → Bool
  | .notFound _ => true
  | _ => false

/-- The type `branchInfo`. -/
structure branchInfo where
  lastCommitID : String
  username : String
  secret : String
  registeredSub : List NamespacedName
  deriving DecidableEq, Repr

/-- The type `RepoRegistery`. -/
structure RepoRegistery where
  url : String
  branchs : List (String × branchInfo)
  deriving DecidableEq, Repr

/-- The type `GetCommitFunc`: url, branch, user name and secret to a commit id and an error. -/
abbrev GetCommitFunc : Type :=
  String → String → String → String → String × Option GoError

/-- The state of `HubGitOps`: `localDir` and the two registry maps.  The client is passed
next to it, and `getCommitFunc`, `cloneFunc` are parameters of the methods that call
them. -/
structure HubGitOps where
  localDir : String
  subRecords : List (NamespacedName × String)
  repoRecords : List (String × RepoRegistery)
  deriving DecidableEq, Repr

/-- The constructor `NewHookGit`: empty registry, no local directory. -/
def NewHookGit : HubGitOps :=
  { localDir := "", subRecords := [], repoRecords := [] }

/-- The accessor `GetSubRecords`. -/
def GetSubRecords (h : HubGitOps) : List (NamespacedName × String) :=
  h.subRecords

/-- The accessor `GetRepoRecords`. -/
def GetRepoRecords (h : HubGitOps) : List (String × RepoRegistery) :=
  h.repoRecords

/-- What the run of `GitWatch` did outside the registry, in order: a call of
`getCommitFunc` with its four arguments, or a call of `updateCommitAnnotation` for a
consumer with a commit id, tagged with the source and branch whose loop body made it. -/
inductive Event where
  | fetch (url bName username secret : String)
  | annotate (repoName bName : String) (subKey : NamespacedName) (newCommit : String)
  deriving DecidableEq, Repr

/-- The function `updateCommitAnnotation`: the returned error and the cluster afterwards;
writing into the nil annotation map of a fetched record panics. -/
def updateCommitAnnotation (clt : Client) (subKey : NamespacedName) (newCommit : String) :
    Except Panic (Option GoError × Client) :=
  match clt.Get subKey with
  | .error err => if !IsNotFound err then .ok (none, clt) else .ok (some err, clt)
  | .ok subIns =>
    match subIns.Annotations with
    | none => .error .nilMapAssign
    | some anno =>
      .ok (clt.Update { subIns with Annotations := some (mapSet anno AnnotationGitCommit newCommit) })

/-- The loop `for subKey := range branchInfo.registeredSub` of `GitWatch` (lines 181 to
188): an error of `updateCommitAnnotation` is logged and the loop goes on. -/
def notifySubs (repoName bName nCommit : String) :
    List NamespacedName → Client → Except Panic (Client × List Event)
  | [], clt => .ok (clt, [])
  | subKey :: rest, clt =>
    match updateCommitAnnotation clt subKey nCommit with
    | .error p => .error p
    | .ok (_, clt1) =>
      match notifySubs repoName bName nCommit rest clt1 with
      | .error p => .error p
      | .ok (clt2, evs) => .ok (clt2, Event.annotate repoName bName subKey nCommit :: evs)

/-- The body of the inner loop of `GitWatch` (lines 168 to 188) for one branch: the
branch entry afterwards, the cluster afterwards and what was called.  The error of
`getCommitFunc` is logged and not looked at again. -/
def watchBranch (getCommitFunc : GetCommitFunc) (repoName url bName : String)
    (bi : branchInfo) (clt : Client) : Except Panic (branchInfo × Client × List Event) :=
  let nCommit := (getCommitFunc url bName bi.username bi.secret).1
  let called := Event.fetch url bName bi.username bi.secret
  if bi.lastCommitID ≠ "" ∧ nCommit = bi.lastCommitID then .ok (bi, clt, [called])
  else
    match notifySubs repoName bName nCommit bi.registeredSub clt with
    | .error p => .error p
    | .ok (clt1, evs) => .ok ({ bi with lastCommitID := nCommit }, clt1, called :: evs)

/-- The inner loop of `GitWatch` over the branches of one source.  The entry written by
`h.repoRecords[repoName].branchs[bName].lastCommitID = nCommit` is the entry the loop
is at (the maps hold pointers and bind a key once), so it is updated in place. -/
def watchBranchs (getCommitFunc : GetCommitFunc) (repoName url : String) :
    List (String × branchInfo) → Client →
      Except Panic (List (String × branchInfo) × Client × List Event)
  | [], clt => .ok ([], clt, [])
  | (bName, bi) :: rest, clt =>
    match watchBranch getCommitFunc repoName url bName bi clt with
    | .error p => .error p
    | .ok (bi1, clt1, evs1) =>
      match watchBranchs getCommitFunc repoName url rest clt1 with
      | .error p => .error p
      | .ok (rest1, clt2, evs2) => .ok ((bName, bi1) :: rest1, clt2, evs1 ++ evs2)

/-- The outer loop of `GitWatch` over the sources. -/
def watchRepos (getCommitFunc : GetCommitFunc) :
    List (String × RepoRegistery) → Client →
      Except Panic (List (String × RepoRegistery) × Client × List Event)
  | [], clt => .ok ([], clt, [])
  | (repoName, repoRegistery) :: rest, clt =>
    match watchBranchs getCommitFunc repoName repoRegistery.url repoRegistery.branchs clt with
    | .error p => .error p
    | .ok (branchs1, clt1, evs1) =>
      match watchRepos getCommitFunc rest clt1 with
      | .error p => .error p
      | .ok (rest1, clt2, evs2) =>
        .ok ((repoName, { repoRegistery with branchs := branchs1 }) :: rest1, clt2, evs1 ++ evs2)

/-- The method `GitWatch`, one poll tick: the registry afterwards, the cluster afterwards
and the calls made, or the panic that ended the tick. -/
def GitWatch (getCommitFunc : GetCommitFunc) (h : HubGitOps) (clt : Client) :
    Except Panic (HubGitOps × Client × List Event) :=
  match watchRepos getCommitFunc h.repoRecords clt with
  | .error p => .error p
  | .ok (repos, clt1, evs) => .ok ({ h with repoRecords := repos }, clt1, evs)

/-- The test `strings.EqualFold` as `isGitChannel` uses it, against the constants
`ChannelTypeGit` and `ChannelTypeGitHub`: the letters of these two have no other case
variant than their ASCII capital, so comparing the texts with their ASCII capitals
lowered is the test of the library there.  On other texts the library folds the cases
of Unicode, which this definition does not do; the code of the other packages takes the
test from its environment. -/
def EqualFold (a b : String) : Bool :=
  a.data.map Char.toLower == b.data.map Char.toLower

/-- The function `isGitChannel`. -/
def isGitChannel (ch : Channel) : Bool :=
  let cType := ch.ChannelType
  if EqualFold cType ChannelTypeGit || EqualFold cType ChannelTypeGitHub then true
  else false

/-- Reading `an[key]` from an annotation map that may be nil: the empty string when the
key is absent. -/
def annoGet (an : Option (List (String × String))) (key : String) : String :=
  match an with
  | none => ""
  | some m => (mapGet m key).getD ""

/-- The function `genBranchString`. -/
def genBranchString (subIns : Subscription) : String :=
  let branch := ""
  let an := subIns.Annotations
  let branch := if annoGet an AnnotationGithubBranch ≠ "" then annoGet an AnnotationGithubBranch else branch
  let branch := if annoGet an AnnotationGitBranch ≠ "" then annoGet an AnnotationGitBranch else branch
  if branch = "" then "master" else branch

/-- The function `genRepoName`. -/
def genRepoName (repoURL user pwd : String) : String :=
  let repoName := repoURL
  if pwd ≠ "" then repoName ++ user else repoName

/-- The function `setCommitID`: a nil or empty annotation map is replaced by a fresh one
before the commit id is written. -/
def setCommitID (subIns : Subscription) (commitID : String) : Subscription :=
  let aAno : List (String × String) :=
    match subIns.Annotations with
    | none => []
    | some m => if m.length = 0 then [] else m
  { subIns with Annotations := some (mapSet aAno AnnotationGitCommit commitID) }

/-- What the cluster and the git host answer during one `RegisterBranch` or
`GetLatestCommitID`: the results of `GetSubscriptionRefChannel`, of
`utils.GetChannelSecret`, of the `h.clt.Get` of the channel in `initialDownload`, of
`utils.GetLocalGitFolder` and of `h.cloneFunc`. -/
structure RegisterEnv where
  refChannel : Except GoError Channel
  channelSecret : Except GoError (String × String)
  getChannel : Except GoError Channel
  localGitFolder : String
  clone : String × Option GoError

/-- The method `initialDownload`: the commit id, the error, and the state afterwards. -/
def initialDownload (env : RegisterEnv) (h : HubGitOps) :
    (String × Option GoError) × HubGitOps :=
  if h.localDir ≠ "" then (("", none), h)
  else
    match env.getChannel with
    | .error err => (("", some err), h)
    | .ok _ =>
      let repoRoot := env.localGitFolder
      (env.clone, { h with localDir := repoRoot })

/-- The method `RegisterBranch`: the registry and the subscription object afterwards.
On a source that is registered without the subscription's branch, line 320 reads
`registeredSub` through the nil pointer `bInfo.branchs[branchName]` and panics. -/
def RegisterBranch (env : RegisterEnv) (h : HubGitOps) (subIns : Subscription) :
    Except Panic (HubGitOps × Subscription) :=
  let subKey : NamespacedName := { Name := subIns.Name, Namespace := subIns.Namespace }
  if (mapGet h.subRecords subKey).isSome then .ok (h, subIns)
  else
    match env.refChannel with
    | .error _ => .ok (h, subIns)
    | .ok channel =>
      if !isGitChannel channel then .ok (h, subIns)
      else
        match env.channelSecret with
        | .error _ => .ok (h, subIns)
        | .ok (user, pwd) =>
          let repoURL := channel.Pathname
          let repoName := genRepoName repoURL user pwd
          let branchName := genBranchString subIns
          let h1 := { h with subRecords := mapSet h.subRecords subKey repoName }
          match mapGet h1.repoRecords repoName with
          | none =>
            let r := initialDownload env h1
            let commitID := r.1.1
            let h2 := r.2
            let subIns1 := setCommitID subIns commitID
            let newBranch : branchInfo :=
              { username := user, secret := pwd, lastCommitID := commitID,
                registeredSub := [subKey] }
            let newRepo : RepoRegistery :=
              { url := repoURL, branchs := [(branchName, newBranch)] }
            .ok ({ h2 with repoRecords := mapSet h2.repoRecords repoName newRepo }, subIns1)
          | some bInfo =>
            match mapGet bInfo.branchs branchName with
            | none => .error .nilDeref
            | some b =>
              let b1 : branchInfo := { b with registeredSub := setAdd b.registeredSub subKey }
              let bInfo1 : RepoRegistery :=
                { bInfo with branchs := mapSet bInfo.branchs branchName b1 }
              .ok ({ h1 with repoRecords := mapSet h1.repoRecords repoName bInfo1 }, subIns)

/-- One pass of the body of the loop of `DeregisterBranch` (lines 348 to 356) for the
branch `bName`; every `h.repoRecords[repoName]` and `.branchs[bName]` is looked up
again, and reading through a nil pointer panics. -/
def deregisterStep (repoName : String) (subKey : NamespacedName) (h : HubGitOps)
    (bName : String) : Except Panic HubGitOps :=
  match mapGet h.repoRecords repoName with
  | none => .error .nilDeref
  | some repo =>
    match mapGet repo.branchs bName with
    | none => .error .nilDeref
    | some b =>
      let b1 := { b with registeredSub := setDelete b.registeredSub subKey }
      let repo1 := { repo with branchs := mapSet repo.branchs bName b1 }
      let repo2 :=
        if b1.registeredSub.length = 0 then { repo1 with branchs := mapDelete repo1.branchs bName }
        else repo1
      if repo2.branchs.length = 0 then
        .ok { h with repoRecords := mapDelete h.repoRecords repoName }
      else .ok { h with repoRecords := mapSet h.repoRecords repoName repo2 }

/-- The loop `for bName := range h.repoRecords[repoName].branchs` of `DeregisterBranch`
over the branch names the map held when the loop began.  A pass deletes no entry but
its own, so these are the entries the Go loop produces. -/
def deregisterLoop (repoName : String) (subKey : NamespacedName) :
    List String → HubGitOps → Except Panic HubGitOps
  | [], h => .ok h
  | bName :: rest, h =>
    match deregisterStep repoName subKey h bName with
    | .error p => .error p
    | .ok h1 => deregisterLoop repoName subKey rest h1

/-- The method `DeregisterBranch`. -/
def DeregisterBranch (h : HubGitOps) (subKey : NamespacedName) : Except Panic HubGitOps :=
  match mapGet h.subRecords subKey with
  | none => .ok h
  | some repoName =>
    let h1 := { h with subRecords := mapDelete h.subRecords subKey }
    match mapGet h1.repoRecords repoName with
    | none => .error .nilDeref
    | some repo => deregisterLoop repoName subKey (mapKeys repo.branchs) h1

/-- The method `GetLatestCommitID`: the commit id, the error, and the state afterwards;
reading `lastCommitID` through a nil pointer panics. -/
def GetLatestCommitID (env : RegisterEnv) (h : HubGitOps) (subIns : Subscription) :
    Except Panic ((String × Option GoError) × HubGitOps) :=
  let subKey : NamespacedName := { Name := subIns.Name, Namespace := subIns.Namespace }
  match mapGet h.subRecords subKey with
  | none => .ok (initialDownload env h)
  | some repoName =>
    match mapGet h.repoRecords repoName with
    | none => .error .nilDeref
    | some repo =>
      match mapGet repo.branchs (genBranchString subIns) with
      | none => .error .nilDeref
      | some b => .ok ((b.lastCommitID, none), h)

/-- The registry states the three operations produce from the empty registry.  A step
that panics ends the process and produces no state. -/
inductive Reachable : HubGitOps → Prop where
  | init : Reachable NewHookGit
  | register (env : RegisterEnv) (h h1 : HubGitOps) (subIns subIns1 : Subscription) :
      Reachable h → RegisterBranch env h subIns = .ok (h1, subIns1) → Reachable h1
  | deregister (h h1 : HubGitOps) (subKey : NamespacedName) :
      Reachable h → DeregisterBranch h subKey = .ok h1 → Reachable h1
  | watch (getCommitFunc : GetCommitFunc) (h h1 : HubGitOps) (clt clt1 : Client)
      (evs : List Event) :
      Reachable h → GitWatch getCommitFunc h clt = .ok (h1, clt1, evs) → Reachable h1

/-! ### Notions used to state the properties of the registry -/

/-- The branch entry `h.repoRecords[repoName].branchs[bName]`, when both keys are bound. -/
def getBranch (h : HubGitOps) (repoName bName : String) : Option branchInfo :=
  match mapGet h.repoRecords repoName with
  | none => none
  | some repo => mapGet repo.branchs bName

/-- The calls of `getCommitFunc` among the calls of a tick, in order. -/
def fetchCalls (evs : List Event) : List Event :=
  evs.filter (fun e =>
    match e with
    | .fetch _ _ _ _ => true
    | .annotate _ _ _ _ => false)

/-- One call of `getCommitFunc` for each branch of a source, in iteration order, with the
source's url, the branch name and the branch's stored credentials. -/
def branchFetches (repo : RepoRegistery) : List Event :=
  repo.branchs.map (fun e => Event.fetch repo.url e.1 e.2.username e.2.secret)

/-- One call of `getCommitFunc` for each (source, branch) pair of the registry, in
iteration order. -/
def registeredFetches : List (String × RepoRegistery) → List Event
  | [] => []
  | e :: rest => branchFetches e.2 ++ registeredFetches rest

/-- What `DeregisterBranch` leaves of a branch entry when it removes a consumer: no entry
when the consumer was the last one, else the entry without the consumer. -/
def pruneBranch (subKey : NamespacedName) (b : branchInfo) : Option branchInfo :=
  if setDelete b.registeredSub subKey = [] then none
  else some { b with registeredSub := setDelete b.registeredSub subKey }

/-- The consistency of the registry: the maps bind a key once and the consumer sets hold
a consumer once; no source is without branches and no branch without consumers; every
key of `subRecords` is a consumer of a branch of the source it is mapped to; every
consumer of a branch of a source is mapped to that source by `subRecords`, and is a
consumer of no second branch of it. -/
structure Consistent (h : HubGitOps) : Prop where
  subKeys : keysNodup h.subRecords
  repoKeys : keysNodup h.repoRecords
  branchKeys : ∀ r repo, mapGet h.repoRecords r = some repo → keysNodup repo.branchs
  consumersNodup : ∀ r b bi, getBranch h r b = some bi → bi.registeredSub.Nodup
  repoNonempty : ∀ r repo, mapGet h.repoRecords r = some repo → repo.branchs ≠ []
  branchNonempty : ∀ r b bi, getBranch h r b = some bi → bi.registeredSub ≠ []
  subRegistered : ∀ k r, mapGet h.subRecords k = some r →
    ∃ b bi, getBranch h r b = some bi ∧ k ∈ bi.registeredSub
  consumerRecorded : ∀ r b bi k, getBranch h r b = some bi → k ∈ bi.registeredSub →
    mapGet h.subRecords k = some r
  consumerOneBranch : ∀ r b1 b2 bi1 bi2 k, getBranch h r b1 = some bi1 →
    getBranch h r b2 = some bi2 → k ∈ bi1.registeredSub → k ∈ bi2.registeredSub → b1 = b2

/-- Every record the client can fetch carries an allocated annotation map. -/
def Client.annotated (clt : Client) : Prop :=
  ∀ k s, clt.Get k = .ok s → s.Annotations ≠ none

/-- The consumer `ns/sub1` of the spec's polling scenario, on branch `main`. -/
def scenarioSub1 : Subscription :=
  { Namespace := "ns", Name := "sub1", Annotations := some [(AnnotationGitBranch, "main")],
    Channel := "ns/channel" }

/-- The consumer `ns/sub2` of the spec's polling scenario, on branch `main`. -/
def scenarioSub2 : Subscription :=
  { Namespace := "ns", Name := "sub2", Annotations := some [(AnnotationGitBranch, "main")],
    Channel := "ns/channel" }

/-- A third consumer `ns/sub3` of the same channel, on branch `dev`. -/
def scenarioSub3 : Subscription :=
  { Namespace := "ns", Name := "sub3", Annotations := some [(AnnotationGitBranch, "dev")],
    Channel := "ns/channel" }

/-- The consumer `ns/sub1` after its branch annotation was edited from `main` to `dev`. -/
def scenarioSub1Moved : Subscription :=
  { Namespace := "ns", Name := "sub1", Annotations := some [(AnnotationGitBranch, "dev")],
    Channel := "ns/channel" }

/-- A consumer `ns/other` of a second channel, without annotations. -/
def scenarioOtherSub : Subscription :=
  { Namespace := "ns", Name := "other", Annotations := none, Channel := "ns/other-channel" }

/-- What the cluster answers when `ns/other` registers: a git channel at
`github.com/org/other` without credentials, whose clone would succeed at `fedcba`. -/
def scenarioOtherEnv : RegisterEnv :=
  { refChannel := .ok ⟨"github.com/org/other", "Git"⟩,
    channelSecret := .ok ("", ""),
    getChannel := .ok ⟨"github.com/org/other", "Git"⟩,
    localGitFolder := "/tmp/other",
    clone := ("fedcba", none) }

/-- A consumer `ns/a` of the channel at `https://github.com/org/repo`. -/
def collisionSubA : Subscription :=
  { Namespace := "ns", Name := "a", Annotations := none, Channel := "ns/channel-a" }

/-- A consumer `ns/b` of the channel at `https://github.com/org/repos`. -/
def collisionSubB : Subscription :=
  { Namespace := "ns", Name := "b", Annotations := none, Channel := "ns/channel-b" }

/-- The channel of `ns/a`: repository `https://github.com/org/repo`, user `s`. -/
def collisionEnvA : RegisterEnv :=
  { refChannel := .ok ⟨"https://github.com/org/repo", "Git"⟩,
    channelSecret := .ok ("s", "token"),
    getChannel := .ok ⟨"https://github.com/org/repo", "Git"⟩,
    localGitFolder := "/tmp/a",
    clone := ("aaa111", none) }

/-- The channel of `ns/b`: repository `https://github.com/org/repos`, a token without a
user name. -/
def collisionEnvB : RegisterEnv :=
  { refChannel := .ok ⟨"https://github.com/org/repos", "Git"⟩,
    channelSecret := .ok ("", "token"),
    getChannel := .ok ⟨"https://github.com/org/repos", "Git"⟩,
    localGitFolder := "/tmp/b",
    clone := ("bbb222", none) }

/-- A cluster that stores the two consumers of the scenario and fails no call. -/
def scenarioClient : Client :=
  { subs := [(⟨"ns", "sub1"⟩, scenarioSub1), (⟨"ns", "sub2"⟩, scenarioSub2)],
    getErr := [], updateErr := [], updateCalls := [] }

/-- The registry of the scenario: source `github.com/org/repo`, branch `main`, consumers
`ns/sub1` and `ns/sub2`, with the given stored commit id. -/
def scenarioRegistry (marker : String) : HubGitOps :=
  { localDir := "/tmp/repo",
    subRecords := [(⟨"ns", "sub1"⟩, "github.com/org/repo"), (⟨"ns", "sub2"⟩, "github.com/org/repo")],
    repoRecords := [("github.com/org/repo",
      { url := "github.com/org/repo",
        branchs := [("main",
          { lastCommitID := marker, username := "", secret := "",
            registeredSub := [⟨"ns", "sub1"⟩, ⟨"ns", "sub2"⟩] })] })] }

/-- What the cluster answers when a subscription of the scenario's channel registers: a
git channel at `github.com/org/repo` without credentials, and a clone at `abc123`. -/
def scenarioEnv : RegisterEnv :=
  { refChannel := .ok ⟨"github.com/org/repo", "GitHub"⟩,
    channelSecret := .ok ("", ""),
    getChannel := .ok ⟨"github.com/org/repo", "GitHub"⟩,
    localGitFolder := "/tmp/repo",
    clone := ("abc123", none) }

/-- What a method does with the registry mutex `h.mtx` and which remote calls it makes,
in order: `Lock`, `Unlock`, a call of `getCommitFunc`, a call of `initialDownload`, and
the call of `h.cloneFunc` inside it. -/
inductive MutexStep where
  | lock
  | unlock
  | fetch (url bName username secret : String)
  | download
  | clone
  deriving DecidableEq, Repr

/-- The calls of `getCommitFunc` among the calls of a tick, as steps. -/
def fetchSteps : List Event → List MutexStep
  | [] => []
  | .fetch url bName username secret :: rest =>
    .fetch url bName username secret :: fetchSteps rest
  | .annotate _ _ _ _ :: rest => fetchSteps rest

/-- The steps of a tick of `GitWatch` that returns: `h.mtx.Lock()` (line 161), the calls
of `getCommitFunc` the loops make, and the deferred `h.mtx.Unlock()` (line 162). -/
def GitWatchSteps (getCommitFunc : GetCommitFunc) (h : HubGitOps) (clt : Client) :
    Except Panic (List MutexStep) :=
  match GitWatch getCommitFunc h clt with
  | .error p => .error p
  | .ok (_, _, evs) => .ok (.lock :: fetchSteps evs ++ [.unlock])

/-- The calls of `getCommitFunc` the inner loop of `GitWatch` makes over the branches of
one source, whether the passes return or not: a pass calls `getCommitFunc` first (line
169), so a pass that panics has made its call, and it ends the loop.  The second
component is the cluster after the loop, `none` when a pass has panicked. -/
def branchTrace (getCommitFunc : GetCommitFunc) (repoName url : String) :
    List (String × branchInfo) → Client → List MutexStep × Option Client
  | [], clt => ([], some clt)
  | (bName, bi) :: rest, clt =>
    match watchBranch getCommitFunc repoName url bName bi clt with
    | .error _ => ([.fetch url bName bi.username bi.secret], none)
    | .ok (_, clt1, _) =>
      let r := branchTrace getCommitFunc repoName url rest clt1
      (.fetch url bName bi.username bi.secret :: r.1, r.2)

/-- The calls of `getCommitFunc` the outer loop of `GitWatch` makes, whether the tick
returns or panics. -/
def repoTrace (getCommitFunc : GetCommitFunc) :
    List (String × RepoRegistery) → Client → List MutexStep
  | [], _ => []
  | (repoName, repoRegistery) :: rest, clt =>
    match branchTrace getCommitFunc repoName repoRegistery.url repoRegistery.branchs clt with
    | (steps, none) => steps
    | (steps, some clt1) => steps ++ repoTrace getCommitFunc rest clt1

/-- The steps of a tick of `GitWatch`, whether it returns or panics: `h.mtx.Lock()` (line
161), the calls of `getCommitFunc` it makes, and the deferred `h.mtx.Unlock()` (line
162), which also runs when the tick panics. -/
def GitWatchTrace (getCommitFunc : GetCommitFunc) (h : HubGitOps) (clt : Client) :
    List MutexStep :=
  .lock :: repoTrace getCommitFunc h.repoRecords clt ++ [.unlock]

/-- A step that is a call of `getCommitFunc`. -/
def MutexStep.isFetch : MutexStep → Bool
  | .fetch _ _ _ _ => true
  | _ => false

/-- The steps of `initialDownload`: the clone, unless a local directory is recorded or the
channel cannot be read. -/
def initialDownloadSteps (env : RegisterEnv) (h : HubGitOps) : List MutexStep :=
  if h.localDir ≠ "" then []
  else
    match env.getChannel with
    | .error _ => []
    | .ok _ => [.clone]

/-- The steps of `RegisterBranch`: none on the early returns of lines 263 to 283; else
`h.mtx.Lock()` (line 289), the call of `initialDownload` when the source is new (line
296), and the deferred `h.mtx.Unlock()` (line 290), which also runs when line 320
panics. -/
def RegisterBranchSteps (env : RegisterEnv) (h : HubGitOps) (subIns : Subscription) :
    List MutexStep :=
  let subKey : NamespacedName := { Name := subIns.Name, Namespace := subIns.Namespace }
  if (mapGet h.subRecords subKey).isSome then []
  else
    match env.refChannel with
    | .error _ => []
    | .ok channel =>
      if !isGitChannel channel then []
      else
        match env.channelSecret with
        | .error _ => []
        | .ok (user, pwd) =>
          let repoName := genRepoName channel.Pathname user pwd
          let h1 := { h with subRecords := mapSet h.subRecords subKey repoName }
          match mapGet h1.repoRecords repoName with
          | none => [.lock, .download] ++ initialDownloadSteps env h1 ++ [.unlock]
          | some _ => [.lock, .unlock]

/-- The remote calls among the steps, each with whether the mutex is held when it is
made, given whether it is held at the start. -/
def remoteCalls : Bool → List MutexStep → List (MutexStep × Bool)
  | _, [] => []
  | _, .lock :: rest => remoteCalls true rest
  | _, .unlock :: rest => remoteCalls false rest
  | held, .fetch url bName username secret :: rest =>
    (.fetch url bName username secret, held) :: remoteCalls held rest
  | held, .download :: rest => (.download, held) :: remoteCalls held rest
  | held, .clone :: rest => (.clone, held) :: remoteCalls held rest

end mcmhub

/-! ## `pkg/subscriber/github/subscriber_item.go` -/

/-- The method `Error` of the errors the embedded code builds: `errors.Wrap` puts its
message before the cause. -/
def GoError.Error : GoError → String
  | .new msg => msg
  | .wrap cause msg => msg ++ ": " ++ cause.Error
  | .notFound msg => msg

namespace github

/-- The parts of an `unstructured.Unstructured` resource the file reads and writes. -/
structure Unstructured where
  Gvk : kubernetes.GroupVersionKind
  Name : String
  Namespace : String
  Labels : Option (List (String × String))
  Annotations : Option (List (String × String))
  deriving DecidableEq, Repr

/-- A field of type `*corev1.ObjectReference` (`ConfigMapRef`, `SecretRef`) as far as the
code goes: it copies the field and compares it with `==`, and never reads through it.
Two values are equal exactly when `==` holds of the fields; `none` is nil. -/
structure ObjectRef where
  ref : Option String
  deriving DecidableEq, Repr

/-- The type `releasev1.GitHub`. -/
structure GitHub where
  Urls : List String
  ChartPath : String
  Branch : String
  deriving DecidableEq, Repr

/-- The part of `releasev1.HelmRepo` the code reads. -/
structure HelmRepo where
  Urls : List String
  deriving DecidableEq, Repr

/-- The type `releasev1.Source`; the two sources are pointers, `none` is nil. -/
structure Source where
  SourceType : String
  GitHub : Option GitHub
  HelmRepo : Option HelmRepo
  deriving DecidableEq, Repr

/-- The type `releasev1.HelmReleaseRepo`; `Source` is a pointer. -/
structure HelmReleaseRepo where
  Source : Option Source
  ConfigMapRef : ObjectRef
  SecretRef : ObjectRef
  ChartName : String
  Version : String
  deriving DecidableEq, Repr

/-- The parts of `releasev1.HelmRelease` the file reads and writes: type and object
metadata (the owner is the name and the UID of the owning subscription), the repo and
the spec, a document of keys and values (`none` is nil). -/
structure HelmRelease where
  APIVersion : String
  Kind : String
  Name : String
  Namespace : String
  Owner : Option (String × String)
  Repo : HelmReleaseRepo
  Spec : Option (List (String × String))
  deriving DecidableEq, Repr

/-- The type `metav1.LabelSelector`, which only `utils.LabelChecker` interprets. -/
structure LabelSelector where
  MatchLabels : List (String × String)
  deriving DecidableEq, Repr

/-- The package filter of a subscription: a label selector (a pointer), an annotation
map (`none` is nil) and the name of the config map `FilterRef` points to (`none` is
nil). -/
structure PackageFilter where
  LabelSelector : Option LabelSelector
  Annotations : Option (List (String × String))
  FilterRef : Option String
  deriving DecidableEq, Repr

/-- The type `appv1.Overrides`: a package name and the raw override documents. -/
structure Overrides where
  PackageName : String
  PackageOverrides : List String
  deriving DecidableEq, Repr

/-- The parts of the subscription a subscriber item reads and writes: the key, the UID
(a string of ASCII letters), the annotation map, `Spec.Package`, `Spec.PackageFilter`,
`Spec.PackageOverrides` (`none` is nil) and, of `Status`, what
`utils.SetInClusterPackageStatus` keeps per package name. -/
structure Subscription where
  Namespace : String
  Name : String
  UID : String
  Annotations : Option (List (String × String))
  Package : String
  PackageFilter : Option PackageFilter
  PackageOverrides : Option (List Overrides)
  Status : List (String × Option GoError)
  deriving DecidableEq, Repr

/-- The parts of the channel a subscriber item reads: the key, `Spec.Pathname`,
`Spec.ConfigMapRef` and `Spec.SecretRef`. -/
structure ChannelRef where
  Namespace : String
  Name : String
  Pathname : String
  ConfigMapRef : ObjectRef
  SecretRef : ObjectRef
  deriving DecidableEq, Repr

/-- What is marshalled into `Spec.Template.Raw` of a deployable: a resource of a file, or
a helm release. -/
inductive RawTemplate where
  | resource (rsc : Unstructured)
  | release (helmRelease : HelmRelease)
  deriving DecidableEq, Repr

/-- The deployable the subscriber builds: its key, its template and its annotations. -/
structure Deployable where
  Name : String
  Namespace : String
  Template : Option RawTemplate
  Annotations : Option (List (String × String))
  deriving DecidableEq, Repr

/-- The type `repo.ChartVersion`, as far as the code reads it: `GetVersion()` and
`URLs`. -/
structure ChartVersion where
  Version : String
  URLs : List String
  deriving DecidableEq, Repr

/-- The type `repo.IndexFile`: the map `Entries` from a package name to its chart
versions. -/
structure IndexFile where
  Entries : List (String × List ChartVersion)
  deriving DecidableEq, Repr

/-- The fields of `SubscriberItem` that the embedded methods touch.
`SubscriptionConfigMap` is the `Data` of the config map of the embedded
`appv1.SubscriberItem` (`none` is a nil pointer); a nil map or slice is the empty list;
`indexFile` is a pointer. -/
structure SubscriberItem where
  Subscription : Subscription
  SubscriptionConfigMap : Option (List (String × String))
  Channel : Option ChannelRef
  synchronizer : kubernetes.KubeSynchronizer
  repoRoot : String
  commitID : String
  chartDirs : List (String × String)
  kustomizeDirs : List (String × String)
  crdsAndNamespaceFiles : List String
  rbacFiles : List String
  otherFiles : List String
  indexFile : Option IndexFile

/-- One resource of a file as `utils.ParseKubeResoures` returns it: whether decoding its
header (`yaml.Unmarshal(resource, &t)`) fails, and the object that decoding it in
`subscribeResource` leaves in `rsc`. -/
structure ParsedResource where
  headerErr : Bool
  rsc : Unstructured
  deriving DecidableEq, Repr

/-- One accepted call of `RegisterTemplate`: host, deployable, source. -/
abbrev Template := NamespacedName × Deployable × String

/-- What the file system, the helpers of package `utils`, the API package and the
synchronizer answer during a run: `ioutil.ReadFile` followed by `utils.ParseKubeResoures`,
`utils.LabelChecker`, `utils.OverrideResourceBySubscription`, the error of `json.Marshal`,
`utils.SetInClusterPackageStatus` (the status afterwards and the returned error), the
error of `RegisterTemplate` given the templates accepted so far, and the constant
`dplv1.AnnotationLocal`; together with the tables of `GetValidatedGVK`. -/
structure SubscriberEnv where
  tables : kubernetes.Tables
  readResources : String → Except GoError (List ParsedResource)
  LabelChecker : Option LabelSelector → Option (List (String × String)) → Bool
  OverrideResourceBySubscription : Unstructured → Subscription → Except GoError Unstructured
  marshalErr : Unstructured → Option GoError
  SetInClusterPackageStatus : List (String × Option GoError) → String → GoError →
    List (String × Option GoError) × Option GoError
  RegisterTemplate : List Template → NamespacedName → Deployable → String → Option GoError
  AnnotationLocal : String

/-- What a run of `subscribeResources` reads and writes: the subscriber item, the map
`pkgMap`, the resources added to the validator `kvalid`, and the templates that
`RegisterTemplate` accepted, oldest first. -/
structure SyncRun where
  ghsi : SubscriberItem
  pkgMap : List (String × Bool)
  kvalid : List (kubernetes.GroupVersionKind × NamespacedName × NamespacedName)
  templates : List Template

/-- The method `GroupVersionKind.String` of apimachinery. -/
def gvkString (gvk : kubernetes.GroupVersionKind) : String :=
  gvk.Group ++ "/" ++ gvk.Version ++ ", Kind=" ++ gvk.Kind

/-- Reading `m[key]` from a string map that may be nil. -/
def annoGet (an : Option (List (String × String))) (key : String) : String :=
  match an with
  | none => ""
  | some m => (mapGet m key).getD ""

/-- The method `checkFilters`: the empty string when the resource passes. -/
def checkFilters (env : SubscriberEnv) (ghsi : SubscriberItem) (rsc : Unstructured) : String :=
  if ghsi.Subscription.Package ≠ "" ∧ ghsi.Subscription.Package ≠ rsc.Name then
    "Name does not match, skiping:" ++ ghsi.Subscription.Package ++ "|" ++ rsc.Name
  else
    match ghsi.Subscription.PackageFilter with
    | none => ""
    | some pf =>
      if env.LabelChecker pf.LabelSelector rsc.Labels then
        match pf.Annotations with
        | none => ""
        | some annotations =>
          let rscanno : Option (List (String × String)) :=
            match rsc.Annotations with
            | none => some []
            | some m => some m
          let matched := annotations.all (fun kv => annoGet rscanno kv.1 == kv.2)
          if !matched then "Failed to pass annotation check to deployable " ++ rsc.Name
          else ""
      else "Failed to pass label check on resource " ++ rsc.Name

/-- The name `subscribeResource` gives the deployable of a resource (lines 329 to 335). -/
def dplName (ghsi : SubscriberItem) (rsc : Unstructured) : String :=
  match ghsi.Channel with
  | none => ghsi.Subscription.Name ++ "-" ++ rsc.Gvk.Kind ++ "-" ++ rsc.Name
  | some ch => ch.Name ++ "-" ++ rsc.Gvk.Kind ++ "-" ++ rsc.Name

/-- The namespace `subscribeResource` gives the deployable of a resource. -/
def dplNamespace (ghsi : SubscriberItem) : String :=
  match ghsi.Channel with
  | none => ghsi.Subscription.Namespace
  | some ch => ch.Namespace

/-- The error of line 341 for a resource whose kind/version is not resolved. -/
def notSupported (orggvk : kubernetes.GroupVersionKind) : GoError :=
  .new ("Resource " ++ gvkString orggvk ++ " is not supported")

/-- The run with the status and the package map replaced: the two records a run writes
and never reads. -/
def SyncRun.withRecords (st : SyncRun) (status : List (String × Option GoError))
    (pkgMap : List (String × Bool)) : SyncRun :=
  { st with
    ghsi := { st.ghsi with Subscription := { st.ghsi.Subscription with Status := status } },
    pkgMap := pkgMap }

/-- The call `utils.SetInClusterPackageStatus(&(ghsi.Subscription.Status), pkgname, err,
nil)`: the run with the status it leaves, and the error it returns. -/
def setPackageStatus (env : SubscriberEnv) (st : SyncRun) (pkgname : String) (pkgerr : GoError) :
    SyncRun × Option GoError :=
  let r := env.SetInClusterPackageStatus st.ghsi.Subscription.Status pkgname pkgerr
  (st.withRecords r.1 st.pkgMap, r.2)

/-- The run after `GetValidatedGVK` has left the synchronizer `sync`. -/
def SyncRun.withSynchronizer (st : SyncRun) (sync : kubernetes.KubeSynchronizer) : SyncRun :=
  { st with ghsi := { st.ghsi with synchronizer := sync } }

/-- The resource after lines 353 to 355: a namespaced resource gets the namespace of the
subscription. -/
def setNamespaceIf (namespaced : Bool) (ghsi : SubscriberItem) (rsc : Unstructured) :
    Unstructured :=
  if namespaced then { rsc with Namespace := ghsi.Subscription.Namespace } else rsc

/-- The part of `subscribeResource` after the GVK is resolved to `validgvk`, whose entry
in `KubeResources` has the flag `namespaced` (lines 353 to 399): the filters, the
overrides, the encoding and the annotation of the deployable. -/
def subscribeResolved (env : SubscriberEnv) (st1 : SyncRun) (rsc : Unstructured)
    (validgvk : kubernetes.GroupVersionKind) (namespaced : Bool) :
    Except GoError (Deployable × kubernetes.GroupVersionKind) × SyncRun :=
  let dplname := dplName st1.ghsi rsc
  let dplnamespace := dplNamespace st1.ghsi
  let rsc1 := setNamespaceIf namespaced st1.ghsi rsc
  let errMsg :=
    if st1.ghsi.Subscription.PackageFilter.isSome then checkFilters env st1.ghsi rsc1
    else ""
  if errMsg ≠ "" then (.error (.new errMsg), st1)
  else
    let overridden : Except GoError Unstructured :=
      if st1.ghsi.Subscription.PackageOverrides.isSome then
        env.OverrideResourceBySubscription rsc1 st1.ghsi.Subscription
      else .ok rsc1
    match overridden with
    | .error err =>
      let st2 := st1.withRecords st1.ghsi.Subscription.Status (mapSet st1.pkgMap dplname true)
      let errmsg := "Failed override package " ++ dplname ++ " with error: " ++ err.Error
      let r := setPackageStatus env st2 dplname err
      let errmsg1 :=
        match r.2 with
        | some err1 =>
          errmsg ++ " and failed to set in cluster package status with error: " ++ err1.Error
        | none => errmsg
      (.error (.new errmsg1), r.1)
    | .ok rsc2 =>
      match env.marshalErr rsc2 with
      | some err => (.error err, st1)
      | none =>
        let dpl : Deployable :=
          { Name := dplname, Namespace := dplnamespace, Template := some (.resource rsc2),
            Annotations := some (mapSet [] env.AnnotationLocal "true") }
        (.ok (dpl, validgvk), st1)

/-- The resource `subscribeResource` hands to the encoder (lines 366 to 380, the value
`overridden` of `subscribeResolved`): the resource itself when the subscription has no
package overrides, else what `utils.OverrideResourceBySubscription` returns for it. -/
def overrideResource (env : SubscriberEnv) (ghsi : SubscriberItem) (rsc1 : Unstructured) :
    Except GoError Unstructured :=
  if ghsi.Subscription.PackageOverrides.isSome then
    env.OverrideResourceBySubscription rsc1 ghsi.Subscription
  else .ok rsc1

/-- The method `subscribeResource` on the decoded resource: the deployable with its
resolved GVK, or the error, and the run afterwards (the resolver may have registered a
version).  Reading `Namespaced` through the nil pointer of a GVK that is no key of
`KubeResources` panics. -/
def subscribeResource (env : SubscriberEnv) (st : SyncRun) (rsc : Unstructured) :
    Except Panic (Except GoError (Deployable × kubernetes.GroupVersionKind) × SyncRun) :=
  let dplname := dplName st.ghsi rsc
  let orggvk := rsc.Gvk
  let resolved := kubernetes.GetValidatedGVK env.tables st.ghsi.synchronizer orggvk
  let st1 := st.withSynchronizer resolved.2
  match resolved.1 with
  | none =>
    let gvkerr := notSupported orggvk
    let st2 := (setPackageStatus env st1 dplname gvkerr).1
    .ok (.error gvkerr, st2.withRecords st2.ghsi.Subscription.Status (mapSet st2.pkgMap dplname true))
  | some validgvk =>
    match mapGet st1.ghsi.synchronizer.KubeResources validgvk with
    | none => .error .nilDeref
    | some resmap => .ok (subscribeResolved env st1 rsc validgvk resmap.Namespaced)

/-- The method `subscribeResourceFile` on the decoded resource: the returned error and the
run afterwards. -/
def subscribeResourceFile (env : SubscriberEnv) (hostkey : NamespacedName)
    (syncsource : String) (st : SyncRun) (rsc : Unstructured) :
    Except Panic (Option GoError × SyncRun) :=
  match subscribeResource env st rsc with
  | .error p => .error p
  | .ok (.error err, st1) => .ok (some err, st1)
  | .ok (.ok (dpltosync, validgvk), st1) =>
    let st2 := st1.withRecords st1.ghsi.Subscription.Status (mapSet st1.pkgMap dpltosync.Name true)
    match env.RegisterTemplate st2.templates hostkey dpltosync syncsource with
    | some err =>
      let r := setPackageStatus env st2 dpltosync.Name err
      let st3 := r.1
      .ok (r.2, st3.withRecords st3.ghsi.Subscription.Status (mapSet st3.pkgMap dpltosync.Name true))
    | none =>
      let dplkey : NamespacedName :=
        { Name := dpltosync.Name, Namespace := dpltosync.Namespace }
      let st3 : SyncRun :=
        { ghsi := st2.ghsi,
          pkgMap := mapSet st2.pkgMap dplkey.Name true,
          kvalid := st2.kvalid ++ [(validgvk, hostkey, dplkey)],
          templates := st2.templates ++ [(hostkey, dpltosync, syncsource)] }
      .ok (none, st3)

/-- The inner loop of `subscribeResources` over the resources of one file (lines 261 to
276): a resource whose header does not decode is passed over, and an error of
`subscribeResourceFile` is logged. -/
def subscribeParsed (env : SubscriberEnv) (hostkey : NamespacedName) (syncsource : String) :
    List ParsedResource → SyncRun → Except Panic SyncRun
  | [], st => .ok st
  | resource :: rest, st =>
    if resource.headerErr then subscribeParsed env hostkey syncsource rest st
    else
      match subscribeResourceFile env hostkey syncsource st resource.rsc with
      | .error p => .error p
      | .ok (_, st1) => subscribeParsed env hostkey syncsource rest st1

/-- The method `subscribeResources`: a file that cannot be read is passed over. -/
def subscribeResources (env : SubscriberEnv) (hostkey : NamespacedName) (syncsource : String) :
    List String → SyncRun → Except Panic SyncRun
  | [], st => .ok st
  | rscFile :: rest, st =>
    match env.readResources rscFile with
    | .error _ => subscribeResources env hostkey syncsource rest st
    | .ok resources =>
      if resources.length > 0 then
        match subscribeParsed env hostkey syncsource resources st with
        | .error p => .error p
        | .ok st1 => subscribeResources env hostkey syncsource rest st1
      else subscribeResources env hostkey syncsource rest st

/-- The resources a run of `subscribeResources` over the files goes through, in order:
those of every file that can be read. -/
def resourcesOf (env : SubscriberEnv) : List String → List ParsedResource
  | [] => []
  | rscFile :: rest =>
    match env.readResources rscFile with
    | .error _ => resourcesOf env rest
    | .ok resources => resources ++ resourcesOf env rest

/-- The operand `repo.Source.SourceType` of line 794: reading through a nil `Source`
panics. -/
def sourceType (src : Option Source) : Except Panic String :=
  match src with
  | none => .error .nilDeref
  | some s => .ok s.SourceType

/-- The operand `repo.Source.HelmRepo.Urls[0]` of line 795: reading through a nil
`Source` or a nil `HelmRepo` panics, and so does indexing an empty `Urls`. -/
def firstUrl (src : Option Source) : Except Panic String :=
  match src with
  | none => .error .nilDeref
  | some s =>
    match s.HelmRepo with
    | none => .error .nilDeref
    | some hr =>
      match hr.Urls with
      | [] => .error .indexOutOfRange
      | u :: _ => .ok u

/-- The function `compareHelmRelease`, given what `json.Marshal` answers for a spec.  The
conjunction of lines 793 to 799 is evaluated from the left and stops at the first false
operand; of a comparison the left operand is evaluated first. -/
def compareHelmRelease (jsonMarshal : Option (List (String × String)) → Except GoError String)
    (existingHr newHr : HelmRelease) : Except Panic Bool :=
  let existingHrRepo := existingHr.Repo
  let newHrRepo := newHr.Repo
  match jsonMarshal existingHr.Spec with
  | .error _ => .ok false
  | .ok existingHrSpecString =>
    match jsonMarshal newHr.Spec with
    | .error _ => .ok false
    | .ok newHrSpecString =>
      if existingHrSpecString ≠ newHrSpecString then .ok false
      else
        match sourceType existingHrRepo.Source with
        | .error p => .error p
        | .ok existingType =>
          match sourceType newHrRepo.Source with
          | .error p => .error p
          | .ok newType =>
            if existingType ≠ newType then .ok false
            else
              match firstUrl existingHrRepo.Source with
              | .error p => .error p
              | .ok existingUrl =>
                match firstUrl newHrRepo.Source with
                | .error p => .error p
                | .ok newUrl =>
                  if existingUrl ≠ newUrl then .ok false
                  else
                    .ok (decide (existingHrRepo.ConfigMapRef = newHrRepo.ConfigMapRef) &&
                      decide (existingHrRepo.SecretRef = newHrRepo.SecretRef) &&
                      decide (existingHrRepo.ChartName = newHrRepo.ChartName) &&
                      decide (existingHrRepo.Version = newHrRepo.Version))

/-- One document of the output of a kustomize build, split at `---` and trimmed (lines 220
to 225): whether decoding its header fails, the `apiVersion` and `kind` of the header,
and the object that decoding it in `subscribeResource` leaves in `rsc`. -/
structure KustomizeResource where
  headerErr : Bool
  APIVersion : String
  Kind : String
  rsc : Unstructured
  deriving DecidableEq, Repr

/-- What the git host, the file system, the cluster and the helpers answer while a
repository is cloned, sorted and its kustomizations and charts are subscribed:
`utils.GetLocalGitFolder`, `utils.GetChannelSecret`, `utils.GetSubscriptionBranch` (the
short name of the branch), `utils.CloneGitRepo`, the `Data` of a config map the local
client gets, `filepath.Join`, `utils.SortResources`, `utils.GenerateHelmIndexFile`,
`utils.OverrideKustomize`, the documents a kustomize build of a directory gives,
`utils.GetPackageAlias`, `utils.GetReleaseName`, the helm release the local client gets,
the conversions and `dplutils.OverrideTemplate` of the method `override` taken together,
`json.Marshal` of a spec, the error of `json.Marshal` of a helm release,
`utils.ValidatePackagesInSubscriptionStatus` (the subscription it leaves and its error)
and the subscription the local client gets; the test `strings.EqualFold` of the library,
which folds the cases of Unicode, and the slice `s[:n]` of a Go string, which cuts the
UTF-8 encoding after `n` bytes, also inside a character; and the constants
`appv1.AnnotationGithubPath`, `githubk8ssyncsource`, `githubhelmsyncsource` and
`releasev1.GitHubSourceType`. -/
structure RepoEnv where
  GetLocalGitFolder : Option ChannelRef → Subscription → String
  GetChannelSecret : Option ChannelRef → Except GoError (String × String)
  GetSubscriptionBranch : Subscription → String
  CloneGitRepo : String → String → String → String → String → String × Option GoError
  getConfigMap : NamespacedName → Except GoError (List (String × String))
  filepathJoin : String → String → String
  SortResources : String → String →
    Except GoError (List (String × String) × List (String × String) × List String ×
      List String × List String)
  GenerateHelmIndexFile : Subscription → String → List (String × String) →
    Except GoError IndexFile
  OverrideKustomize : String → String → Option GoError
  kustomizeBuild : String → List KustomizeResource
  GetPackageAlias : Subscription → String → String
  GetReleaseName : String → Except GoError String
  getHelmRelease : NamespacedName → Except GoError HelmRelease
  OverrideTemplate : HelmRelease → List String → Except GoError HelmRelease
  jsonMarshal : Option (List (String × String)) → Except GoError String
  marshalReleaseErr : HelmRelease → Option GoError
  ValidatePackagesInSubscriptionStatus : Subscription → List (String × Bool) →
    Subscription × Option GoError
  getSubscription : NamespacedName → Except GoError Subscription
  EqualFold : String → String → Bool
  byteSlice : String → Nat → String
  AnnotationGithubPath : String
  githubk8ssyncsource : String
  githubhelmsyncsource : String
  GitHubSourceType : String

/-- The method `NamespacedName.String` of apimachinery. -/
def hostkeyString (key : NamespacedName) : String :=
  key.Namespace ++ "/" ++ key.Name

/-- The first occurrence of the non-empty `sep` in a text: what stands before it and
what stands after it. -/
def cutAt (sep : List Char) : List Char → Option (List Char × List Char)
  | [] => none
  | c :: rest =>
    if sep.isPrefixOf (c :: rest) then some ([], (c :: rest).drop sep.length)
    else
      match cutAt sep rest with
      | some (before, after) => some (c :: before, after)
      | none => none

/-- The element `strings.Split(s, sep)[0]` for a non-empty `sep`: what stands before the
first `sep`, or all of `s`. -/
def splitFirst (s sep : String) : String :=
  match cutAt sep.data s.data with
  | some (before, _) => String.mk before
  | none => s

/-- The element `strings.SplitAfter(s, sep)[1]` for a non-empty `sep`, when the result
has more than one element: what stands after the first `sep`, up to and with the next
`sep`. -/
def splitAfterSecond (s sep : String) : Option String :=
  match cutAt sep.data s.data with
  | none => none
  | some (_, after) =>
    match cutAt sep.data after with
    | some (before, _) => some (String.mk (before ++ sep.data))
    | none => some (String.mk after)

/-- The method `cloneGitRepo`: the commit id and the error, and the item with the
repository root it has set.  Reading the path name through a nil channel panics. -/
def cloneGitRepo (renv : RepoEnv) (ghsi : SubscriberItem) :
    Except Panic ((String × Option GoError) × SubscriberItem) :=
  let ghsi1 := { ghsi with repoRoot := renv.GetLocalGitFolder ghsi.Channel ghsi.Subscription }
  match renv.GetChannelSecret ghsi1.Channel with
  | .error err => .ok (("", some err), ghsi1)
  | .ok (user, pwd) =>
    match ghsi1.Channel with
    | none => .error .nilDeref
    | some ch =>
      .ok (renv.CloneGitRepo ch.Pathname (renv.GetSubscriptionBranch ghsi1.Subscription)
        user pwd ghsi1.repoRoot, ghsi1)

/-- The config map of the item after lines 651 to 662 of `sortClonedGitRepo`: with a
filter reference, a fresh config map that the local client fills when it can. -/
def filterConfigMap (renv : RepoEnv) (ghsi : SubscriberItem) :
    Option (List (String × String)) :=
  match ghsi.Subscription.PackageFilter with
  | none => ghsi.SubscriptionConfigMap
  | some pf =>
    match pf.FilterRef with
    | none => ghsi.SubscriptionConfigMap
    | some name =>
      match renv.getConfigMap ⟨ghsi.Subscription.Namespace, name⟩ with
      | .ok data => some data
      | .error _ => some []

/-- The method `sortClonedGitRepo`: the error and the item afterwards. -/
def sortClonedGitRepo (renv : RepoEnv) (ghsi : SubscriberItem) :
    Option GoError × SubscriberItem :=
  let ghsi1 := { ghsi with SubscriptionConfigMap := filterConfigMap renv ghsi }
  let annotations := ghsi1.Subscription.Annotations
  let resourcePath :=
    if annoGet annotations renv.AnnotationGithubPath ≠ "" then
      renv.filepathJoin ghsi1.repoRoot (annoGet annotations renv.AnnotationGithubPath)
    else
      match ghsi1.SubscriptionConfigMap with
      | some data => renv.filepathJoin ghsi1.repoRoot ((mapGet data "path").getD "")
      | none => ghsi1.repoRoot
  match renv.SortResources ghsi1.repoRoot resourcePath with
  | .error err => (some err, ghsi1)
  | .ok (chartDirs, kustomizeDirs, crdsAndNamespaceFiles, rbacFiles, otherFiles) =>
    let ghsi2 :=
      { ghsi1 with
        chartDirs := chartDirs, kustomizeDirs := kustomizeDirs,
        crdsAndNamespaceFiles := crdsAndNamespaceFiles, rbacFiles := rbacFiles,
        otherFiles := otherFiles }
    match renv.GenerateHelmIndexFile ghsi2.Subscription ghsi2.repoRoot chartDirs with
    | .error err => (some err, ghsi2)
    | .ok indexFile => (none, { ghsi2 with indexFile := some indexFile })

/-- The loop over the package overrides of `subscribeKustomizations` for one directory
(lines 196 to 209): an override for another directory is passed over, the first override
document of a matching one is applied, and the loop ends at the first failure.  A
matching override without documents panics. -/
def overrideKustomization (renv : RepoEnv) (relativePath kustomizeDir : String) :
    List Overrides → Except Panic Unit
  | [] => .ok ()
  | ov :: rest =>
    let ovKustomizeDir := splitFirst ov.PackageName "kustomization"
    if !renv.EqualFold ovKustomizeDir relativePath then
      overrideKustomization renv relativePath kustomizeDir rest
    else
      match ov.PackageOverrides with
      | [] => .error .indexOutOfRange
      | pov :: _ =>
        match renv.OverrideKustomize pov kustomizeDir with
        | some _ => .ok ()
        | none => overrideKustomization renv relativePath kustomizeDir rest

/-- The loop over the documents of a kustomize build (lines 221 to 240). -/
def subscribeKustomized (env : SubscriberEnv) (hostkey : NamespacedName) (syncsource : String) :
    List KustomizeResource → SyncRun → Except Panic SyncRun
  | [], st => .ok st
  | resource :: rest, st =>
    if resource.headerErr then subscribeKustomized env hostkey syncsource rest st
    else if resource.APIVersion = "" ∨ resource.Kind = "" then
      subscribeKustomized env hostkey syncsource rest st
    else
      match subscribeResourceFile env hostkey syncsource st resource.rsc with
      | .error p => .error p
      | .ok (_, st1) => subscribeKustomized env hostkey syncsource rest st1

/-- The loop of `subscribeKustomizations` over the kustomize directories. -/
def subscribeKustomizeDirs (env : SubscriberEnv) (renv : RepoEnv) (hostkey : NamespacedName)
    (syncsource : String) : List (String × String) → SyncRun → Except Panic SyncRun
  | [], st => .ok st
  | (_, kustomizeDir) :: rest, st =>
    let relativePath :=
      match splitAfterSecond kustomizeDir (st.ghsi.repoRoot ++ "/") with
      | some second => second
      | none => kustomizeDir
    match overrideKustomization renv relativePath kustomizeDir
        (st.ghsi.Subscription.PackageOverrides.getD []) with
    | .error p => .error p
    | .ok _ =>
      match subscribeKustomized env hostkey syncsource (renv.kustomizeBuild kustomizeDir) st with
      | .error p => .error p
      | .ok st1 => subscribeKustomizeDirs env renv hostkey syncsource rest st1

/-- The method `subscribeKustomizations`. -/
def subscribeKustomizations (env : SubscriberEnv) (renv : RepoEnv) (hostkey : NamespacedName)
    (syncsource : String) (st : SyncRun) : Except Panic SyncRun :=
  subscribeKustomizeDirs env renv hostkey syncsource st.ghsi.kustomizeDirs st

/-- The method `getOverrides`, as far as `override` reads its result: the raw documents
of the first package override with the package name, and none when there is no such
override. -/
def getOverrides (ghsi : SubscriberItem) (packageName : String) : List String :=
  match (ghsi.Subscription.PackageOverrides.getD []).find?
      (fun overrides => overrides.PackageName = packageName) with
  | some overrides => overrides.PackageOverrides
  | none => []

/-- The method `override`: the overrides for the chart of the release are applied to the
release through its YAML form. -/
def override (renv : RepoEnv) (ghsi : SubscriberItem) (helmRelease : HelmRelease) :
    Except GoError HelmRelease :=
  renv.OverrideTemplate helmRelease (getOverrides ghsi helmRelease.Repo.ChartName)

/-- The repo `subscribeHelmCharts` gives a release (lines 505 to 518 and 529 to 542): a
source of GitHub type, with no helm repository source.  Reading the path name through a
nil channel panics, and so does indexing an empty list of chart versions or of URLs. -/
def releaseRepo (renv : RepoEnv) (ghsi : SubscriberItem) (packageName : String)
    (chartVersions : List ChartVersion) : Except Panic HelmReleaseRepo :=
  match ghsi.Channel with
  | none => .error .nilDeref
  | some ch =>
    match chartVersions with
    | [] => .error .indexOutOfRange
    | first :: _ =>
      match first.URLs with
      | [] => .error .indexOutOfRange
      | url :: _ =>
        .ok { Source := some
                { SourceType := renv.GitHubSourceType,
                  GitHub := some
                    { Urls := [ch.Pathname], ChartPath := url,
                      Branch := renv.GetSubscriptionBranch ghsi.Subscription },
                  HelmRepo := none },
              ConfigMapRef := ch.ConfigMapRef,
              SecretRef := ch.SecretRef,
              ChartName := packageName,
              Version := first.Version }

/-- How the body of a loop ends: it goes on with the next element, it breaks out of the
loop, or it returns an error from the function. -/
inductive LoopStep where
  | next (st : SyncRun)
  | stop (st : SyncRun)
  | ret (err : GoError) (st : SyncRun)

/-- The run at the end of the body of a loop. -/
def LoopStep.run : LoopStep → SyncRun
  | .next st => st
  | .stop st => st
  | .ret _ st => st

/-- The name of the release of a package (lines 462 to 470), before
`utils.GetReleaseName`: `len(subUID)` counts the bytes of the UTF-8 encoding of the UID,
and `subUID[:5]` is its first five bytes. -/
def releaseAlias (renv : RepoEnv) (sub : Subscription) (packageName : String) : String :=
  let releaseCRName := renv.GetPackageAlias sub packageName
  if releaseCRName = "" then
    if sub.UID.utf8ByteSize ≥ 5 then packageName ++ "-" ++ renv.byteSlice sub.UID 5
    else packageName
  else releaseCRName

/-- The name `subscribeHelmCharts` gives the deployable of a chart (lines 565 to 571). -/
def chartDplName (ghsi : SubscriberItem) (packageName version : String) : String :=
  match ghsi.Channel with
  | none => ghsi.Subscription.Name ++ "-" ++ packageName ++ "-" ++ version
  | some ch => ch.Name ++ "-" ++ packageName ++ "-" ++ version

/-- The end of the body of the loop of `subscribeHelmCharts` (lines 592 to 623): the
release is encoded into a deployable, which is registered as a template. -/
def registerChart (env : SubscriberEnv) (renv : RepoEnv) (hostkey : NamespacedName)
    (syncsource : String) (st : SyncRun) (dplname : String) (helmRelease : HelmRelease) :
    LoopStep :=
  match renv.marshalReleaseErr helmRelease with
  | some _ => .next st
  | none =>
    let dpl : Deployable :=
      { Name := dplname, Namespace := dplNamespace st.ghsi,
        Template := some (.release helmRelease),
        Annotations := some (mapSet [] env.AnnotationLocal "true") }
    match env.RegisterTemplate st.templates hostkey dpl syncsource with
    | some err =>
      let st1 := (setPackageStatus env st dpl.Name err).1
      .next (st1.withRecords st1.ghsi.Subscription.Status (mapSet st1.pkgMap dpl.Name true))
    | none =>
      .next { st with
        templates := st.templates ++ [(hostkey, dpl, syncsource)],
        pkgMap := mapSet st.pkgMap dpl.Name true }

/-- The body of the loop of `subscribeHelmCharts` from the override on (lines 545 to
623), for the release `helmRelease` that was built (`isCreate`) or found. -/
def subscribeRelease (env : SubscriberEnv) (renv : RepoEnv) (hostkey : NamespacedName)
    (syncsource : String) (st : SyncRun) (packageName : String)
    (chartVersions : List ChartVersion) (releaseKey : NamespacedName) (isCreate : Bool)
    (helmRelease : HelmRelease) : Except Panic LoopStep :=
  match override renv st.ghsi helmRelease with
  | .error err => .ok (.ret err st)
  | .ok overridden =>
    let helmRelease1 : HelmRelease :=
      match overridden.Spec with
      | none => { overridden with Spec := some [("", "")] }
      | some _ => overridden
    match chartVersions with
    | [] => .error .indexOutOfRange
    | first :: _ =>
      let dplname := chartDplName st.ghsi packageName first.Version
      let compared : Except Panic Bool :=
        if !isCreate then
          match renv.getHelmRelease releaseKey with
          | .ok existingHelmRelease =>
            compareHelmRelease renv.jsonMarshal existingHelmRelease helmRelease1
          | .error _ => .ok false
        else .ok false
      match compared with
      | .error p => .error p
      | .ok true => .ok (.next { st with pkgMap := mapSet st.pkgMap dplname true })
      | .ok false => .ok (registerChart env renv hostkey syncsource st dplname helmRelease1)

/-- The body of the loop of `subscribeHelmCharts` for one entry of the index file. -/
def subscribeChart (env : SubscriberEnv) (renv : RepoEnv) (hostkey : NamespacedName)
    (syncsource : String) (st : SyncRun) (packageName : String)
    (chartVersions : List ChartVersion) : Except Panic LoopStep :=
  match renv.GetReleaseName (releaseAlias renv st.ghsi.Subscription packageName) with
  | .error err => .ok (.ret err st)
  | .ok releaseCRName =>
    let releaseKey : NamespacedName :=
      { Name := releaseCRName, Namespace := st.ghsi.Subscription.Namespace }
    match renv.getHelmRelease releaseKey with
    | .error err =>
      if mcmhub.IsNotFound err then
        match releaseRepo renv st.ghsi packageName chartVersions with
        | .error p => .error p
        | .ok repo =>
          subscribeRelease env renv hostkey syncsource st packageName chartVersions releaseKey
            true
            { APIVersion := "apps.open-cluster-management.io/v1", Kind := "HelmRelease",
              Name := releaseCRName, Namespace := st.ghsi.Subscription.Namespace,
              Owner := some (st.ghsi.Subscription.Name, st.ghsi.Subscription.UID),
              Repo := repo, Spec := none }
      else .ok (.stop st)
    | .ok found =>
      match releaseRepo renv st.ghsi packageName chartVersions with
      | .error p => .error p
      | .ok repo =>
        subscribeRelease env renv hostkey syncsource st packageName chartVersions releaseKey
          false
          { found with
            APIVersion := "apps.open-cluster-management.io/v1", Kind := "HelmRelease",
            Repo := repo }

/-- The loop of `subscribeHelmCharts` over the entries of the index file: the error the
function returns from inside the loop, if it does, and the run where the loop ends. -/
def subscribeCharts (env : SubscriberEnv) (renv : RepoEnv) (hostkey : NamespacedName)
    (syncsource : String) :
    List (String × List ChartVersion) → SyncRun → Except Panic (Option GoError × SyncRun)
  | [], st => .ok (none, st)
  | (packageName, chartVersions) :: rest, st =>
    match subscribeChart env renv hostkey syncsource st packageName chartVersions with
    | .error p => .error p
    | .ok (.ret err st1) => .ok (some err, st1)
    | .ok (.stop st1) => .ok (none, st1)
    | .ok (.next st1) => subscribeCharts env renv hostkey syncsource rest st1

/-- The run with the subscription of the item replaced. -/
def SyncRun.withSubscription (st : SyncRun) (sub : Subscription) : SyncRun :=
  { st with ghsi := { st.ghsi with Subscription := sub } }

/-- The method `subscribeHelmCharts`: the returned error and the run afterwards.  The
package map is a fresh one; reading the entries through a nil index file panics.  After
the loop the packages are validated, once more against the subscription the local client
gets when the first validation fails. -/
def subscribeHelmCharts (env : SubscriberEnv) (renv : RepoEnv) (st : SyncRun)
    (indexFile : Option IndexFile) : Except Panic (Option GoError × SyncRun) :=
  let hostkey : NamespacedName :=
    { Name := st.ghsi.Subscription.Name, Namespace := st.ghsi.Subscription.Namespace }
  let syncsource := renv.githubhelmsyncsource ++ hostkeyString hostkey
  let st0 : SyncRun := { st with pkgMap := [] }
  match indexFile with
  | none => .error .nilDeref
  | some index =>
    match subscribeCharts env renv hostkey syncsource index.Entries st0 with
    | .error p => .error p
    | .ok (some err, st1) => .ok (some err, st1)
    | .ok (none, st1) =>
      let first := renv.ValidatePackagesInSubscriptionStatus st1.ghsi.Subscription st1.pkgMap
      match first.2 with
      | none => .ok (none, st1.withSubscription first.1)
      | some _ =>
        let fetched : Subscription :=
          match renv.getSubscription hostkey with
          | .ok sub => sub
          | .error _ => first.1
        let second := renv.ValidatePackagesInSubscriptionStatus fetched st1.pkgMap
        .ok (second.2, st1.withSubscription second.1)

/-- What a poll of the subscriber item reads and writes: the item, the templates that
`RegisterTemplate` accepted, oldest first, and the validators handed to `ApplyValiadtor`,
each with the source it was created for. -/
structure ItemState where
  ghsi : SubscriberItem
  templates : List Template
  applied : List (String × List (kubernetes.GroupVersionKind × NamespacedName × NamespacedName))

/-- The part of `doSubscription` that processes a cloned repository whose commit id
differs from the recorded one and whose files are sorted (lines 136 to 175). -/
def processClonedRepo (env : SubscriberEnv) (renv : RepoEnv) (st : ItemState)
    (ghsi2 : SubscriberItem) (commitID : String) : Except Panic (Option GoError × ItemState) :=
  let hostkey : NamespacedName :=
    { Name := ghsi2.Subscription.Name, Namespace := ghsi2.Subscription.Namespace }
  let syncsource := renv.githubk8ssyncsource ++ hostkeyString hostkey
  let run0 : SyncRun := { ghsi := ghsi2, pkgMap := [], kvalid := [], templates := st.templates }
  match subscribeResources env hostkey syncsource run0.ghsi.crdsAndNamespaceFiles run0 with
  | .error p => .error p
  | .ok run1 =>
    match subscribeResources env hostkey syncsource run1.ghsi.rbacFiles run1 with
    | .error p => .error p
    | .ok run2 =>
      match subscribeResources env hostkey syncsource run2.ghsi.otherFiles run2 with
      | .error p => .error p
      | .ok run3 =>
        match subscribeKustomizations env renv hostkey syncsource run3 with
        | .error p => .error p
        | .ok run4 =>
          let applied := st.applied ++ [(syncsource, run4.kvalid)]
          match subscribeHelmCharts env renv run4 run4.ghsi.indexFile with
          | .error p => .error p
          | .ok (some err, run5) =>
            .ok (some err, { ghsi := run5.ghsi, templates := run5.templates, applied := applied })
          | .ok (none, run5) =>
            .ok (none,
              { ghsi :=
                  { run5.ghsi with
                    commitID := commitID, chartDirs := [], kustomizeDirs := [],
                    crdsAndNamespaceFiles := [], rbacFiles := [], otherFiles := [],
                    indexFile := none },
                templates := run5.templates, applied := applied })

/-- The method `doSubscription`: the returned error and the state afterwards. -/
def doSubscription (env : SubscriberEnv) (renv : RepoEnv) (st : ItemState) :
    Except Panic (Option GoError × ItemState) :=
  match cloneGitRepo renv st.ghsi with
  | .error p => .error p
  | .ok ((_, some err), ghsi1) => .ok (some err, { st with ghsi := ghsi1 })
  | .ok ((commitID, none), ghsi1) =>
    if commitID ≠ ghsi1.commitID then
      match sortClonedGitRepo renv ghsi1 with
      | (some err, ghsi2) => .ok (some err, { st with ghsi := ghsi2 })
      | (none, ghsi2) => processClonedRepo env renv st ghsi2 commitID
    else .ok (none, { st with ghsi := ghsi1 })

/-- The item `b` is the item `a` apart from its subscription and its synchronizer, the
two fields the subscribing of resources and charts writes. -/
def SubscriberItem.sameRest (a b : SubscriberItem) : Prop :=
  ∃ sub sync, b = { a with Subscription := sub, synchronizer := sync }

/-- A config map of the scenario batch. -/
def batchConfigMap : ParsedResource :=
  ⟨false, ⟨⟨"", "v1", "ConfigMap"⟩, "settings", "default", none, none⟩⟩

/-- A resource of a kind the synchronizer does not know. -/
def batchWidget : ParsedResource :=
  ⟨false, ⟨⟨"example.com", "v1", "Widget"⟩, "gadget", "default", none, none⟩⟩

/-- A deployment of the scenario batch. -/
def batchDeployment : ParsedResource :=
  ⟨false, ⟨⟨"apps", "v1", "Deployment"⟩, "web", "default", none, none⟩⟩

/-- A synchronizer that knows config maps and deployments. -/
def batchSynchronizer : kubernetes.KubeSynchronizer :=
  { Interval := 60, Extension := none,
    KubeResources := [(⟨"", "v1", "ConfigMap"⟩, ⟨true⟩), (⟨"apps", "v1", "Deployment"⟩, ⟨true⟩)],
    tplCh := [] }

/-- An environment with two readable files and one that cannot be read, in which no
helper fails and the status setter records the error under the package name. -/
def batchEnv : SubscriberEnv :=
  { tables := ⟨[], []⟩,
    readResources := fun f =>
      if f = "manifests/a.yaml" then .ok [batchConfigMap, batchWidget]
      else if f = "manifests/b.yaml" then .ok [batchDeployment]
      else .error (.new "no such file"),
    LabelChecker := fun _ _ => true,
    OverrideResourceBySubscription := fun r _ => .ok r,
    marshalErr := fun _ => none,
    SetInClusterPackageStatus := fun status pkgname err => (mapSet status pkgname (some err), none),
    RegisterTemplate := fun _ _ _ _ => none,
    AnnotationLocal := "apps.open-cluster-management.io/is-local-deployable" }

/-- The environment of the scenario with a synchronizer that does not accept the template
of the deployment. -/
def batchRejectEnv : SubscriberEnv :=
  { batchEnv with
    RegisterTemplate := fun _ _ dpl _ =>
      if dpl.Name = "ch-Deployment-web" then some (.new "template rejected") else none }

/-- The environment of the scenario with an encoder that fails on the deployment. -/
def batchEncodeEnv : SubscriberEnv :=
  { batchEnv with
    marshalErr := fun rsc =>
      if rsc.Gvk.Kind = "Deployment" then some (.new "json: unsupported value") else none }

/-- The environment of the scenario with an override helper that fails on the
deployment. -/
def batchOverrideEnv : SubscriberEnv :=
  { batchEnv with
    OverrideResourceBySubscription := fun rsc _ =>
      if rsc.Gvk.Kind = "Deployment" then .error (.new "no override for the package")
      else .ok rsc }

/-- The files of the scenario, the second of which cannot be read. -/
def batchFiles : List String :=
  ["manifests/a.yaml", "manifests/missing.yaml", "manifests/b.yaml"]

/-- The subscriber item of the subscription `ns/sub` to the channel `ch-ns/ch`. -/
def batchItem : SubscriberItem :=
  { Subscription := ⟨"ns", "sub", "0f3a9c2e-77b1", none, "", none, none, []⟩,
    SubscriptionConfigMap := none,
    Channel := some ⟨"ch-ns", "ch", "https://github.com/org/repo", ⟨none⟩, ⟨none⟩⟩,
    synchronizer := batchSynchronizer,
    repoRoot := "/tmp/repo",
    commitID := "abc123",
    chartDirs := [],
    kustomizeDirs := [],
    crdsAndNamespaceFiles := [],
    rbacFiles := [],
    otherFiles := batchFiles,
    indexFile := none }

/-- The run before the first resource. -/
def batchRun : SyncRun :=
  { ghsi := batchItem, pkgMap := [], kvalid := [], templates := [] }

/-- The run before the first resource when the subscription has package overrides. -/
def batchOverrideRun : SyncRun :=
  { batchRun with
    ghsi :=
      { batchItem with
        Subscription :=
          ⟨"ns", "sub", "0f3a9c2e-77b1", none, "", none, some [⟨"web", ["replicas: 2"]⟩], []⟩ } }

/-- The deployable of a resource of the scenario: the resource with the namespace of the
subscription, under the name of the channel. -/
def batchDeployable (rsc : Unstructured) : Deployable :=
  { Name := "ch-" ++ rsc.Gvk.Kind ++ "-" ++ rsc.Name,
    Namespace := "ch-ns",
    Template := some (.resource { rsc with Namespace := "ns" }),
    Annotations := some [("apps.open-cluster-management.io/is-local-deployable", "true")] }

/-- The run after the config map. -/
def batchAfterConfigMap : SyncRun :=
  { ghsi := batchItem,
    pkgMap := [("ch-ConfigMap-settings", true)],
    kvalid := [(⟨"", "v1", "ConfigMap"⟩, ⟨"ns", "sub"⟩, ⟨"ch-ns", "ch-ConfigMap-settings"⟩)],
    templates := [(⟨"ns", "sub"⟩, batchDeployable batchConfigMap.rsc, "subgbk8s-ns/sub")] }

/-- The branch of a subscription in the scenarios: its github-branch annotation, or
`master`. -/
def pollBranch (sub : Subscription) : String :=
  if annoGet sub.Annotations "apps.open-cluster-management.io/github-branch" = "" then "master"
  else annoGet sub.Annotations "apps.open-cluster-management.io/github-branch"

/-- The helm release of the chart `nginx` as `subscribeHelmCharts` builds it for the item
of the scenarios, with the spec it gets when no override sets one. -/
def pollRelease : HelmRelease :=
  { APIVersion := "apps.open-cluster-management.io/v1", Kind := "HelmRelease",
    Name := "nginx-0f3a9", Namespace := "ns",
    Owner := some ("sub", "0f3a9c2e-77b1"),
    Repo :=
      { Source := some
          { SourceType := "github",
            GitHub := some
              { Urls := ["https://github.com/org/repo"], ChartPath := "charts/nginx",
                Branch := "dev" },
            HelmRepo := none },
        ConfigMapRef := ⟨none⟩, SecretRef := ⟨none⟩,
        ChartName := "nginx", Version := "1.0.0" },
    Spec := some [("", "")] }

/-- The helm release of the chart `nginx` of a helm repository, whose spec holds a value
that `json.Marshal` does not encode. -/
def repoRelease : HelmRelease :=
  { APIVersion := "apps.open-cluster-management.io/v1", Kind := "HelmRelease",
    Name := "nginx-0f3a9", Namespace := "ns",
    Owner := some ("sub", "0f3a9c2e-77b1"),
    Repo :=
      { Source := some
          { SourceType := "helmrepo", GitHub := none,
            HelmRepo := some { Urls := ["https://charts.example.com/stable"] } },
        ConfigMapRef := ⟨none⟩, SecretRef := ⟨none⟩,
        ChartName := "nginx", Version := "1.0.0" },
    Spec := some [("replicaCount", "NaN")] }

/-- An encoder that fails on a spec with the value `NaN`, as `json.Marshal` does on a
number that is not a number, and encodes the other specs key by key. -/
def nanMarshal (spec : Option (List (String × String))) : Except GoError String :=
  match spec with
  | none => .ok "null"
  | some m =>
    if m.any (fun kv => kv.2 == "NaN") then .error (.new "json: unsupported value: NaN")
    else .ok (String.intercalate "," (m.map (fun kv => kv.1 ++ ":" ++ kv.2)))

/-- An environment in which no helper fails: the repository is cloned at `abc123` into a
folder named after the channel and the branch, it holds the chart `nginx` and no other
file, and the cluster holds the helm releases `stored`.  The names of the scenarios are
ASCII texts: on these the case folding is the one of ASCII, and a slice of bytes is a
slice of characters. -/
def pollEnv (stored : List (NamespacedName × HelmRelease)) : RepoEnv :=
  { GetLocalGitFolder := fun ch sub =>
      match ch with
      | some c => "/tmp/" ++ c.Namespace ++ "/" ++ c.Name ++ "/" ++ pollBranch sub
      | none => "/tmp",
    GetChannelSecret := fun _ => .ok ("", ""),
    GetSubscriptionBranch := pollBranch,
    CloneGitRepo := fun _ _ _ _ _ => ("abc123", none),
    getConfigMap := fun _ => .error (.notFound "configmap not found"),
    filepathJoin := fun a b => a ++ "/" ++ b,
    SortResources := fun root _ => .ok ([("nginx", root ++ "/charts/nginx")], [], [], [], []),
    GenerateHelmIndexFile := fun _ _ _ => .ok ⟨[("nginx", [⟨"1.0.0", ["charts/nginx"]⟩])]⟩,
    OverrideKustomize := fun _ _ => none,
    kustomizeBuild := fun _ => [],
    GetPackageAlias := fun _ _ => "",
    GetReleaseName := fun name => .ok name,
    getHelmRelease := fun key =>
      match mapGet stored key with
      | some hr => .ok hr
      | none => .error (.notFound "helmrelease not found"),
    OverrideTemplate := fun hr _ => .ok hr,
    jsonMarshal := fun spec =>
      match spec with
      | none => .ok "null"
      | some m => .ok (String.intercalate "," (m.map (fun kv => kv.1 ++ ":" ++ kv.2))),
    marshalReleaseErr := fun _ => none,
    ValidatePackagesInSubscriptionStatus := fun sub _ => (sub, none),
    getSubscription := fun _ => .error (.notFound "subscription not found"),
    EqualFold := fun a b => a.data.map Char.toLower == b.data.map Char.toLower,
    byteSlice := fun s n => s.take n,
    AnnotationGithubPath := "apps.open-cluster-management.io/github-path",
    githubk8ssyncsource := "subgbk8s-",
    githubhelmsyncsource := "subgbhelm-",
    GitHubSourceType := "github" }

/-- The item of the scenarios on the branch `dev`, as a poll that found the commit
`recorded` on the branch `main` has left it. -/
def pollItem (recorded : String) : SubscriberItem :=
  { batchItem with
    Subscription :=
      ⟨"ns", "sub", "0f3a9c2e-77b1",
        some [("apps.open-cluster-management.io/github-branch", "dev")], "", none, none, []⟩,
    repoRoot := "/tmp/ch-ns/ch/main",
    commitID := recorded,
    otherFiles := [] }

/-- The state of the scenarios before a poll. -/
def pollState (recorded : String) : ItemState :=
  { ghsi := pollItem recorded, templates := [], applied := [] }

end github


/-! ## Facts about the map and set operations -/

theorem mapGet_mapSet_self {K V : Type} [DecidableEq K] (m : List (K × V)) (k : K) (v : V) :
    mapGet (mapSet m k v) k = some v := by
  induction m with
  | nil => simp [mapSet, mapGet]
  | cons e m ih =>
    obtain ⟨k', v'⟩ := e
    by_cases hk : k' = k
    · simp [mapSet, mapGet, hk]
    · simp [mapSet, mapGet, hk, ih]

theorem mapGet_mapSet_ne {K V : Type} [DecidableEq K] (m : List (K × V)) (k k2 : K) (v : V)
    (hne : k2 ≠ k) : mapGet (mapSet m k v) k2 = mapGet m k2 := by
  have hne2 : ¬ k = k2 := fun h => hne h.symm
  induction m with
  | nil => simp [mapSet, mapGet, hne2]
  | cons e m ih =>
    obtain ⟨k', v'⟩ := e
    by_cases hk : k' = k
    · subst hk
      simp [mapSet, mapGet, hne2]
    · by_cases hk2 : k' = k2
      · subst hk2
        simp [mapSet, mapGet, hk]
      · simp [mapSet, mapGet, hk, hk2, ih]

theorem mapGet_mapDelete_self {K V : Type} [DecidableEq K] (m : List (K × V)) (k : K) :
    mapGet (mapDelete m k) k = none := by
  induction m with
  | nil => simp [mapDelete, mapGet]
  | cons e m ih =>
    obtain ⟨k', v'⟩ := e
    simp only [mapDelete] at ih
    by_cases hk : k' = k
    · simp [mapDelete, List.filter_cons, hk, ih]
    · simp [mapDelete, List.filter_cons, hk, mapGet, ih]

theorem mapGet_mapDelete_ne {K V : Type} [DecidableEq K] (m : List (K × V)) (k k2 : K)
    (hne : k2 ≠ k) : mapGet (mapDelete m k) k2 = mapGet m k2 := by
  induction m with
  | nil => simp [mapDelete, mapGet]
  | cons e m ih =>
    obtain ⟨k', v'⟩ := e
    simp only [mapDelete] at ih
    by_cases hk : k' = k
    · have hk2 : ¬ k = k2 := fun h => hne h.symm
      simp [mapDelete, List.filter_cons, hk, mapGet, ih, hk2]
    · by_cases hk2 : k' = k2
      · subst hk2
        simp [mapDelete, List.filter_cons, hk, mapGet]
      · simp [mapDelete, List.filter_cons, hk, mapGet, hk2, ih]

theorem mapGet_eq_none_iff {K V : Type} [DecidableEq K] (m : List (K × V)) (k : K) :
    mapGet m k = none ↔ k ∉ mapKeys m := by
  induction m with
  | nil => simp [mapGet, mapKeys]
  | cons e m ih =>
    obtain ⟨k', v'⟩ := e
    by_cases hk : k' = k
    · simp [mapGet, mapKeys, hk]
    · have hk2 : ¬ k = k' := fun h => hk h.symm
      simp only [mapKeys] at ih
      simp [mapGet, mapKeys, hk, hk2, ih]

theorem mapGet_isSome_iff {K V : Type} [DecidableEq K] (m : List (K × V)) (k : K) :
    (mapGet m k).isSome ↔ k ∈ mapKeys m := by
  rw [← not_iff_not, ← mapGet_eq_none_iff]
  cases mapGet m k <;> simp

theorem mapGet_none_of_nil {K V : Type} [DecidableEq K] (m : List (K × V))
    (h : ∀ k, mapGet m k = none) : m = [] := by
  cases m with
  | nil => rfl
  | cons e m =>
    obtain ⟨k', v'⟩ := e
    have := h k'
    simp [mapGet] at this

theorem mapKeys_mapSet_of_mem {K V : Type} [DecidableEq K] (m : List (K × V)) (k : K) (v : V)
    (h : k ∈ mapKeys m) : mapKeys (mapSet m k v) = mapKeys m := by
  induction m with
  | nil => simp [mapKeys] at h
  | cons e m ih =>
    obtain ⟨k', v'⟩ := e
    by_cases hk : k' = k
    · simp [mapSet, mapKeys, hk]
    · have hk2 : ¬ k = k' := fun h => hk h.symm
      simp only [mapKeys, List.map_cons, List.mem_cons, hk2, false_or] at h
      simp only [mapKeys] at ih
      simp [mapSet, mapKeys, hk, ih h]

theorem mapKeys_mapSet_of_not_mem {K V : Type} [DecidableEq K] (m : List (K × V)) (k : K)
    (v : V) (h : k ∉ mapKeys m) : mapKeys (mapSet m k v) = mapKeys m ++ [k] := by
  induction m with
  | nil => simp [mapSet, mapKeys]
  | cons e m ih =>
    obtain ⟨k', v'⟩ := e
    simp only [mapKeys, List.map_cons, List.mem_cons, not_or] at h
    have hk : ¬ k' = k := fun hh => h.1 hh.symm
    simp only [mapKeys] at ih
    simp [mapSet, mapKeys, hk, ih h.2]

theorem keysNodup_mapSet {K V : Type} [DecidableEq K] (m : List (K × V)) (k : K) (v : V)
    (h : keysNodup m) : keysNodup (mapSet m k v) := by
  unfold keysNodup at *
  by_cases hk : k ∈ mapKeys m
  · rw [mapKeys_mapSet_of_mem m k v hk]
    exact h
  · rw [mapKeys_mapSet_of_not_mem m k v hk]
    exact List.Nodup.append h (List.nodup_singleton k) (by simpa using hk)

theorem mapKeys_mapDelete {K V : Type} [DecidableEq K] (m : List (K × V)) (k : K) :
    mapKeys (mapDelete m k) = (mapKeys m).filter (fun x => !decide (x = k)) := by
  induction m with
  | nil => simp [mapDelete, mapKeys]
  | cons e m ih =>
    obtain ⟨k', v'⟩ := e
    simp only [mapDelete, mapKeys] at ih
    by_cases hk : k' = k
    · simp [mapDelete, mapKeys, List.filter_cons, hk, ih]
    · simp [mapDelete, mapKeys, List.filter_cons, hk, ih]

theorem keysNodup_mapDelete {K V : Type} [DecidableEq K] (m : List (K × V)) (k : K)
    (h : keysNodup m) : keysNodup (mapDelete m k) := by
  unfold keysNodup at *
  rw [mapKeys_mapDelete]
  exact List.Nodup.filter _ h

theorem mem_setAdd {K : Type} [DecidableEq K] (s : List K) (k x : K) :
    x ∈ setAdd s k ↔ x ∈ s ∨ x = k := by
  unfold setAdd
  by_cases hk : k ∈ s
  · simp only [hk, if_true]
    constructor
    · exact fun h => Or.inl h
    · rintro (h | h)
      · exact h
      · exact h ▸ hk
  · simp [hk]

theorem nodup_setAdd {K : Type} [DecidableEq K] (s : List K) (k : K) (h : s.Nodup) :
    (setAdd s k).Nodup := by
  unfold setAdd
  by_cases hk : k ∈ s
  · simpa [hk] using h
  · simp only [hk, if_false]
    exact List.Nodup.append h (List.nodup_singleton k) (by simpa using hk)

theorem mem_setDelete {K : Type} [DecidableEq K] (s : List K) (k x : K) :
    x ∈ setDelete s k ↔ x ∈ s ∧ x ≠ k := by
  simp [setDelete]

theorem nodup_setDelete {K : Type} [DecidableEq K] (s : List K) (k : K) (h : s.Nodup) :
    (setDelete s k).Nodup :=
  List.Nodup.filter _ h

theorem setDelete_of_not_mem {K : Type} [DecidableEq K] (s : List K) (k : K) (h : k ∉ s) :
    setDelete s k = s := by
  unfold setDelete
  rw [List.filter_eq_self]
  intro x hx
  have : x ≠ k := fun hxk => h (hxk ▸ hx)
  simp [this]


/-! ## The synchronizer client: `AddTemplates` and `GetValidatedGVK` -/

namespace kubernetes

/-- The group/kind built at line 63 is the one `GroupKind()` returns. -/
theorem groupKind_eq (v : GroupVersionKind) :
    ({ Group := v.Group, Kind := v.Kind } : GroupKind) = v.GroupKind := rfl

/-- Two GVKs with the same group/kind and the same version are equal. -/
theorem gvk_eq_of_groupKind_version (a b : GroupVersionKind)
    (hgk : a.GroupKind = b.GroupKind) (hv : a.Version = b.Version) : a = b := by
  cases a
  cases b
  simp only [GroupVersionKind.GroupKind, GroupKind.mk.injEq] at hgk
  simp only at hv
  simp [hgk.1, hgk.2, hv]

/-- The loop returns the key itself as soon as the table holds it. -/
theorem scan_of_mem (valid : GroupVersionKind) (m : List (GroupVersionKind × ResourceMap))
    (hmem : valid ∈ mapKeys m) (found : Bool) (regGvk : GroupVersionKind) :
    scanKubeResources valid m found regGvk = .returned valid := by
  induction m generalizing found regGvk with
  | nil => simp [mapKeys] at hmem
  | cons e m ih =>
    obtain ⟨gvk, r⟩ := e
    simp only [mapKeys, List.map_cons, List.mem_cons] at hmem
    by_cases hgk : valid.GroupKind = gvk.GroupKind
    · by_cases hv : valid.Version = gvk.Version
      · have : gvk = valid := (gvk_eq_of_groupKind_version valid gvk hgk hv).symm
        simp [scanKubeResources, hgk, hv, this]
      · have hne : ¬ valid = gvk := fun h => hv (by rw [h])
        simp only [scanKubeResources, hgk, hv, if_true, if_false]
        exact ih (by simpa [mapKeys, hne] using hmem) true gvk
    · have hne : ¬ valid = gvk := fun h => hgk (by rw [h])
      simp only [scanKubeResources, hgk, if_false]
      exact ih (by simpa [mapKeys, hne] using hmem) found regGvk

/-- The loop does not return when the table does not hold the key; it ends either in
the state it started from, when no key has the group/kind, or with `found` set and a key
of the table that has the group/kind. -/
theorem scan_of_not_mem (valid : GroupVersionKind) (m : List (GroupVersionKind × ResourceMap))
    (hnot : valid ∉ mapKeys m) (found : Bool) (regGvk : GroupVersionKind) :
    ((∀ k ∈ mapKeys m, k.GroupKind ≠ valid.GroupKind) ∧
        scanKubeResources valid m found regGvk = .finished found regGvk) ∨
      (∃ reg, reg ∈ mapKeys m ∧ reg.GroupKind = valid.GroupKind ∧
        scanKubeResources valid m found regGvk = .finished true reg) := by
  induction m generalizing found regGvk with
  | nil => left; simp [mapKeys, scanKubeResources]
  | cons e m ih =>
    obtain ⟨gvk, r⟩ := e
    simp only [mapKeys, List.map_cons, List.mem_cons, not_or] at hnot
    have hnot2 : valid ∉ mapKeys m := by simpa [mapKeys] using hnot.2
    by_cases hgk : valid.GroupKind = gvk.GroupKind
    · have hv : ¬ valid.Version = gvk.Version := fun hv =>
        hnot.1 (gvk_eq_of_groupKind_version valid gvk hgk hv)
      right
      have hstep : scanKubeResources valid ((gvk, r) :: m) found regGvk =
          scanKubeResources valid m true gvk := by
        simp [scanKubeResources, hgk, hv]
      rw [hstep]
      rcases ih hnot2 true gvk with ⟨_, hfin⟩ | ⟨reg, hreg, hrgk, hfin⟩
      · exact ⟨gvk, by simp [mapKeys], hgk.symm, hfin⟩
      · exact ⟨reg, by simp only [mapKeys] at hreg; simp [mapKeys, hreg], hrgk, hfin⟩
    · have hstep : scanKubeResources valid ((gvk, r) :: m) found regGvk =
          scanKubeResources valid m found regGvk := by
        simp [scanKubeResources, hgk]
      rw [hstep]
      rcases ih hnot2 found regGvk with ⟨hall, hfin⟩ | ⟨reg, hreg, hrgk, hfin⟩
      · left
        refine ⟨?_, hfin⟩
        intro k hk
        simp only [mapKeys, List.map_cons, List.mem_cons] at hk
        rcases hk with rfl | hk
        · exact fun h => hgk h.symm
        · exact hall k (by simpa [mapKeys] using hk)
      · right
        exact ⟨reg, by simp only [mapKeys] at hreg; simp [mapKeys, hreg], hrgk, hfin⟩

/-- C1 (the code departs from the claim): when the order was enqueued and the worker
wrote a non-nil error to the acknowledgment channel in time, `AddTemplates` wraps the
local variable `err`, which is nil, so `gerr.Wrap` yields nil: the caller gets no error,
whatever error the worker reported. -/
theorem AddTemplates_worker_error_not_returned (sync : KubeSynchronizer) (subType : String)
    (hostSub : NamespacedName) (dpls : List DplUnit) (serr : GoError) :
    (AddTemplates sync subType hostSub dpls .sent (.received (some serr))).1 = none := by
  simp [AddTemplates, gerrWrap]

/-- C7 (as stated, refuted): a key of `KubeResources` is not returned when the extension
ignores its group/kind (the result is nil), nor when the replacement table maps it to
another GVK (that one is returned instead). -/
theorem GetValidatedGVK_known_key_counterexample :
    (⟨"apps", "v1", "Deployment"⟩ ∈
        mapKeys ([(⟨"apps", "v1", "Deployment"⟩, ⟨true⟩)] : List (GroupVersionKind × ResourceMap)) ∧
      (GetValidatedGVK ⟨[], []⟩
        { Interval := 0, Extension := some (fun gk => gk.Kind == "Deployment"),
          KubeResources := [(⟨"apps", "v1", "Deployment"⟩, ⟨true⟩)], tplCh := [] }
        ⟨"apps", "v1", "Deployment"⟩).1 = none) ∧
    (⟨"extensions", "v1beta1", "Deployment"⟩ ∈
        mapKeys ([(⟨"extensions", "v1beta1", "Deployment"⟩, ⟨true⟩),
          (⟨"apps", "v1", "Deployment"⟩, ⟨true⟩)] : List (GroupVersionKind × ResourceMap)) ∧
      (GetValidatedGVK
        ⟨[(⟨"extensions", "v1beta1", "Deployment"⟩, ⟨"apps", "v1", "Deployment"⟩)], []⟩
        { Interval := 0, Extension := none,
          KubeResources := [(⟨"extensions", "v1beta1", "Deployment"⟩, ⟨true⟩),
            (⟨"apps", "v1", "Deployment"⟩, ⟨true⟩)], tplCh := [] }
        ⟨"extensions", "v1beta1", "Deployment"⟩).1 = some ⟨"apps", "v1", "Deployment"⟩) := by
  refine ⟨⟨by decide, by decide⟩, ⟨by decide, by decide⟩⟩

/-- C7 (amended): for a key `g` of `KubeResources` that the replacement table does not
remap and whose group/kind is neither on the built-in ignore list nor ignored by the
extension, `GetValidatedGVK g` returns `g` and leaves the synchronizer, `KubeResources`
included, as it was. -/
theorem GetValidatedGVK_exact_match (t : Tables) (sync : KubeSynchronizer)
    (g : GroupVersionKind) (hkey : g ∈ mapKeys sync.KubeResources)
    (hrep : mapGet t.internalReplacedGroupVersionKind g = none)
    (hign : isIgnored t sync g.GroupKind = false) :
    GetValidatedGVK t sync g = (some g, sync) := by
  have hvalid : validOf t g = g := by simp [validOf, hrep]
  simp only [GetValidatedGVK, hvalid, groupKind_eq, hign]
  rw [scan_of_mem g sync.KubeResources hkey]
  simp

/-- The amended C7 at a table of two versions of one kind. -/
theorem GetValidatedGVK_exact_match_witness :
    GetValidatedGVK ⟨[], []⟩
        { Interval := 0, Extension := none,
          KubeResources := [(⟨"apps", "v1beta1", "Deployment"⟩, ⟨true⟩),
            (⟨"apps", "v1", "Deployment"⟩, ⟨true⟩)], tplCh := [] }
        ⟨"apps", "v1", "Deployment"⟩ =
      (some ⟨"apps", "v1", "Deployment"⟩,
        { Interval := 0, Extension := none,
          KubeResources := [(⟨"apps", "v1beta1", "Deployment"⟩, ⟨true⟩),
            (⟨"apps", "v1", "Deployment"⟩, ⟨true⟩)], tplCh := [] }) :=
  GetValidatedGVK_exact_match ⟨[], []⟩ _ ⟨"apps", "v1", "Deployment"⟩
    (by decide) (by decide) (by decide)

/-- C8 (as stated, refuted): a GVK whose group/kind is in `KubeResources` under another
version only is neither returned nor registered when the extension ignores its group/kind
(nil is returned), nor when the replacement table remaps it (the replacement is returned);
in both runs `KubeResources` stays as it was. -/
theorem GetValidatedGVK_new_version_counterexample :
    ((∃ k ∈ mapKeys ([(⟨"apps", "v1", "Deployment"⟩, ⟨true⟩)] :
          List (GroupVersionKind × ResourceMap)),
        k.GroupKind = GroupVersionKind.GroupKind ⟨"apps", "v1beta1", "Deployment"⟩) ∧
      ⟨"apps", "v1beta1", "Deployment"⟩ ∉
        mapKeys ([(⟨"apps", "v1", "Deployment"⟩, ⟨true⟩)] :
          List (GroupVersionKind × ResourceMap)) ∧
      (GetValidatedGVK ⟨[], []⟩
        { Interval := 0, Extension := some (fun gk => gk.Kind == "Deployment"),
          KubeResources := [(⟨"apps", "v1", "Deployment"⟩, ⟨true⟩)], tplCh := [] }
        ⟨"apps", "v1beta1", "Deployment"⟩).1 = none ∧
      (GetValidatedGVK ⟨[], []⟩
        { Interval := 0, Extension := some (fun gk => gk.Kind == "Deployment"),
          KubeResources := [(⟨"apps", "v1", "Deployment"⟩, ⟨true⟩)], tplCh := [] }
        ⟨"apps", "v1beta1", "Deployment"⟩).2.KubeResources =
          [(⟨"apps", "v1", "Deployment"⟩, ⟨true⟩)]) ∧
    ((∃ k ∈ mapKeys ([(⟨"extensions", "v1", "Deployment"⟩, ⟨true⟩),
          (⟨"apps", "v1", "Deployment"⟩, ⟨true⟩)] : List (GroupVersionKind × ResourceMap)),
        k.GroupKind = GroupVersionKind.GroupKind ⟨"extensions", "v1beta1", "Deployment"⟩) ∧
      ⟨"extensions", "v1beta1", "Deployment"⟩ ∉
        mapKeys ([(⟨"extensions", "v1", "Deployment"⟩, ⟨true⟩),
          (⟨"apps", "v1", "Deployment"⟩, ⟨true⟩)] : List (GroupVersionKind × ResourceMap)) ∧
      (GetValidatedGVK
        ⟨[(⟨"extensions", "v1beta1", "Deployment"⟩, ⟨"apps", "v1", "Deployment"⟩)], []⟩
        { Interval := 0, Extension := none,
          KubeResources := [(⟨"extensions", "v1", "Deployment"⟩, ⟨true⟩),
            (⟨"apps", "v1", "Deployment"⟩, ⟨true⟩)], tplCh := [] }
        ⟨"extensions", "v1beta1", "Deployment"⟩).1 = some ⟨"apps", "v1", "Deployment"⟩ ∧
      (GetValidatedGVK
        ⟨[(⟨"extensions", "v1beta1", "Deployment"⟩, ⟨"apps", "v1", "Deployment"⟩)], []⟩
        { Interval := 0, Extension := none,
          KubeResources := [(⟨"extensions", "v1", "Deployment"⟩, ⟨true⟩),
            (⟨"apps", "v1", "Deployment"⟩, ⟨true⟩)], tplCh := [] }
        ⟨"extensions", "v1beta1", "Deployment"⟩).2.KubeResources =
          [(⟨"extensions", "v1", "Deployment"⟩, ⟨true⟩),
            (⟨"apps", "v1", "Deployment"⟩, ⟨true⟩)]) := by
  refine ⟨⟨by decide, by decide, by decide, by decide⟩,
    ⟨by decide, by decide, by decide, by decide⟩⟩

/-- C8 (amended): for a GVK `g` that the replacement table does not remap, whose
group/kind is not ignored, and whose group/kind is in `KubeResources` under other versions
only, `GetValidatedGVK g` returns `g` and registers it: afterwards `g` is a key of
`KubeResources`, every earlier entry is still there with its value, the loop of a second
call returns at the exact match, and that second call returns `g` again and changes
nothing. -/
theorem GetValidatedGVK_new_version (t : Tables) (sync : KubeSynchronizer)
    (g : GroupVersionKind)
    (hother : ∃ k ∈ mapKeys sync.KubeResources, k.GroupKind = g.GroupKind)
    (hnew : g ∉ mapKeys sync.KubeResources)
    (hrep : mapGet t.internalReplacedGroupVersionKind g = none)
    (hign : isIgnored t sync g.GroupKind = false) :
    ∃ sync1, GetValidatedGVK t sync g = (some g, sync1) ∧
      g ∈ mapKeys sync1.KubeResources ∧
      (∀ k r, mapGet sync.KubeResources k = some r → mapGet sync1.KubeResources k = some r) ∧
      scanKubeResources g sync1.KubeResources false ⟨"", "", ""⟩ = .returned g ∧
      GetValidatedGVK t sync1 g = (some g, sync1) := by
  have hvalid : validOf t g = g := by simp [validOf, hrep]
  obtain ⟨k0, hk0, hk0gk⟩ := hother
  rcases scan_of_not_mem g sync.KubeResources hnew false ⟨"", "", ""⟩ with
    ⟨hall, _⟩ | ⟨reg, hreg, _, hfin⟩
  · exact absurd hk0gk (hall k0 hk0)
  · have hsome : (mapGet sync.KubeResources reg).isSome :=
      (mapGet_isSome_iff sync.KubeResources reg).2 hreg
    obtain ⟨r, hr⟩ := Option.isSome_iff_exists.1 hsome
    have hmem : g ∈ mapKeys (mapSet sync.KubeResources g r) := by
      rw [mapKeys_mapSet_of_not_mem _ _ _ hnew]
      simp
    have hcall : GetValidatedGVK t sync g =
        (some g, { sync with KubeResources := mapSet sync.KubeResources g r }) := by
      simp only [GetValidatedGVK, hvalid, groupKind_eq, hign, hfin]
      simp [kubeResourceAddVersionToGK, hr]
    have hign1 : isIgnored t { sync with KubeResources := mapSet sync.KubeResources g r }
        g.GroupKind = false := by
      simpa [isIgnored] using hign
    refine ⟨{ sync with KubeResources := mapSet sync.KubeResources g r }, hcall, hmem, ?_,
      scan_of_mem g _ hmem false _, GetValidatedGVK_exact_match t _ g hmem hrep hign1⟩
    intro k rk hk
    have hkne : k ≠ g := by
      intro hkg
      subst hkg
      have : (mapGet sync.KubeResources k).isSome := by simp [hk]
      exact hnew ((mapGet_isSome_iff _ _).1 this)
    simpa [mapGet_mapSet_ne _ _ _ _ hkne] using hk

/-- The amended C8 at a table that serves `apps/v1` deployments, for `apps/v1beta1`. -/
theorem GetValidatedGVK_new_version_witness :
    ∃ sync1, GetValidatedGVK ⟨[], []⟩
        { Interval := 0, Extension := none,
          KubeResources := [(⟨"apps", "v1", "Deployment"⟩, ⟨true⟩)], tplCh := [] }
        ⟨"apps", "v1beta1", "Deployment"⟩ = (some ⟨"apps", "v1beta1", "Deployment"⟩, sync1) ∧
      ⟨"apps", "v1beta1", "Deployment"⟩ ∈ mapKeys sync1.KubeResources ∧
      (∀ k r, mapGet ([(⟨"apps", "v1", "Deployment"⟩, ⟨true⟩)] :
          List (GroupVersionKind × ResourceMap)) k = some r →
        mapGet sync1.KubeResources k = some r) ∧
      scanKubeResources ⟨"apps", "v1beta1", "Deployment"⟩ sync1.KubeResources false
        ⟨"", "", ""⟩ = .returned ⟨"apps", "v1beta1", "Deployment"⟩ ∧
      GetValidatedGVK ⟨[], []⟩ sync1 ⟨"apps", "v1beta1", "Deployment"⟩ =
        (some ⟨"apps", "v1beta1", "Deployment"⟩, sync1) :=
  GetValidatedGVK_new_version ⟨[], []⟩
    { Interval := 0, Extension := none,
      KubeResources := [(⟨"apps", "v1", "Deployment"⟩, ⟨true⟩)], tplCh := [] }
    ⟨"apps", "v1beta1", "Deployment"⟩ (by decide) (by decide) (by decide) (by decide)

/-- C9 (as stated, refuted): the GVK `extensions/v1beta1 Deployment` has a group/kind
that matches no key of `KubeResources` under any version, yet the call resolves it,
because the replacement table maps it to `apps/v1 Deployment`, which is a key. -/
theorem GetValidatedGVK_unresolved_counterexample :
    (∀ k ∈ mapKeys ([(⟨"apps", "v1", "Deployment"⟩, ⟨true⟩)] :
          List (GroupVersionKind × ResourceMap)),
        k.GroupKind ≠ GroupVersionKind.GroupKind ⟨"extensions", "v1beta1", "Deployment"⟩) ∧
      (GetValidatedGVK
        ⟨[(⟨"extensions", "v1beta1", "Deployment"⟩, ⟨"apps", "v1", "Deployment"⟩)], []⟩
        { Interval := 0, Extension := none,
          KubeResources := [(⟨"apps", "v1", "Deployment"⟩, ⟨true⟩)], tplCh := [] }
        ⟨"extensions", "v1beta1", "Deployment"⟩).1 = some ⟨"apps", "v1", "Deployment"⟩ := by
  refine ⟨by decide, by decide⟩

/-- C9 (amended): with `v` the GVK that the replacement table gives for the incoming one
(the incoming one itself when the table has no entry for it), `GetValidatedGVK` returns
nil and leaves the synchronizer, `KubeResources` included, as it was whenever the
group/kind of `v` is on the built-in ignore list or ignored by the extension, and
whenever no key of `KubeResources` has the group/kind of `v`. -/
theorem GetValidatedGVK_unresolved (t : Tables) (sync : KubeSynchronizer)
    (g : GroupVersionKind)
    (h : isIgnored t sync (validOf t g).GroupKind = true ∨
      ∀ k ∈ mapKeys sync.KubeResources, k.GroupKind ≠ (validOf t g).GroupKind) :
    GetValidatedGVK t sync g = (none, sync) := by
  by_cases hign : isIgnored t sync (validOf t g).GroupKind = true
  · simp [GetValidatedGVK, groupKind_eq, hign]
  · rcases h with h | hall
    · exact absurd h hign
    · have hnot : validOf t g ∉ mapKeys sync.KubeResources := fun hmem => hall _ hmem rfl
      rcases scan_of_not_mem (validOf t g) sync.KubeResources hnot false ⟨"", "", ""⟩ with
        ⟨_, hfin⟩ | ⟨reg, hreg, hrgk, _⟩
      · simp [GetValidatedGVK, groupKind_eq, hign, hfin]
      · exact absurd hrgk (hall reg hreg)

/-- The amended C9 at an ignored kind that the table serves, and at a kind the table
does not serve. -/
theorem GetValidatedGVK_unresolved_witness :
    GetValidatedGVK ⟨[], [(⟨"", "Event"⟩, true)]⟩
        { Interval := 0, Extension := none,
          KubeResources := [(⟨"", "v1", "Event"⟩, ⟨true⟩)], tplCh := [] }
        ⟨"", "v1", "Event"⟩ =
      (none,
        { Interval := 0, Extension := none,
          KubeResources := [(⟨"", "v1", "Event"⟩, ⟨true⟩)], tplCh := [] }) ∧
    GetValidatedGVK ⟨[], []⟩
        { Interval := 0, Extension := none,
          KubeResources := [(⟨"", "v1", "Event"⟩, ⟨true⟩)], tplCh := [] }
        ⟨"example.com", "v1", "Widget"⟩ =
      (none,
        { Interval := 0, Extension := none,
          KubeResources := [(⟨"", "v1", "Event"⟩, ⟨true⟩)], tplCh := [] }) :=
  ⟨GetValidatedGVK_unresolved _ _ _ (Or.inl (by decide)),
    GetValidatedGVK_unresolved _ _ _ (Or.inr (by decide))⟩

end kubernetes


/-! ## The poll tick `GitWatch` -/

namespace mcmhub

/-- An `Update` that succeeds or fails keeps every fetchable record annotated, when the
object written has an annotation map. -/
theorem annotated_Update (clt : Client) (obj : Subscription) (hobj : obj.Annotations ≠ none)
    (h : clt.annotated) : (clt.Update obj).2.annotated := by
  intro k s hget
  unfold Client.Update at hget
  cases hue : mapGet clt.updateErr { Namespace := obj.Namespace, Name := obj.Name } with
  | some e =>
    simp only [hue] at hget
    exact h k s (by simpa [Client.Get] using hget)
  | none =>
    simp only [hue] at hget
    cases hs : mapGet clt.subs { Namespace := obj.Namespace, Name := obj.Name } with
    | none =>
      simp only [hs] at hget
      exact h k s (by simpa [Client.Get] using hget)
    | some old =>
      simp only [hs] at hget
      by_cases hk : k = { Namespace := obj.Namespace, Name := obj.Name }
      · subst hk
        cases hge : mapGet clt.getErr { Namespace := obj.Namespace, Name := obj.Name } with
        | some e => simp [Client.Get, hge] at hget
        | none =>
          simp [Client.Get, hge, mapGet_mapSet_self] at hget
          rw [← hget]
          exact hobj
      · apply h k s
        cases hge : mapGet clt.getErr k with
        | some e => simp [Client.Get, hge] at hget
        | none =>
          simp only [Client.Get, hge, mapGet_mapSet_ne _ _ _ _ hk] at hget
          simpa [Client.Get, hge] using hget

/-- On a cluster whose fetchable records are annotated, `updateCommitAnnotation` returns
and leaves such a cluster. -/
theorem updateCommitAnnotation_total (clt : Client) (subKey : NamespacedName)
    (newCommit : String) (h : clt.annotated) :
    ∃ err clt1, updateCommitAnnotation clt subKey newCommit = .ok (err, clt1) ∧
      clt1.annotated := by
  unfold updateCommitAnnotation
  cases hget : clt.Get subKey with
  | error e =>
    by_cases hnf : IsNotFound e = true
    · exact ⟨some e, clt, by simp [hnf], h⟩
    · exact ⟨none, clt, by simp [hnf], h⟩
  | ok subIns =>
    cases han : subIns.Annotations with
    | none => exact absurd han (h subKey subIns hget)
    | some anno =>
      refine ⟨(clt.Update { subIns with
          Annotations := some (mapSet anno AnnotationGitCommit newCommit) }).1,
        (clt.Update { subIns with
          Annotations := some (mapSet anno AnnotationGitCommit newCommit) }).2, ?_,
        annotated_Update clt _ (by simp) h⟩
      simp [han]

/-- The loop over the consumers returns on an annotated cluster. -/
theorem notifySubs_total (repoName bName nCommit : String) (subs : List NamespacedName)
    (clt : Client) (h : clt.annotated) :
    ∃ clt1 evs, notifySubs repoName bName nCommit subs clt = .ok (clt1, evs) ∧
      clt1.annotated := by
  induction subs generalizing clt with
  | nil => exact ⟨clt, [], rfl, h⟩
  | cons k rest ih =>
    obtain ⟨err, clt1, hu, h1⟩ := updateCommitAnnotation_total clt k nCommit h
    obtain ⟨clt2, evs, hn, h2⟩ := ih clt1 h1
    exact ⟨clt2, Event.annotate repoName bName k nCommit :: evs,
      by simp [notifySubs, hu, hn], h2⟩

/-- When the loop over the consumers returns, it has called `updateCommitAnnotation`
once per consumer, in order, with the fetched commit id. -/
theorem notifySubs_events (repoName bName nCommit : String) (subs : List NamespacedName)
    (clt clt1 : Client) (evs : List Event)
    (h : notifySubs repoName bName nCommit subs clt = .ok (clt1, evs)) :
    evs = subs.map (fun k => Event.annotate repoName bName k nCommit) := by
  induction subs generalizing clt clt1 evs with
  | nil =>
    simp [notifySubs] at h
    simp [h.2]
  | cons k rest ih =>
    simp only [notifySubs] at h
    cases hu : updateCommitAnnotation clt k nCommit with
    | error p => simp [hu] at h
    | ok r =>
      obtain ⟨e, cltA⟩ := r
      simp only [hu] at h
      cases hn : notifySubs repoName bName nCommit rest cltA with
      | error p => simp [hn] at h
      | ok r2 =>
        obtain ⟨cltB, evs2⟩ := r2
        simp only [hn, Except.ok.injEq, Prod.mk.injEq] at h
        rw [← h.2, ih cltA cltB evs2 hn]
        simp

/-- The branch entry a returning pass of the inner loop body leaves, and its calls. -/
theorem watchBranch_ok (f : GetCommitFunc) (repoName url bName : String) (bi bi1 : branchInfo)
    (clt clt1 : Client) (evs : List Event)
    (h : watchBranch f repoName url bName bi clt = .ok (bi1, clt1, evs)) :
    (bi.lastCommitID ≠ "" ∧ (f url bName bi.username bi.secret).1 = bi.lastCommitID →
        bi1 = bi ∧ evs = [Event.fetch url bName bi.username bi.secret]) ∧
      (¬ (bi.lastCommitID ≠ "" ∧ (f url bName bi.username bi.secret).1 = bi.lastCommitID) →
        bi1 = { bi with lastCommitID := (f url bName bi.username bi.secret).1 } ∧
        evs = Event.fetch url bName bi.username bi.secret ::
          bi.registeredSub.map
            (fun k => Event.annotate repoName bName k (f url bName bi.username bi.secret).1)) := by
  dsimp only [watchBranch] at h
  by_cases hc : bi.lastCommitID ≠ "" ∧ (f url bName bi.username bi.secret).1 = bi.lastCommitID
  · rw [if_pos hc] at h
    simp only [Except.ok.injEq, Prod.mk.injEq] at h
    refine ⟨fun _ => ⟨h.1.symm, h.2.2.symm⟩, fun hn => absurd hc hn⟩
  · rw [if_neg hc] at h
    refine ⟨fun hp => absurd hp hc, fun _ => ?_⟩
    cases hn : notifySubs repoName bName (f url bName bi.username bi.secret).1
        bi.registeredSub clt with
    | error p => simp [hn] at h
    | ok r =>
      obtain ⟨cltA, evsA⟩ := r
      simp only [hn, Except.ok.injEq, Prod.mk.injEq] at h
      refine ⟨h.1.symm, ?_⟩
      rw [← h.2.2, notifySubs_events _ _ _ _ _ _ _ hn]

/-- The inner loop body returns on an annotated cluster. -/
theorem watchBranch_total (f : GetCommitFunc) (repoName url bName : String) (bi : branchInfo)
    (clt : Client) (h : clt.annotated) :
    ∃ bi1 clt1 evs, watchBranch f repoName url bName bi clt = .ok (bi1, clt1, evs) ∧
      clt1.annotated := by
  dsimp only [watchBranch]
  by_cases hc : bi.lastCommitID ≠ "" ∧ (f url bName bi.username bi.secret).1 = bi.lastCommitID
  · exact ⟨bi, clt, [Event.fetch url bName bi.username bi.secret], by rw [if_pos hc], h⟩
  · obtain ⟨clt1, evs, hn, h1⟩ := notifySubs_total repoName bName
      (f url bName bi.username bi.secret).1 bi.registeredSub clt h
    exact ⟨{ bi with lastCommitID := (f url bName bi.username bi.secret).1 }, clt1,
      Event.fetch url bName bi.username bi.secret :: evs, by rw [if_neg hc, hn], h1⟩

/-- A pass of the loop body calls `updateCommitAnnotation` only under its own tag. -/
theorem watchBranch_count_other (f : GetCommitFunc) (repoName url bName : String)
    (bi bi1 : branchInfo) (clt clt1 : Client) (evs : List Event)
    (h : watchBranch f repoName url bName bi clt = .ok (bi1, clt1, evs))
    (r b : String) (hne : ¬ (repoName = r ∧ bName = b)) (k : NamespacedName) (c : String) :
    evs.count (Event.annotate r b k c) = 0 := by
  obtain ⟨h1, h2⟩ := watchBranch_ok f repoName url bName bi bi1 clt clt1 evs h
  rw [List.count_eq_zero]
  by_cases hc : bi.lastCommitID ≠ "" ∧ (f url bName bi.username bi.secret).1 = bi.lastCommitID
  · rw [(h1 hc).2]
    simp
  · rw [(h2 hc).2]
    simp only [List.mem_cons, List.mem_map, not_or, not_exists, not_and]
    refine ⟨by simp, ?_⟩
    intro x _ hx
    simp only [Event.annotate.injEq] at hx
    exact hne ⟨hx.1, hx.2.1⟩

/-- How often a returning pass of the loop body calls `updateCommitAnnotation` for a
consumer and a commit id under its own tag: once for each registered consumer with the
fetched commit id when the guard of line 175 lets the pass through, never otherwise. -/
theorem watchBranch_count_self (f : GetCommitFunc) (repoName url bName : String)
    (bi bi1 : branchInfo) (clt clt1 : Client) (evs : List Event)
    (hnd : bi.registeredSub.Nodup)
    (h : watchBranch f repoName url bName bi clt = .ok (bi1, clt1, evs))
    (k : NamespacedName) (c : String) :
    evs.count (Event.annotate repoName bName k c) =
      if ¬ (bi.lastCommitID ≠ "" ∧ (f url bName bi.username bi.secret).1 = bi.lastCommitID) ∧
          k ∈ bi.registeredSub ∧ c = (f url bName bi.username bi.secret).1 then 1 else 0 := by
  obtain ⟨h1, h2⟩ := watchBranch_ok f repoName url bName bi bi1 clt clt1 evs h
  by_cases hc : bi.lastCommitID ≠ "" ∧ (f url bName bi.username bi.secret).1 = bi.lastCommitID
  · rw [(h1 hc).2]
    simp [hc]
  · rw [(h2 hc).2]
    have hinj : Function.Injective
        (fun x => Event.annotate repoName bName x (f url bName bi.username bi.secret).1) := by
      intro a b hab
      simpa using hab
    by_cases hcn : c = (f url bName bi.username bi.secret).1
    · subst hcn
      rw [List.count_cons_of_ne (by simp), List.count_map_of_injective _ _ hinj]
      by_cases hk : k ∈ bi.registeredSub
      · simp [hc, hk, List.count_eq_one_of_mem hnd hk]
      · simp [hk, List.count_eq_zero_of_not_mem hk]
    · have hz : List.count (Event.annotate repoName bName k c)
          (Event.fetch url bName bi.username bi.secret ::
            bi.registeredSub.map
              (fun x => Event.annotate repoName bName x (f url bName bi.username bi.secret).1))
          = 0 := by
        rw [List.count_eq_zero]
        simp only [List.mem_cons, List.mem_map, not_or, not_exists, not_and]
        refine ⟨by simp, ?_⟩
        intro x _ hx
        simp only [Event.annotate.injEq] at hx
        exact hcn hx.2.2.2.symm
      rw [hz]
      simp [hcn]

/-- The inner loop returns on an annotated cluster. -/
theorem watchBranchs_total (f : GetCommitFunc) (repoName url : String)
    (bs : List (String × branchInfo)) (clt : Client) (h : clt.annotated) :
    ∃ bs1 clt1 evs, watchBranchs f repoName url bs clt = .ok (bs1, clt1, evs) ∧
      clt1.annotated := by
  induction bs generalizing clt with
  | nil => exact ⟨[], clt, [], rfl, h⟩
  | cons e rest ih =>
    obtain ⟨bName, bi⟩ := e
    obtain ⟨bi1, cltA, evsA, hw, hA⟩ := watchBranch_total f repoName url bName bi clt h
    obtain ⟨rest1, cltB, evsB, hr, hB⟩ := ih cltA hA
    exact ⟨(bName, bi1) :: rest1, cltB, evsA ++ evsB, by simp [watchBranchs, hw, hr], hB⟩

/-- The outer loop returns on an annotated cluster. -/
theorem watchRepos_total (f : GetCommitFunc) (rs : List (String × RepoRegistery))
    (clt : Client) (h : clt.annotated) :
    ∃ rs1 clt1 evs, watchRepos f rs clt = .ok (rs1, clt1, evs) ∧ clt1.annotated := by
  induction rs generalizing clt with
  | nil => exact ⟨[], clt, [], rfl, h⟩
  | cons e rest ih =>
    obtain ⟨repoName, repo⟩ := e
    obtain ⟨bs1, cltA, evsA, hw, hA⟩ := watchBranchs_total f repoName repo.url repo.branchs clt h
    obtain ⟨rest1, cltB, evsB, hr, hB⟩ := ih cltA hA
    exact ⟨(repoName, { repo with branchs := bs1 }) :: rest1, cltB, evsA ++ evsB,
      by simp [watchRepos, hw, hr], hB⟩

/-- A poll tick returns on a cluster whose fetchable records all carry an annotation
map: the one panic of a tick is the write into a nil annotation map. -/
theorem GitWatch_total (f : GetCommitFunc) (h : HubGitOps) (clt : Client)
    (hc : clt.annotated) : ∃ res, GitWatch f h clt = .ok res := by
  obtain ⟨rs1, clt1, evs, hw, _⟩ := watchRepos_total f h.repoRecords clt hc
  exact ⟨({ h with repoRecords := rs1 }, clt1, evs), by simp [GitWatch, hw]⟩

/-- Splitting a returning run of the inner loop at its first branch. -/
theorem watchBranchs_cons_ok (f : GetCommitFunc) (repoName url bName : String)
    (bi : branchInfo) (rest bs1 : List (String × branchInfo)) (clt clt1 : Client)
    (evs : List Event)
    (h : watchBranchs f repoName url ((bName, bi) :: rest) clt = .ok (bs1, clt1, evs)) :
    ∃ bi1 cltA evsA rest1 evsB,
      watchBranch f repoName url bName bi clt = .ok (bi1, cltA, evsA) ∧
      watchBranchs f repoName url rest cltA = .ok (rest1, clt1, evsB) ∧
      bs1 = (bName, bi1) :: rest1 ∧ evs = evsA ++ evsB := by
  simp only [watchBranchs] at h
  cases hw : watchBranch f repoName url bName bi clt with
  | error p => simp [hw] at h
  | ok r =>
    obtain ⟨bi1, cltA, evsA⟩ := r
    simp only [hw] at h
    cases hr : watchBranchs f repoName url rest cltA with
    | error p => simp [hr] at h
    | ok r2 =>
      obtain ⟨rest1, cltB, evsB⟩ := r2
      simp only [hr, Except.ok.injEq, Prod.mk.injEq] at h
      exact ⟨bi1, cltA, evsA, rest1, evsB, rfl, by rw [← h.2.1]; exact hr, h.1.symm, h.2.2.symm⟩

/-- Splitting a returning run of the outer loop at its first source. -/
theorem watchRepos_cons_ok (f : GetCommitFunc) (repoName : String) (repo : RepoRegistery)
    (rest rs1 : List (String × RepoRegistery)) (clt clt1 : Client) (evs : List Event)
    (h : watchRepos f ((repoName, repo) :: rest) clt = .ok (rs1, clt1, evs)) :
    ∃ bs1 cltA evsA rest1 evsB,
      watchBranchs f repoName repo.url repo.branchs clt = .ok (bs1, cltA, evsA) ∧
      watchRepos f rest cltA = .ok (rest1, clt1, evsB) ∧
      rs1 = (repoName, { repo with branchs := bs1 }) :: rest1 ∧ evs = evsA ++ evsB := by
  simp only [watchRepos] at h
  cases hw : watchBranchs f repoName repo.url repo.branchs clt with
  | error p => simp [hw] at h
  | ok r =>
    obtain ⟨bs1, cltA, evsA⟩ := r
    simp only [hw] at h
    cases hr : watchRepos f rest cltA with
    | error p => simp [hr] at h
    | ok r2 =>
      obtain ⟨rest1, cltB, evsB⟩ := r2
      simp only [hr, Except.ok.injEq, Prod.mk.injEq] at h
      exact ⟨bs1, cltA, evsA, rest1, evsB, rfl, by rw [← h.2.1]; exact hr, h.1.symm, h.2.2.symm⟩

/-- The inner loop makes no call tagged with another source or with a branch name that
is not among its branches. -/
theorem watchBranchs_count_other (f : GetCommitFunc) (repoName url : String)
    (bs bs1 : List (String × branchInfo)) (clt clt1 : Client) (evs : List Event)
    (h : watchBranchs f repoName url bs clt = .ok (bs1, clt1, evs))
    (r b : String) (hne : repoName ≠ r ∨ b ∉ mapKeys bs) (k : NamespacedName) (c : String) :
    evs.count (Event.annotate r b k c) = 0 := by
  induction bs generalizing bs1 clt evs with
  | nil =>
    simp only [watchBranchs, Except.ok.injEq, Prod.mk.injEq] at h
    simp [h.2.2.symm]
  | cons e rest ih =>
    obtain ⟨bName, bi⟩ := e
    obtain ⟨bi1, cltA, evsA, rest1, evsB, hw, hr, _, hevs⟩ :=
      watchBranchs_cons_ok f repoName url bName bi rest bs1 clt clt1 evs h
    have hne1 : ¬ (repoName = r ∧ bName = b) := by
      rintro ⟨h1, h2⟩
      rcases hne with hne | hne
      · exact hne h1
      · exact hne (by simp [mapKeys, h2])
    have hne2 : repoName ≠ r ∨ b ∉ mapKeys rest := by
      rcases hne with hne | hne
      · exact Or.inl hne
      · right
        intro hm
        exact hne (by simp only [mapKeys] at hm; simp [mapKeys, hm])
    rw [hevs, List.count_append,
      watchBranch_count_other f repoName url bName bi bi1 clt cltA evsA hw r b hne1 k c,
      ih rest1 cltA evsB hr hne2]

/-- The inner loop at one of its branches: the entry it leaves and its calls for that
branch. -/
theorem watchBranchs_branch (f : GetCommitFunc) (repoName url : String)
    (bs bs1 : List (String × branchInfo)) (clt clt1 : Client) (evs : List Event)
    (h : watchBranchs f repoName url bs clt = .ok (bs1, clt1, evs))
    (hk : keysNodup bs) (b : String) (bi : branchInfo) (hb : mapGet bs b = some bi)
    (hnd : bi.registeredSub.Nodup) :
    mapGet bs1 b = some
        (if bi.lastCommitID ≠ "" ∧ (f url b bi.username bi.secret).1 = bi.lastCommitID then bi
         else { bi with lastCommitID := (f url b bi.username bi.secret).1 }) ∧
      ∀ k c, evs.count (Event.annotate repoName b k c) =
        if ¬ (bi.lastCommitID ≠ "" ∧ (f url b bi.username bi.secret).1 = bi.lastCommitID) ∧
            k ∈ bi.registeredSub ∧ c = (f url b bi.username bi.secret).1 then 1 else 0 := by
  induction bs generalizing bs1 clt evs with
  | nil => simp [mapGet] at hb
  | cons e rest ih =>
    obtain ⟨bName, bi0⟩ := e
    obtain ⟨bi1, cltA, evsA, rest1, evsB, hw, hr, hbs1, hevs⟩ :=
      watchBranchs_cons_ok f repoName url bName bi0 rest bs1 clt clt1 evs h
    simp only [keysNodup, mapKeys, List.map_cons, List.nodup_cons] at hk
    by_cases hbn : bName = b
    · subst hbn
      have hbi : bi0 = bi := by simpa [mapGet] using hb
      subst hbi
      obtain ⟨h1, h2⟩ := watchBranch_ok f repoName url bName bi0 bi1 clt cltA evsA hw
      refine ⟨?_, ?_⟩
      · rw [hbs1]
        by_cases hc : bi0.lastCommitID ≠ "" ∧
            (f url bName bi0.username bi0.secret).1 = bi0.lastCommitID
        · rw [if_pos hc, (h1 hc).1]
          simp [mapGet]
        · rw [if_neg hc, (h2 hc).1]
          simp [mapGet]
      · intro k c
        rw [hevs, List.count_append,
          watchBranch_count_self f repoName url bName bi0 bi1 clt cltA evsA hnd hw k c,
          watchBranchs_count_other f repoName url rest rest1 cltA clt1 evsB hr repoName bName
            (Or.inr hk.1) k c]
        simp
    · have hb2 : mapGet rest b = some bi := by simpa [mapGet, hbn] using hb
      obtain ⟨ih1, ih2⟩ := ih rest1 cltA evsB hr hk.2 hb2
      refine ⟨?_, ?_⟩
      · rw [hbs1]
        simpa [mapGet, hbn] using ih1
      · intro k c
        rw [hevs, List.count_append,
          watchBranch_count_other f repoName url bName bi0 bi1 clt cltA evsA hw repoName b
            (fun hh => hbn hh.2) k c, ih2 k c]
        simp

/-- The outer loop makes no call tagged with a source that is not among its sources. -/
theorem watchRepos_count_other (f : GetCommitFunc) (rs rs1 : List (String × RepoRegistery))
    (clt clt1 : Client) (evs : List Event)
    (h : watchRepos f rs clt = .ok (rs1, clt1, evs))
    (r b : String) (hne : r ∉ mapKeys rs) (k : NamespacedName) (c : String) :
    evs.count (Event.annotate r b k c) = 0 := by
  induction rs generalizing rs1 clt evs with
  | nil =>
    simp only [watchRepos, Except.ok.injEq, Prod.mk.injEq] at h
    simp [h.2.2.symm]
  | cons e rest ih =>
    obtain ⟨repoName, repo⟩ := e
    obtain ⟨bs1, cltA, evsA, rest1, evsB, hw, hr, _, hevs⟩ :=
      watchRepos_cons_ok f repoName repo rest rs1 clt clt1 evs h
    simp only [mapKeys, List.map_cons, List.mem_cons, not_or] at hne
    rw [hevs, List.count_append,
      watchBranchs_count_other f repoName repo.url repo.branchs bs1 clt cltA evsA hw r b
        (Or.inl (fun hh => hne.1 hh.symm)) k c,
      ih rest1 cltA evsB hr (by simpa [mapKeys] using hne.2)]

/-- The outer loop at one branch of one of its sources: the entry it leaves and its
calls for that branch. -/
theorem watchRepos_branch (f : GetCommitFunc) (rs rs1 : List (String × RepoRegistery))
    (clt clt1 : Client) (evs : List Event)
    (h : watchRepos f rs clt = .ok (rs1, clt1, evs))
    (hk : keysNodup rs) (r : String) (repo : RepoRegistery) (hr : mapGet rs r = some repo)
    (hbk : keysNodup repo.branchs) (b : String) (bi : branchInfo)
    (hb : mapGet repo.branchs b = some bi) (hnd : bi.registeredSub.Nodup) :
    (∃ repo1, mapGet rs1 r = some repo1 ∧ repo1.url = repo.url ∧
      mapGet repo1.branchs b = some
        (if bi.lastCommitID ≠ "" ∧ (f repo.url b bi.username bi.secret).1 = bi.lastCommitID
         then bi else { bi with lastCommitID := (f repo.url b bi.username bi.secret).1 })) ∧
      ∀ k c, evs.count (Event.annotate r b k c) =
        if ¬ (bi.lastCommitID ≠ "" ∧
              (f repo.url b bi.username bi.secret).1 = bi.lastCommitID) ∧
            k ∈ bi.registeredSub ∧ c = (f repo.url b bi.username bi.secret).1 then 1 else 0 := by
  induction rs generalizing rs1 clt evs with
  | nil => simp [mapGet] at hr
  | cons e rest ih =>
    obtain ⟨repoName, repo0⟩ := e
    obtain ⟨bs1, cltA, evsA, rest1, evsB, hw, hrest, hrs1, hevs⟩ :=
      watchRepos_cons_ok f repoName repo0 rest rs1 clt clt1 evs h
    simp only [keysNodup, mapKeys, List.map_cons, List.nodup_cons] at hk
    by_cases hrn : repoName = r
    · subst hrn
      have hrepo : repo0 = repo := by simpa [mapGet] using hr
      subst hrepo
      obtain ⟨h1, h2⟩ := watchBranchs_branch f repoName repo0.url repo0.branchs bs1 clt cltA
        evsA hw hbk b bi hb hnd
      refine ⟨⟨{ repo0 with branchs := bs1 }, by rw [hrs1]; simp [mapGet], rfl, h1⟩, ?_⟩
      intro k c
      rw [hevs, List.count_append, h2 k c,
        watchRepos_count_other f rest rest1 cltA clt1 evsB hrest repoName b hk.1 k c]
      simp
    · have hr2 : mapGet rest r = some repo := by simpa [mapGet, hrn] using hr
      obtain ⟨⟨repo1, hg, hu, hbr⟩, ih2⟩ := ih rest1 cltA evsB hrest hk.2 hr2
      refine ⟨⟨repo1, by rw [hrs1]; simpa [mapGet, hrn] using hg, hu, hbr⟩, ?_⟩
      intro k c
      rw [hevs, List.count_append,
        watchBranchs_count_other f repoName repo0.url repo0.branchs bs1 clt cltA evsA hw r b
          (Or.inl hrn) k c, ih2 k c]
      simp

/-- One poll tick at one registered branch, when the tick returns: the branch keeps its
entry if the stored commit id is non-empty and equal to the fetched one; otherwise the
fetched commit id is stored and `updateCommitAnnotation` is called under the branch's
tag once for each of its consumers with that commit id, and for nothing else. -/
theorem GitWatch_branch (f : GetCommitFunc) (h h1 : HubGitOps) (clt clt1 : Client)
    (evs : List Event) (hrun : GitWatch f h clt = .ok (h1, clt1, evs))
    (hk : keysNodup h.repoRecords) (r : String) (repo : RepoRegistery)
    (hr : mapGet h.repoRecords r = some repo) (hbk : keysNodup repo.branchs)
    (b : String) (bi : branchInfo) (hb : mapGet repo.branchs b = some bi)
    (hnd : bi.registeredSub.Nodup) :
    getBranch h1 r b = some
        (if bi.lastCommitID ≠ "" ∧ (f repo.url b bi.username bi.secret).1 = bi.lastCommitID
         then bi else { bi with lastCommitID := (f repo.url b bi.username bi.secret).1 }) ∧
      ∀ k c, evs.count (Event.annotate r b k c) =
        if ¬ (bi.lastCommitID ≠ "" ∧
              (f repo.url b bi.username bi.secret).1 = bi.lastCommitID) ∧
            k ∈ bi.registeredSub ∧ c = (f repo.url b bi.username bi.secret).1 then 1 else 0 := by
  simp only [GitWatch] at hrun
  cases hw : watchRepos f h.repoRecords clt with
  | error p => simp [hw] at hrun
  | ok res =>
    obtain ⟨rs1, cltA, evsA⟩ := res
    simp only [hw, Except.ok.injEq, Prod.mk.injEq] at hrun
    obtain ⟨⟨repo1, hg, _, hbr⟩, hcount⟩ :=
      watchRepos_branch f h.repoRecords rs1 clt cltA evsA hw hk r repo hr hbk b bi hb hnd
    refine ⟨?_, ?_⟩
    · rw [← hrun.1]
      simp [getBranch, hg, hbr]
    · rw [← hrun.2.2]
      exact hcount

end mcmhub


/-! ## `DeregisterBranch` -/

namespace mcmhub

theorem getBranch_of_repo (h : HubGitOps) (r b : String) (repo : RepoRegistery)
    (hr : mapGet h.repoRecords r = some repo) : getBranch h r b = mapGet repo.branchs b := by
  simp [getBranch, hr]

theorem getBranch_none_of_repo (h : HubGitOps) (r b : String)
    (hr : mapGet h.repoRecords r = none) : getBranch h r b = none := by
  simp [getBranch, hr]

theorem getBranch_some (h : HubGitOps) (r b : String) (bi : branchInfo)
    (hb : getBranch h r b = some bi) :
    ∃ repo, mapGet h.repoRecords r = some repo ∧ mapGet repo.branchs b = some bi := by
  unfold getBranch at hb
  cases hr : mapGet h.repoRecords r with
  | none => simp [hr] at hb
  | some repo => exact ⟨repo, rfl, by simpa [hr] using hb⟩

/-- One pass of the loop of `DeregisterBranch` at a branch that is there, computed. -/
theorem deregisterStep_eq (r0 : String) (k : NamespacedName) (h : HubGitOps) (b : String)
    (repo : RepoRegistery) (bi : branchInfo) (hr : mapGet h.repoRecords r0 = some repo)
    (hb : mapGet repo.branchs b = some bi) (b1 : branchInfo)
    (hb1 : b1 = { bi with registeredSub := setDelete bi.registeredSub k }) :
    deregisterStep r0 k h b = .ok
      (if setDelete bi.registeredSub k = [] then
        (if mapDelete (mapSet repo.branchs b b1) b = [] then
          { h with repoRecords := mapDelete h.repoRecords r0 }
        else
          { h with repoRecords := (mapSet h.repoRecords r0
              { repo with branchs := mapDelete (mapSet repo.branchs b b1) b }) })
      else
        (if mapSet repo.branchs b b1 = [] then
          { h with repoRecords := mapDelete h.repoRecords r0 }
        else
          { h with repoRecords := (mapSet h.repoRecords r0
              { repo with branchs := mapSet repo.branchs b b1 }) })) := by
  subst hb1
  simp only [deregisterStep, hr, hb, List.length_eq_zero]
  split_ifs <;> rfl

/-- One pass of the loop of `DeregisterBranch` at a branch that is there. -/
theorem deregisterStep_spec (r0 : String) (k : NamespacedName) (h : HubGitOps) (b : String)
    (repo : RepoRegistery) (bi : branchInfo) (hr : mapGet h.repoRecords r0 = some repo)
    (hb : mapGet repo.branchs b = some bi) :
    ∃ h1, deregisterStep r0 k h b = .ok h1 ∧ h1.subRecords = h.subRecords ∧
      h1.localDir = h.localDir ∧
      (∀ r, r ≠ r0 → mapGet h1.repoRecords r = mapGet h.repoRecords r) ∧
      getBranch h1 r0 b = pruneBranch k bi ∧
      (∀ b2, b2 ≠ b → getBranch h1 r0 b2 = getBranch h r0 b2) ∧
      (∀ repo1, mapGet h1.repoRecords r0 = some repo1 →
        repo1.branchs ≠ [] ∧ repo1.url = repo.url ∧
          (keysNodup repo.branchs → keysNodup repo1.branchs)) ∧
      (keysNodup h.repoRecords → keysNodup h1.repoRecords) := by
  obtain ⟨b1, hb1⟩ : ∃ b1 : branchInfo,
      b1 = { bi with registeredSub := setDelete bi.registeredSub k } := ⟨_, rfl⟩
  have heq := deregisterStep_eq r0 k h b repo bi hr hb b1 hb1
  by_cases hempty : setDelete bi.registeredSub k = []
  · rw [if_pos hempty] at heq
    by_cases hlast : mapDelete (mapSet repo.branchs b b1) b = []
    · rw [if_pos hlast] at heq
      refine ⟨_, heq, rfl, rfl, ?_, ?_, ?_, ?_, ?_⟩
      · intro r hne
        exact mapGet_mapDelete_ne _ _ _ hne
      · simp [getBranch, mapGet_mapDelete_self, pruneBranch, hempty]
      · intro b2 hne
        have h1 : mapGet (mapDelete (mapSet repo.branchs b b1) b) b2 = none := by
          rw [hlast]; rfl
        rw [mapGet_mapDelete_ne _ _ _ hne, mapGet_mapSet_ne _ _ _ _ hne] at h1
        simp [getBranch, mapGet_mapDelete_self, hr, h1]
      · intro repo1 h1
        simp [mapGet_mapDelete_self] at h1
      · exact keysNodup_mapDelete _ _
    · rw [if_neg hlast] at heq
      refine ⟨_, heq, rfl, rfl, ?_, ?_, ?_, ?_, ?_⟩
      · intro r hne
        exact mapGet_mapSet_ne _ _ _ _ hne
      · simp [getBranch, mapGet_mapSet_self, mapGet_mapDelete_self, pruneBranch, hempty]
      · intro b2 hne
        simp [getBranch, mapGet_mapSet_self, hr, mapGet_mapDelete_ne _ _ _ hne,
          mapGet_mapSet_ne _ _ _ _ hne]
      · intro repo1 h1
        simp only [mapGet_mapSet_self, Option.some.injEq] at h1
        subst h1
        exact ⟨hlast, rfl, fun hk => keysNodup_mapDelete _ _ (keysNodup_mapSet _ _ _ hk)⟩
      · exact keysNodup_mapSet _ _ _
  · rw [if_neg hempty] at heq
    have hne0 : mapSet repo.branchs b b1 ≠ [] := by
      intro hnil
      have := mapGet_mapSet_self repo.branchs b b1
      rw [hnil] at this
      simp [mapGet] at this
    rw [if_neg hne0] at heq
    refine ⟨_, heq, rfl, rfl, ?_, ?_, ?_, ?_, ?_⟩
    · intro r hne
      exact mapGet_mapSet_ne _ _ _ _ hne
    · simp [getBranch, mapGet_mapSet_self, pruneBranch, hempty, hb1]
    · intro b2 hne
      simp [getBranch, mapGet_mapSet_self, hr, mapGet_mapSet_ne _ _ _ _ hne]
    · intro repo1 h1
      simp only [mapGet_mapSet_self, Option.some.injEq] at h1
      subst h1
      exact ⟨hne0, rfl, fun hk => keysNodup_mapSet _ _ _ hk⟩
    · exact keysNodup_mapSet _ _ _

/-- The loop of `DeregisterBranch` over distinct branch names that are all there: it
returns, touches nothing but the branches of the one source, and leaves of each branch it
went over what `pruneBranch` leaves. -/
theorem deregisterLoop_spec (r0 : String) (k : NamespacedName) (ks : List String)
    (h : HubGitOps) (hnd : ks.Nodup)
    (hpres : ∀ b ∈ ks, (getBranch h r0 b).isSome = true)
    (hne : ∀ repo, mapGet h.repoRecords r0 = some repo →
      repo.branchs ≠ [] ∧ keysNodup repo.branchs) :
    ∃ h1, deregisterLoop r0 k ks h = .ok h1 ∧ h1.subRecords = h.subRecords ∧
      h1.localDir = h.localDir ∧
      (∀ r, r ≠ r0 → mapGet h1.repoRecords r = mapGet h.repoRecords r) ∧
      (∀ b, getBranch h1 r0 b =
        if b ∈ ks then (getBranch h r0 b).bind (pruneBranch k) else getBranch h r0 b) ∧
      (∀ repo1, mapGet h1.repoRecords r0 = some repo1 →
        repo1.branchs ≠ [] ∧ keysNodup repo1.branchs) ∧
      (∀ repo repo1, mapGet h.repoRecords r0 = some repo →
        mapGet h1.repoRecords r0 = some repo1 → repo1.url = repo.url) ∧
      (keysNodup h.repoRecords → keysNodup h1.repoRecords) := by
  induction ks generalizing h with
  | nil =>
    refine ⟨h, rfl, rfl, rfl, fun _ _ => rfl, ?_, hne, ?_, fun hk => hk⟩
    · intro b
      simp
    · intro repo repo1 h1 h2
      rw [h1] at h2
      cases h2
      rfl
  | cons b ks ih =>
    have hbsome := hpres b (by simp)
    obtain ⟨bi, hbi⟩ := Option.isSome_iff_exists.1 hbsome
    obtain ⟨repo, hr, hb⟩ := getBranch_some h r0 b bi hbi
    obtain ⟨hx, hstep, hsub, hdir, hother, hself, hrest, hrepo, hkeys⟩ :=
      deregisterStep_spec r0 k h b repo bi hr hb
    have hnd2 : ks.Nodup := (List.nodup_cons.1 hnd).2
    have hbnot : b ∉ ks := (List.nodup_cons.1 hnd).1
    have hpres2 : ∀ b2 ∈ ks, (getBranch hx r0 b2).isSome = true := by
      intro b2 hb2
      have hne2 : b2 ≠ b := fun hh => hbnot (hh ▸ hb2)
      rw [hrest b2 hne2]
      exact hpres b2 (by simp [hb2])
    have hne2 : ∀ repo1, mapGet hx.repoRecords r0 = some repo1 →
        repo1.branchs ≠ [] ∧ keysNodup repo1.branchs := by
      intro repo1 h1
      obtain ⟨ha, _, hc⟩ := hrepo repo1 h1
      exact ⟨ha, hc (hne repo hr).2⟩
    obtain ⟨h1, hloop, hsub1, hdir1, hother1, hbr1, hrepo1, hurl1, hkeys1⟩ :=
      ih hx hnd2 hpres2 hne2
    refine ⟨h1, ?_, hsub1.trans hsub, hdir1.trans hdir, ?_, ?_, hrepo1, ?_,
      fun hk => hkeys1 (hkeys hk)⟩
    · simp [deregisterLoop, hstep, hloop]
    · intro r hner
      rw [hother1 r hner, hother r hner]
    · intro b2
      rw [hbr1 b2]
      by_cases hb2 : b2 = b
      · subst hb2
        simp [hbnot, hself, hbi]
      · by_cases hin : b2 ∈ ks
        · simp [hin, hrest b2 hb2]
        · simp [hin, hb2, hrest b2 hb2]
    · intro repoA repo1 hA h1r
      rw [hr] at hA
      cases hA
      cases hx0 : mapGet hx.repoRecords r0 with
      | none =>
        -- the source was deleted by the first pass, so no later pass can have run
        have hgone : ∀ b2, getBranch h1 r0 b2 = none := by
          intro b2
          rw [hbr1 b2]
          have hnone : getBranch hx r0 b2 = none := getBranch_none_of_repo hx r0 b2 hx0
          by_cases hin : b2 ∈ ks
          · have := hpres2 b2 hin
            rw [hnone] at this
            simp at this
          · simp [hin, hnone]
        obtain ⟨hne1, _⟩ := hrepo1 repo1 h1r
        exfalso
        apply hne1
        apply mapGet_none_of_nil
        intro b2
        have := hgone b2
        rwa [getBranch_of_repo h1 r0 b2 repo1 h1r] at this
      | some repoX =>
        rw [hurl1 repoX repo1 hx0 h1r]
        exact (hrepo repoX hx0).2.1

/-- The registry `DeregisterBranch` leaves for a registered consumer of a consistent
registry. -/
theorem DeregisterBranch_spec (h : HubGitOps) (hinv : Consistent h) (k : NamespacedName)
    (r0 : String) (hk : mapGet h.subRecords k = some r0) :
    ∃ h1, DeregisterBranch h k = .ok h1 ∧ h1.subRecords = mapDelete h.subRecords k ∧
      h1.localDir = h.localDir ∧
      (∀ r, r ≠ r0 → mapGet h1.repoRecords r = mapGet h.repoRecords r) ∧
      (∀ b, getBranch h1 r0 b = (getBranch h r0 b).bind (pruneBranch k)) ∧
      (∀ repo1, mapGet h1.repoRecords r0 = some repo1 →
        repo1.branchs ≠ [] ∧ keysNodup repo1.branchs) ∧
      (∀ repo repo1, mapGet h.repoRecords r0 = some repo →
        mapGet h1.repoRecords r0 = some repo1 → repo1.url = repo.url) ∧
      keysNodup h1.repoRecords := by
  obtain ⟨b0, bi0, hb0, _⟩ := hinv.subRegistered k r0 hk
  obtain ⟨repo, hr, _⟩ := getBranch_some h r0 b0 bi0 hb0
  have hnd : (mapKeys repo.branchs).Nodup := hinv.branchKeys r0 repo hr
  obtain ⟨h1, hloop, hsub1, hdir1, hother1, hbr1, hrepo1, hurl1, hkeys1⟩ :=
    deregisterLoop_spec r0 k (mapKeys repo.branchs)
      { h with subRecords := mapDelete h.subRecords k } hnd
      (by
        intro b hb
        have : getBranch { h with subRecords := mapDelete h.subRecords k } r0 b =
            mapGet repo.branchs b := getBranch_of_repo _ r0 b repo hr
        rw [this]
        exact (mapGet_isSome_iff _ _).2 hb)
      (by
        intro repoA hA
        exact ⟨hinv.repoNonempty r0 repoA hA, hinv.branchKeys r0 repoA hA⟩)
  refine ⟨h1, ?_, hsub1, hdir1, hother1, ?_, hrepo1, hurl1, hkeys1 hinv.repoKeys⟩
  · simp [DeregisterBranch, hk, hr, hloop]
  · intro b
    rw [hbr1 b]
    have hsame : getBranch { h with subRecords := mapDelete h.subRecords k } r0 b =
        getBranch h r0 b := rfl
    rw [hsame]
    by_cases hin : b ∈ mapKeys repo.branchs
    · simp [hin]
    · have hnone : getBranch h r0 b = none := by
        rw [getBranch_of_repo h r0 b repo hr]
        exact (mapGet_eq_none_iff _ _).2 hin
      simp [hin, hnone]

theorem getBranch_congr (h h1 : HubGitOps) (r b : String)
    (hr : mapGet h1.repoRecords r = mapGet h.repoRecords r) :
    getBranch h1 r b = getBranch h r b := by
  simp [getBranch, hr]

theorem pruneBranch_eq_some (k : NamespacedName) (bi bi1 : branchInfo) :
    pruneBranch k bi = some bi1 ↔
      setDelete bi.registeredSub k ≠ [] ∧
        bi1 = { bi with registeredSub := setDelete bi.registeredSub k } := by
  unfold pruneBranch
  by_cases he : setDelete bi.registeredSub k = []
  · simp [he]
  · simp only [he, if_false, Option.some.injEq, ne_eq, not_false_eq_true, true_and]
    exact eq_comm

theorem pruneBranch_eq_none (k : NamespacedName) (bi : branchInfo) :
    pruneBranch k bi = none ↔ setDelete bi.registeredSub k = [] := by
  unfold pruneBranch
  by_cases he : setDelete bi.registeredSub k = []
  · simp [he]
  · simp [he]

theorem pruneBranch_of_not_mem (k : NamespacedName) (bi : branchInfo)
    (hk : k ∉ bi.registeredSub) (hne : bi.registeredSub ≠ []) : pruneBranch k bi = some bi := by
  rw [pruneBranch_eq_some, setDelete_of_not_mem _ _ hk]
  exact ⟨hne, rfl⟩

theorem setDelete_eq_nil_iff (s : List NamespacedName) (k : NamespacedName) :
    setDelete s k = [] ↔ ∀ x ∈ s, x = k := by
  simp [setDelete, List.filter_eq_nil_iff]

/-- After `DeregisterBranch` of a registered consumer every branch entry of the registry,
in whatever source, is what `pruneBranch` leaves of the entry before. -/
theorem DeregisterBranch_branches (h : HubGitOps) (hinv : Consistent h) (k : NamespacedName)
    (r0 : String) (hk : mapGet h.subRecords k = some r0) (h1 : HubGitOps)
    (hrun : DeregisterBranch h k = .ok h1) (r b : String) :
    getBranch h1 r b = (getBranch h r b).bind (pruneBranch k) := by
  obtain ⟨hx, hrun2, _, _, hother, hbr, _, _, _⟩ := DeregisterBranch_spec h hinv k r0 hk
  rw [hrun] at hrun2
  cases hrun2
  by_cases hr : r = r0
  · subst hr
    exact hbr b
  · rw [getBranch_congr h h1 r b (hother r hr)]
    cases hb : getBranch h r b with
    | none => rfl
    | some bi =>
      have hnot : k ∉ bi.registeredSub := by
        intro hin
        have := hinv.consumerRecorded r b bi k hb hin
        rw [hk] at this
        exact hr (Option.some.inj this).symm
      simp [pruneBranch_of_not_mem k bi hnot (hinv.branchNonempty r b bi hb)]

/-- The operation `DeregisterBranch` keeps the registry consistent. -/
theorem DeregisterBranch_inv (h : HubGitOps) (hinv : Consistent h) (k : NamespacedName)
    (h1 : HubGitOps) (hrun : DeregisterBranch h k = .ok h1) : Consistent h1 := by
  cases hk : mapGet h.subRecords k with
  | none =>
    simp only [DeregisterBranch, hk, Except.ok.injEq] at hrun
    rw [← hrun]
    exact hinv
  | some r0 =>
    have hU := DeregisterBranch_branches h hinv k r0 hk h1 hrun
    obtain ⟨hx, hrun2, hsub, _, hother, _, hrepo, _, hkeys⟩ :=
      DeregisterBranch_spec h hinv k r0 hk
    rw [hrun] at hrun2
    cases hrun2
    have hback : ∀ r b bi1, getBranch h1 r b = some bi1 →
        ∃ bi, getBranch h r b = some bi ∧ setDelete bi.registeredSub k ≠ [] ∧
          bi1.registeredSub = setDelete bi.registeredSub k := by
      intro r b bi1 hb1
      rw [hU r b] at hb1
      cases hb : getBranch h r b with
      | none => simp [hb] at hb1
      | some bi =>
        simp only [hb, Option.some_bind] at hb1
        obtain ⟨hne, heq⟩ := (pruneBranch_eq_some k bi bi1).1 hb1
        exact ⟨bi, rfl, hne, by rw [heq]⟩
    refine ⟨?_, hkeys, ?_, ?_, ?_, ?_, ?_, ?_, ?_⟩
    · rw [hsub]
      exact keysNodup_mapDelete _ _ hinv.subKeys
    · intro r repo1 hr1
      by_cases hr : r = r0
      · subst hr
        exact (hrepo repo1 hr1).2
      · rw [hother r hr] at hr1
        exact hinv.branchKeys r repo1 hr1
    · intro r b bi1 hb1
      obtain ⟨bi, hb, _, heq⟩ := hback r b bi1 hb1
      rw [heq]
      exact nodup_setDelete _ _ (hinv.consumersNodup r b bi hb)
    · intro r repo1 hr1
      by_cases hr : r = r0
      · subst hr
        exact (hrepo repo1 hr1).1
      · rw [hother r hr] at hr1
        exact hinv.repoNonempty r repo1 hr1
    · intro r b bi1 hb1
      obtain ⟨bi, _, hne, heq⟩ := hback r b bi1 hb1
      rw [heq]
      exact hne
    · intro k2 r hk2
      rw [hsub] at hk2
      have hne : k2 ≠ k := by
        intro hh
        subst hh
        rw [mapGet_mapDelete_self] at hk2
        cases hk2
      rw [mapGet_mapDelete_ne _ _ _ hne] at hk2
      obtain ⟨b, bi, hb, hin⟩ := hinv.subRegistered k2 r hk2
      have hmem : k2 ∈ setDelete bi.registeredSub k := (mem_setDelete _ _ _).2 ⟨hin, hne⟩
      have hnn : setDelete bi.registeredSub k ≠ [] := List.ne_nil_of_mem hmem
      refine ⟨b, { bi with registeredSub := setDelete bi.registeredSub k }, ?_, hmem⟩
      rw [hU r b, hb, Option.some_bind]
      exact (pruneBranch_eq_some k bi _).2 ⟨hnn, rfl⟩
    · intro r b bi1 k2 hb1 hin
      obtain ⟨bi, hb, _, heq⟩ := hback r b bi1 hb1
      rw [heq] at hin
      obtain ⟨hin2, hne⟩ := (mem_setDelete _ _ _).1 hin
      rw [hsub, mapGet_mapDelete_ne _ _ _ hne]
      exact hinv.consumerRecorded r b bi k2 hb hin2
    · intro r b1 b2 bi1 bi2 k2 hb1 hb2 hin1 hin2
      obtain ⟨bia, hba, _, heqa⟩ := hback r b1 bi1 hb1
      obtain ⟨bib, hbb, _, heqb⟩ := hback r b2 bi2 hb2
      rw [heqa] at hin1
      rw [heqb] at hin2
      exact hinv.consumerOneBranch r b1 b2 bia bib k2 hba hbb
        ((mem_setDelete _ _ _).1 hin1).1 ((mem_setDelete _ _ _).1 hin2).1

end mcmhub


/-! ## `RegisterBranch`, and the consistency of every reachable registry -/

namespace mcmhub

theorem initialDownload_registry (env : RegisterEnv) (h : HubGitOps) :
    (initialDownload env h).2.subRecords = h.subRecords ∧
      (initialDownload env h).2.repoRecords = h.repoRecords := by
  unfold initialDownload
  by_cases hd : h.localDir ≠ ""
  · simp [hd]
  · cases hg : env.getChannel <;> simp [hd]

theorem mapSet_ne_nil {K V : Type} [DecidableEq K] (m : List (K × V)) (k : K) (v : V) :
    mapSet m k v ≠ [] := by
  intro hnil
  have := mapGet_mapSet_self m k v
  rw [hnil] at this
  simp [mapGet] at this

/-- The three ways `RegisterBranch` returns: it leaves the registry and the subscription
as they were; or it records the consumer and adds a new source with the one branch, whose
commit id is the one of `initialDownload`; or it records the consumer and adds it to the
consumers of a branch that is there.  (In the one case left, a source that is there
without the branch, it panics.) -/
theorem RegisterBranch_cases (env : RegisterEnv) (h h1 : HubGitOps)
    (subIns subIns1 : Subscription)
    (hrun : RegisterBranch env h subIns = .ok (h1, subIns1)) :
    (h1 = h ∧ subIns1 = subIns) ∨
    (∃ repoName url user pwd commitID,
      mapGet h.subRecords ⟨subIns.Namespace, subIns.Name⟩ = none ∧
      mapGet h.repoRecords repoName = none ∧
      h1.subRecords = mapSet h.subRecords ⟨subIns.Namespace, subIns.Name⟩ repoName ∧
      subIns1 = setCommitID subIns commitID ∧
      h1.repoRecords = mapSet h.repoRecords repoName
        ⟨url, [(genBranchString subIns,
          ⟨commitID, user, pwd, [⟨subIns.Namespace, subIns.Name⟩]⟩)]⟩) ∨
    (∃ repoName repo bi,
      mapGet h.subRecords ⟨subIns.Namespace, subIns.Name⟩ = none ∧
      mapGet h.repoRecords repoName = some repo ∧
      mapGet repo.branchs (genBranchString subIns) = some bi ∧
      h1.subRecords = mapSet h.subRecords ⟨subIns.Namespace, subIns.Name⟩ repoName ∧
      h1.localDir = h.localDir ∧
      subIns1 = subIns ∧
      h1.repoRecords = mapSet h.repoRecords repoName
        ⟨repo.url, mapSet repo.branchs (genBranchString subIns)
          ⟨bi.lastCommitID, bi.username, bi.secret,
            setAdd bi.registeredSub ⟨subIns.Namespace, subIns.Name⟩⟩⟩) := by
  unfold RegisterBranch at hrun
  cases hsub : mapGet h.subRecords { Name := subIns.Name, Namespace := subIns.Namespace } with
  | some r =>
    simp [hsub] at hrun
    exact Or.inl ⟨hrun.1.symm, hrun.2.symm⟩
  | none =>
    simp only [hsub, Option.isSome_none, Bool.false_eq_true, if_false] at hrun
    cases hch : env.refChannel with
    | error e =>
      simp [hch] at hrun
      exact Or.inl ⟨hrun.1.symm, hrun.2.symm⟩
    | ok channel =>
      simp only [hch] at hrun
      by_cases hgit : isGitChannel channel = true
      · simp only [hgit, Bool.not_true, Bool.false_eq_true, if_false] at hrun
        cases hsec : env.channelSecret with
        | error e =>
          simp [hsec] at hrun
          exact Or.inl ⟨hrun.1.symm, hrun.2.symm⟩
        | ok up =>
          obtain ⟨user, pwd⟩ := up
          simp only [hsec] at hrun
          cases hrepo : mapGet h.repoRecords (genRepoName channel.Pathname user pwd) with
          | none =>
            simp only [hrepo, Except.ok.injEq, Prod.mk.injEq] at hrun
            right; left
            refine ⟨genRepoName channel.Pathname user pwd, channel.Pathname, user, pwd,
              (initialDownload env { h with subRecords := (mapSet h.subRecords
                ⟨subIns.Namespace, subIns.Name⟩ (genRepoName channel.Pathname user pwd)) }).1.1,
              rfl, hrepo, ?_, hrun.2.symm, ?_⟩
            · rw [← hrun.1]
              exact (initialDownload_registry env _).1
            · rw [← hrun.1]
              simp [(initialDownload_registry env _).2]
          | some repo =>
            simp only [hrepo] at hrun
            cases hbr : mapGet repo.branchs (genBranchString subIns) with
            | none => simp [hbr] at hrun
            | some bi =>
              simp only [hbr, Except.ok.injEq, Prod.mk.injEq] at hrun
              right; right
              refine ⟨genRepoName channel.Pathname user pwd, repo, bi, rfl, hrepo, hbr, ?_, ?_,
                hrun.2.symm, ?_⟩
              · rw [← hrun.1]
              · rw [← hrun.1]
              · rw [← hrun.1]
      · simp [hgit] at hrun
        exact Or.inl ⟨hrun.1.symm, hrun.2.symm⟩

theorem getBranch_setRepo (h h1 : HubGitOps) (r : String) (repo1 : RepoRegistery)
    (hrepos : h1.repoRecords = mapSet h.repoRecords r repo1) :
    (∀ b, getBranch h1 r b = mapGet repo1.branchs b) ∧
      (∀ r2, r2 ≠ r → ∀ b, getBranch h1 r2 b = getBranch h r2 b) := by
  constructor
  · intro b
    simp [getBranch, hrepos, mapGet_mapSet_self]
  · intro r2 hne b
    simp [getBranch, hrepos, mapGet_mapSet_ne _ _ _ _ hne]

/-- A consumer that `subRecords` does not know is in no consumer set. -/
theorem not_consumer_of_unrecorded (h : HubGitOps) (hinv : Consistent h) (key : NamespacedName)
    (hsub : mapGet h.subRecords key = none) (r b : String) (bi : branchInfo)
    (hb : getBranch h r b = some bi) : key ∉ bi.registeredSub := by
  intro hin
  have := hinv.consumerRecorded r b bi key hb hin
  rw [hsub] at this
  cases this

/-- Recording a new consumer together with a new source of one branch keeps the registry
consistent. -/
theorem inv_add_source (h h1 : HubGitOps) (hinv : Consistent h) (key : NamespacedName)
    (r url bn c u p : String) (hsub : mapGet h.subRecords key = none)
    (hrepo : mapGet h.repoRecords r = none)
    (hs1 : h1.subRecords = mapSet h.subRecords key r)
    (hr1 : h1.repoRecords = mapSet h.repoRecords r ⟨url, [(bn, ⟨c, u, p, [key]⟩)]⟩) :
    Consistent h1 := by
  obtain ⟨hself, hother⟩ := getBranch_setRepo h h1 r _ hr1
  have hselfb : ∀ b bi, getBranch h1 r b = some bi → b = bn ∧ bi = ⟨c, u, p, [key]⟩ := by
    intro b bi hb
    rw [hself b] at hb
    by_cases hbn : bn = b
    · simp [mapGet, hbn] at hb
      exact ⟨hbn.symm, hb.symm⟩
    · simp [mapGet, hbn] at hb
  have hnone : ∀ b, getBranch h r b = none := fun b => getBranch_none_of_repo h r b hrepo
  refine ⟨?_, ?_, ?_, ?_, ?_, ?_, ?_, ?_, ?_⟩
  · rw [hs1]
    exact keysNodup_mapSet _ _ _ hinv.subKeys
  · rw [hr1]
    exact keysNodup_mapSet _ _ _ hinv.repoKeys
  · intro r2 repo2 h2
    by_cases hr : r2 = r
    · subst hr
      rw [hr1, mapGet_mapSet_self] at h2
      cases h2
      simp [keysNodup, mapKeys]
    · rw [hr1, mapGet_mapSet_ne _ _ _ _ hr] at h2
      exact hinv.branchKeys r2 repo2 h2
  · intro r2 b bi hb
    by_cases hr : r2 = r
    · subst hr
      rw [(hselfb b bi hb).2]
      simp
    · rw [hother r2 hr b] at hb
      exact hinv.consumersNodup r2 b bi hb
  · intro r2 repo2 h2
    by_cases hr : r2 = r
    · subst hr
      rw [hr1, mapGet_mapSet_self] at h2
      cases h2
      simp
    · rw [hr1, mapGet_mapSet_ne _ _ _ _ hr] at h2
      exact hinv.repoNonempty r2 repo2 h2
  · intro r2 b bi hb
    by_cases hr : r2 = r
    · subst hr
      rw [(hselfb b bi hb).2]
      simp
    · rw [hother r2 hr b] at hb
      exact hinv.branchNonempty r2 b bi hb
  · intro k2 r2 hk2
    rw [hs1] at hk2
    by_cases hk : k2 = key
    · subst hk
      rw [mapGet_mapSet_self] at hk2
      cases hk2
      exact ⟨bn, ⟨c, u, p, [k2]⟩, by rw [hself bn]; simp [mapGet], by simp⟩
    · rw [mapGet_mapSet_ne _ _ _ _ hk] at hk2
      obtain ⟨b, bi, hb, hin⟩ := hinv.subRegistered k2 r2 hk2
      have hr : r2 ≠ r := by
        intro hh
        subst hh
        rw [hnone b] at hb
        cases hb
      exact ⟨b, bi, by rw [hother r2 hr b]; exact hb, hin⟩
  · intro r2 b bi k2 hb hin
    rw [hs1]
    by_cases hr : r2 = r
    · subst hr
      rw [(hselfb b bi hb).2] at hin
      simp only [List.mem_singleton] at hin
      subst hin
      exact mapGet_mapSet_self _ _ _
    · rw [hother r2 hr b] at hb
      have hk : k2 ≠ key := by
        intro hh
        subst hh
        exact not_consumer_of_unrecorded h hinv k2 hsub r2 b bi hb hin
      rw [mapGet_mapSet_ne _ _ _ _ hk]
      exact hinv.consumerRecorded r2 b bi k2 hb hin
  · intro r2 b1 b2 bi1 bi2 k2 hb1 hb2 hin1 hin2
    by_cases hr : r2 = r
    · subst hr
      rw [(hselfb b1 bi1 hb1).1, (hselfb b2 bi2 hb2).1]
    · rw [hother r2 hr b1] at hb1
      rw [hother r2 hr b2] at hb2
      exact hinv.consumerOneBranch r2 b1 b2 bi1 bi2 k2 hb1 hb2 hin1 hin2

/-- Recording a new consumer and adding it to the consumers of a branch that is there
keeps the registry consistent. -/
theorem inv_add_consumer (h h1 : HubGitOps) (hinv : Consistent h) (key : NamespacedName)
    (r bn : String) (repo : RepoRegistery) (bi : branchInfo)
    (hsub : mapGet h.subRecords key = none)
    (hrepo : mapGet h.repoRecords r = some repo) (hbr : mapGet repo.branchs bn = some bi)
    (hs1 : h1.subRecords = mapSet h.subRecords key r)
    (hr1 : h1.repoRecords = mapSet h.repoRecords r
      ⟨repo.url, mapSet repo.branchs bn
        ⟨bi.lastCommitID, bi.username, bi.secret, setAdd bi.registeredSub key⟩⟩) :
    Consistent h1 := by
  obtain ⟨hself, hother⟩ := getBranch_setRepo h h1 r _ hr1
  have hold : ∀ b, getBranch h r b = mapGet repo.branchs b :=
    fun b => getBranch_of_repo h r b repo hrepo
  have hbn : getBranch h1 r bn =
      some ⟨bi.lastCommitID, bi.username, bi.secret, setAdd bi.registeredSub key⟩ := by
    rw [hself bn]
    exact mapGet_mapSet_self _ _ _
  have hnb : ∀ b, b ≠ bn → getBranch h1 r b = getBranch h r b := by
    intro b hne
    rw [hself b, hold b]
    exact mapGet_mapSet_ne _ _ _ _ hne
  have hbi : getBranch h r bn = some bi := by rw [hold bn]; exact hbr
  -- every entry afterwards comes from an entry before, with the same consumers or one more
  have hback : ∀ r2 b x, getBranch h1 r2 b = some x →
      ∃ y, getBranch h r2 b = some y ∧
        ((r2 = r ∧ b = bn ∧ y = bi ∧ x.registeredSub = setAdd bi.registeredSub key) ∨
          x = y) := by
    intro r2 b x hx
    by_cases hr : r2 = r
    · subst hr
      by_cases hb : b = bn
      · subst hb
        rw [hbn] at hx
        cases hx
        exact ⟨bi, hbi, Or.inl ⟨rfl, rfl, rfl, rfl⟩⟩
      · rw [hnb b hb] at hx
        exact ⟨x, hx, Or.inr rfl⟩
    · rw [hother r2 hr b] at hx
      exact ⟨x, hx, Or.inr rfl⟩
  have hfwd : ∀ r2 b y, getBranch h r2 b = some y →
      ∃ x, getBranch h1 r2 b = some x ∧ ∀ k2, k2 ∈ y.registeredSub → k2 ∈ x.registeredSub := by
    intro r2 b y hy
    by_cases hr : r2 = r
    · subst hr
      by_cases hb : b = bn
      · subst hb
        rw [hbi] at hy
        cases hy
        exact ⟨_, hbn, fun k2 hk2 => (mem_setAdd _ _ _).2 (Or.inl hk2)⟩
      · exact ⟨y, by rw [hnb b hb]; exact hy, fun _ hk2 => hk2⟩
    · exact ⟨y, by rw [hother r2 hr b]; exact hy, fun _ hk2 => hk2⟩
  refine ⟨?_, ?_, ?_, ?_, ?_, ?_, ?_, ?_, ?_⟩
  · rw [hs1]
    exact keysNodup_mapSet _ _ _ hinv.subKeys
  · rw [hr1]
    exact keysNodup_mapSet _ _ _ hinv.repoKeys
  · intro r2 repo2 h2
    by_cases hr : r2 = r
    · subst hr
      rw [hr1, mapGet_mapSet_self] at h2
      cases h2
      exact keysNodup_mapSet _ _ _ (hinv.branchKeys r2 repo hrepo)
    · rw [hr1, mapGet_mapSet_ne _ _ _ _ hr] at h2
      exact hinv.branchKeys r2 repo2 h2
  · intro r2 b x hx
    obtain ⟨y, hy, hcase⟩ := hback r2 b x hx
    rcases hcase with ⟨_, _, hyb, hreg⟩ | hxy
    · rw [hreg]
      exact nodup_setAdd _ _ (hinv.consumersNodup r bn bi hbi)
    · rw [hxy]
      exact hinv.consumersNodup r2 b y hy
  · intro r2 repo2 h2
    by_cases hr : r2 = r
    · subst hr
      rw [hr1, mapGet_mapSet_self] at h2
      cases h2
      exact mapSet_ne_nil _ _ _
    · rw [hr1, mapGet_mapSet_ne _ _ _ _ hr] at h2
      exact hinv.repoNonempty r2 repo2 h2
  · intro r2 b x hx
    obtain ⟨y, hy, hcase⟩ := hback r2 b x hx
    rcases hcase with ⟨_, _, _, hreg⟩ | hxy
    · rw [hreg]
      exact List.ne_nil_of_mem ((mem_setAdd _ _ _).2 (Or.inr rfl))
    · rw [hxy]
      exact hinv.branchNonempty r2 b y hy
  · intro k2 r2 hk2
    rw [hs1] at hk2
    by_cases hk : k2 = key
    · subst hk
      rw [mapGet_mapSet_self] at hk2
      cases hk2
      exact ⟨bn, _, hbn, (mem_setAdd _ _ _).2 (Or.inr rfl)⟩
    · rw [mapGet_mapSet_ne _ _ _ _ hk] at hk2
      obtain ⟨b, y, hy, hin⟩ := hinv.subRegistered k2 r2 hk2
      obtain ⟨x, hx, hsubset⟩ := hfwd r2 b y hy
      exact ⟨b, x, hx, hsubset k2 hin⟩
  · intro r2 b x k2 hx hin
    rw [hs1]
    obtain ⟨y, hy, hcase⟩ := hback r2 b x hx
    have hold2 : k2 ∈ y.registeredSub → mapGet (mapSet h.subRecords key r) k2 = some r2 := by
      intro hin2
      have hk : k2 ≠ key := by
        intro hh
        subst hh
        exact not_consumer_of_unrecorded h hinv k2 hsub r2 b y hy hin2
      rw [mapGet_mapSet_ne _ _ _ _ hk]
      exact hinv.consumerRecorded r2 b y k2 hy hin2
    rcases hcase with ⟨hr2, _, hyb, hreg⟩ | hxy
    · rw [hreg] at hin
      rcases (mem_setAdd _ _ _).1 hin with hin2 | hk
      · exact hold2 (by rw [hyb]; exact hin2)
      · subst hk
        rw [hr2]
        exact mapGet_mapSet_self _ _ _
    · rw [hxy] at hin
      exact hold2 hin
  · intro r2 b1 b2 x1 x2 k2 hx1 hx2 hin1 hin2
    obtain ⟨y1, hy1, hcase1⟩ := hback r2 b1 x1 hx1
    obtain ⟨y2, hy2, hcase2⟩ := hback r2 b2 x2 hx2
    -- a consumer of an entry afterwards is the new consumer or a consumer of the entry before
    have hmem : ∀ b x y, getBranch h r2 b = some y →
        ((r2 = r ∧ b = bn ∧ y = bi ∧ x.registeredSub = setAdd bi.registeredSub key) ∨ x = y) →
        k2 ∈ x.registeredSub → k2 ∈ y.registeredSub ∨ (k2 = key ∧ b = bn) := by
      intro b x y _ hcase hin
      rcases hcase with ⟨_, hb, hyb, hreg⟩ | hxy
      · rw [hreg] at hin
        rcases (mem_setAdd _ _ _).1 hin with hin2 | hk
        · exact Or.inl (by rw [hyb]; exact hin2)
        · exact Or.inr ⟨hk, hb⟩
      · rw [hxy] at hin
        exact Or.inl hin
    have hnew : k2 = key → ∀ b y, getBranch h r2 b = some y → k2 ∉ y.registeredSub := by
      intro hk b y hy
      subst hk
      exact not_consumer_of_unrecorded h hinv k2 hsub r2 b y hy
    rcases hmem b1 x1 y1 hy1 hcase1 hin1 with hm1 | ⟨hk1, hb1⟩
    · rcases hmem b2 x2 y2 hy2 hcase2 hin2 with hm2 | ⟨hk2, _⟩
      · exact hinv.consumerOneBranch r2 b1 b2 y1 y2 k2 hy1 hy2 hm1 hm2
      · exact absurd hm1 (hnew hk2 b1 y1 hy1)
    · rcases hmem b2 x2 y2 hy2 hcase2 hin2 with hm2 | ⟨_, hb2⟩
      · exact absurd hm2 (hnew hk1 b2 y2 hy2)
      · rw [hb1, hb2]

/-- The operation `RegisterBranch`, when it returns, keeps the registry consistent. -/
theorem RegisterBranch_inv (env : RegisterEnv) (h h1 : HubGitOps)
    (subIns subIns1 : Subscription) (hinv : Consistent h)
    (hrun : RegisterBranch env h subIns = .ok (h1, subIns1)) : Consistent h1 := by
  rcases RegisterBranch_cases env h h1 subIns subIns1 hrun with
    ⟨hsame, _⟩ | ⟨r, url, u, p, c, hsub, hrepo, hs1, _, hr1⟩ |
    ⟨r, repo, bi, hsub, hrepo, hbr, hs1, _, _, hr1⟩
  · rw [hsame]
    exact hinv
  · exact inv_add_source h h1 hinv _ r url _ c u p hsub hrepo hs1 hr1
  · exact inv_add_consumer h h1 hinv _ r _ repo bi hsub hrepo hbr hs1 hr1

theorem mapGet_map_snd {K V W : Type} [DecidableEq K] (m : List (K × V)) (f : V → W) (k : K) :
    mapGet (m.map (fun e => (e.1, f e.2))) k = (mapGet m k).map f := by
  induction m with
  | nil => simp [mapGet]
  | cons e m ih =>
    obtain ⟨k', v⟩ := e
    by_cases hk : k' = k
    · simp [mapGet, hk]
    · simp [mapGet, hk, ih]

theorem mapKeys_map_snd {K V W : Type} (m : List (K × V)) (f : V → W) :
    mapKeys (m.map (fun e => (e.1, f e.2))) = mapKeys m := by
  simp [mapKeys, List.map_map, Function.comp_def]

/-- The inner loop of a tick keeps the branch names and the consumer sets. -/
theorem watchBranchs_shape (f : GetCommitFunc) (repoName url : String)
    (bs bs1 : List (String × branchInfo)) (clt clt1 : Client) (evs : List Event)
    (h : watchBranchs f repoName url bs clt = .ok (bs1, clt1, evs)) :
    bs1.map (fun e => (e.1, e.2.registeredSub)) = bs.map (fun e => (e.1, e.2.registeredSub)) := by
  induction bs generalizing bs1 clt evs with
  | nil =>
    simp only [watchBranchs, Except.ok.injEq, Prod.mk.injEq] at h
    simp [h.1.symm]
  | cons e rest ih =>
    obtain ⟨bName, bi⟩ := e
    obtain ⟨bi1, cltA, evsA, rest1, evsB, hw, hr, hbs1, _⟩ :=
      watchBranchs_cons_ok f repoName url bName bi rest bs1 clt clt1 evs h
    obtain ⟨h1, h2⟩ := watchBranch_ok f repoName url bName bi bi1 clt cltA evsA hw
    have hreg : bi1.registeredSub = bi.registeredSub := by
      by_cases hc : bi.lastCommitID ≠ "" ∧ (f url bName bi.username bi.secret).1 = bi.lastCommitID
      · rw [(h1 hc).1]
      · rw [(h2 hc).1]
    rw [hbs1]
    simp [hreg, ih rest1 cltA evsB hr]

/-- The outer loop of a tick keeps the source names, the branch names and the consumer
sets. -/
theorem watchRepos_shape (f : GetCommitFunc) (rs rs1 : List (String × RepoRegistery))
    (clt clt1 : Client) (evs : List Event)
    (h : watchRepos f rs clt = .ok (rs1, clt1, evs)) :
    rs1.map (fun e => (e.1, e.2.branchs.map (fun e => (e.1, e.2.registeredSub)))) =
      rs.map (fun e => (e.1, e.2.branchs.map (fun e => (e.1, e.2.registeredSub)))) := by
  induction rs generalizing rs1 clt evs with
  | nil =>
    simp only [watchRepos, Except.ok.injEq, Prod.mk.injEq] at h
    simp [h.1.symm]
  | cons e rest ih =>
    obtain ⟨repoName, repo⟩ := e
    obtain ⟨bs1, cltA, evsA, rest1, evsB, hw, hr, hrs1, _⟩ :=
      watchRepos_cons_ok f repoName repo rest rs1 clt clt1 evs h
    rw [hrs1]
    simp [watchBranchs_shape f repoName repo.url repo.branchs bs1 clt cltA evsA hw,
      ih rest1 cltA evsB hr]

/-- Two registries with the same source names, branch names and consumer sets: entry by
entry. -/
theorem shape_entries (rs rs1 : List (String × RepoRegistery))
    (hshape : rs1.map (fun e => (e.1, e.2.branchs.map (fun e => (e.1, e.2.registeredSub)))) =
      rs.map (fun e => (e.1, e.2.branchs.map (fun e => (e.1, e.2.registeredSub)))))
    (r : String) (repo1 : RepoRegistery) (h1 : mapGet rs1 r = some repo1) :
    ∃ repo, mapGet rs r = some repo ∧ mapKeys repo1.branchs = mapKeys repo.branchs ∧
      ∀ b x, mapGet repo1.branchs b = some x →
        ∃ y, mapGet repo.branchs b = some y ∧ y.registeredSub = x.registeredSub := by
  have hg := congrArg (fun m => mapGet m r) hshape
  simp only [mapGet_map_snd
    (f := fun (v : RepoRegistery) => v.branchs.map (fun e => (e.1, e.2.registeredSub)))] at hg
  rw [h1] at hg
  cases hr : mapGet rs r with
  | none => simp [hr] at hg
  | some repo =>
    simp only [hr, Option.map_some', Option.some.injEq] at hg
    refine ⟨repo, rfl, ?_, ?_⟩
    · have := congrArg mapKeys hg
      simpa [mapKeys_map_snd (f := fun (v : branchInfo) => v.registeredSub)] using this
    · intro b x hx
      have hb := congrArg (fun m => mapGet m b) hg
      simp only [mapGet_map_snd (f := fun (v : branchInfo) => v.registeredSub)] at hb
      rw [hx] at hb
      cases hy : mapGet repo.branchs b with
      | none => simp [hy] at hb
      | some y =>
        simp only [hy, Option.map_some', Option.some.injEq] at hb
        exact ⟨y, rfl, hb.symm⟩

/-- A poll tick, when it returns, keeps the registry consistent: it changes nothing but
stored commit ids. -/
theorem GitWatch_inv (f : GetCommitFunc) (h h1 : HubGitOps) (clt clt1 : Client)
    (evs : List Event) (hinv : Consistent h) (hrun : GitWatch f h clt = .ok (h1, clt1, evs)) :
    Consistent h1 := by
  simp only [GitWatch] at hrun
  cases hw : watchRepos f h.repoRecords clt with
  | error p => simp [hw] at hrun
  | ok res =>
    obtain ⟨rs1, cltA, evsA⟩ := res
    simp only [hw, Except.ok.injEq, Prod.mk.injEq] at hrun
    have hshape := watchRepos_shape f h.repoRecords rs1 clt cltA evsA hw
    have hsub : h1.subRecords = h.subRecords := by rw [← hrun.1]
    have hrepos : h1.repoRecords = rs1 := by rw [← hrun.1]
    have hfw := shape_entries h.repoRecords rs1 hshape
    have hbw := shape_entries rs1 h.repoRecords hshape.symm
    have hback : ∀ r b x, getBranch h1 r b = some x →
        ∃ y, getBranch h r b = some y ∧ y.registeredSub = x.registeredSub := by
      intro r b x hx
      obtain ⟨repo1, hr1, hb1⟩ := getBranch_some h1 r b x hx
      rw [hrepos] at hr1
      obtain ⟨repo, hr, _, hent⟩ := hfw r repo1 hr1
      obtain ⟨y, hy, hreg⟩ := hent b x hb1
      exact ⟨y, by rw [getBranch_of_repo h r b repo hr]; exact hy, hreg⟩
    have hforw : ∀ r b y, getBranch h r b = some y →
        ∃ x, getBranch h1 r b = some x ∧ x.registeredSub = y.registeredSub := by
      intro r b y hy
      obtain ⟨repo, hr, hb⟩ := getBranch_some h r b y hy
      obtain ⟨repo1, hr1, _, hent⟩ := hbw r repo hr
      obtain ⟨x, hx, hreg⟩ := hent b y hb
      rw [← hrepos] at hr1
      exact ⟨x, by rw [getBranch_of_repo h1 r b repo1 hr1]; exact hx, hreg⟩
    refine ⟨?_, ?_, ?_, ?_, ?_, ?_, ?_, ?_, ?_⟩
    · rw [hsub]
      exact hinv.subKeys
    · have hk := congrArg mapKeys hshape
      simp only [mapKeys_map_snd
        (f := fun (v : RepoRegistery) => v.branchs.map (fun e => (e.1, e.2.registeredSub)))]
        at hk
      unfold keysNodup
      rw [hrepos, hk]
      exact hinv.repoKeys
    · intro r repo1 hr1
      rw [hrepos] at hr1
      obtain ⟨repo, hr, hkeys, _⟩ := hfw r repo1 hr1
      unfold keysNodup
      rw [hkeys]
      exact hinv.branchKeys r repo hr
    · intro r b x hx
      obtain ⟨y, hy, hreg⟩ := hback r b x hx
      rw [← hreg]
      exact hinv.consumersNodup r b y hy
    · intro r repo1 hr1
      rw [hrepos] at hr1
      obtain ⟨repo, hr, hkeys, _⟩ := hfw r repo1 hr1
      intro hnil
      apply hinv.repoNonempty r repo hr
      rw [hnil] at hkeys
      cases hb : repo.branchs with
      | nil => rfl
      | cons e m => simp [hb, mapKeys] at hkeys
    · intro r b x hx
      obtain ⟨y, hy, hreg⟩ := hback r b x hx
      rw [← hreg]
      exact hinv.branchNonempty r b y hy
    · intro k r hk
      rw [hsub] at hk
      obtain ⟨b, y, hy, hin⟩ := hinv.subRegistered k r hk
      obtain ⟨x, hx, hreg⟩ := hforw r b y hy
      exact ⟨b, x, hx, by rw [hreg]; exact hin⟩
    · intro r b x k hx hin
      obtain ⟨y, hy, hreg⟩ := hback r b x hx
      rw [hsub]
      exact hinv.consumerRecorded r b y k hy (by rw [hreg]; exact hin)
    · intro r b1 b2 x1 x2 k hx1 hx2 hin1 hin2
      obtain ⟨y1, hy1, hreg1⟩ := hback r b1 x1 hx1
      obtain ⟨y2, hy2, hreg2⟩ := hback r b2 x2 hx2
      exact hinv.consumerOneBranch r b1 b2 y1 y2 k hy1 hy2 (by rw [hreg1]; exact hin1)
        (by rw [hreg2]; exact hin2)

/-- The empty registry is consistent. -/
theorem NewHookGit_inv : Consistent NewHookGit := by
  refine ⟨?_, ?_, ?_, ?_, ?_, ?_, ?_, ?_, ?_⟩ <;>
    simp [NewHookGit, keysNodup, mapKeys, mapGet, getBranch]

/-- Every reachable registry is consistent. -/
theorem Reachable_inv (h : HubGitOps) (hr : Reachable h) : Consistent h := by
  induction hr with
  | init => exact NewHookGit_inv
  | register env h h1 subIns subIns1 _ hrun ih =>
    exact RegisterBranch_inv env h h1 subIns subIns1 ih hrun
  | deregister h h1 subKey _ hrun ih => exact DeregisterBranch_inv h ih subKey h1 hrun
  | watch f h h1 clt clt1 evs _ hrun ih => exact GitWatch_inv f h h1 clt clt1 evs ih hrun

end mcmhub


/-! ## The claims about the registry -/

namespace mcmhub

/-- The polling scenario's registry is reachable: `ns/sub1` registers and creates the
source, then `ns/sub2` registers on the same branch. -/
theorem scenario_reachable : Reachable (scenarioRegistry "abc123") := by
  have h1 : Reachable
      { localDir := "/tmp/repo", subRecords := [(⟨"ns", "sub1"⟩, "github.com/org/repo")],
        repoRecords := [("github.com/org/repo",
          ⟨"github.com/org/repo", [("main", ⟨"abc123", "", "", [⟨"ns", "sub1"⟩]⟩)]⟩)] } :=
    Reachable.register scenarioEnv NewHookGit _ scenarioSub1 (setCommitID scenarioSub1 "abc123")
      Reachable.init rfl
  exact Reachable.register scenarioEnv _ _ scenarioSub2 scenarioSub2 h1 rfl

/-- Every record of the scenario's cluster carries an annotation map. -/
theorem scenarioClient_annotated : scenarioClient.annotated := by
  intro k s hget
  by_cases h1 : k = ⟨"ns", "sub1"⟩
  · subst h1
    have : s = scenarioSub1 := by
      simpa [Client.Get, scenarioClient, mapGet] using hget.symm
    rw [this]
    simp [scenarioSub1]
  · by_cases h2 : k = ⟨"ns", "sub2"⟩
    · subst h2
      have : s = scenarioSub2 := by
        simpa [Client.Get, scenarioClient, mapGet] using hget.symm
      rw [this]
      simp [scenarioSub2]
    · have h1b : ¬ (⟨"ns", "sub1"⟩ : NamespacedName) = k := fun hh => h1 hh.symm
      have h2b : ¬ (⟨"ns", "sub2"⟩ : NamespacedName) = k := fun hh => h2 hh.symm
      simp [Client.Get, scenarioClient, mapGet, h1b, h2b] at hget

/-- C2 (the code departs from the claim): the branch `main` stores `abc123` and the fetch
of the tick fails, returning the empty commit id with an error.  The tick only logs the
error: it overwrites the stored commit id with the empty string and calls
`updateCommitAnnotation` for both consumers with the empty commit id. -/
theorem GitWatch_fetch_error_overwrites_marker :
    Except.map (fun res => (res.1, res.2.2))
        (GitWatch (fun _ _ _ _ => ("", some (.new "remote unreachable")))
          (scenarioRegistry "abc123") scenarioClient) =
      .ok (scenarioRegistry "",
        [Event.fetch "github.com/org/repo" "main" "" "",
         Event.annotate "github.com/org/repo" "main" ⟨"ns", "sub1"⟩ "",
         Event.annotate "github.com/org/repo" "main" ⟨"ns", "sub2"⟩ ""]) := by
  rfl

/-- C3 (the code departs from the claim): `ns/sub3` is not registered, its source
`github.com/org/repo` is in `repoRecords`, and its branch `dev` is not a branch of that
source; `RegisterBranch` panics, reading `registeredSub` through the nil pointer
`bInfo.branchs["dev"]`. -/
theorem RegisterBranch_new_branch_of_known_source_panics :
    mapGet (scenarioRegistry "abc123").subRecords ⟨"ns", "sub3"⟩ = none ∧
      (mapGet (scenarioRegistry "abc123").repoRecords "github.com/org/repo").isSome = true ∧
      genBranchString scenarioSub3 = "dev" ∧
      getBranch (scenarioRegistry "abc123") "github.com/org/repo" "dev" = none ∧
      RegisterBranch scenarioEnv (scenarioRegistry "abc123") scenarioSub3 =
        .error Panic.nilDeref := by
  refine ⟨by decide, by decide, by decide, by decide, rfl⟩

/-- C4: in every reachable registry, for a registered consumer `k` mapped to the source
`r0`, `DeregisterBranch k` returns a registry in which `k` is no key of `subRecords` (the
other keys keep their sources) and in no consumer set, and which has no branch without
consumers and no source without branches; the branch `k` was on is removed exactly when
`k` was its only consumer, and the source exactly when that branch is removed and was its
only branch; every branch with another consumer is kept, with its commit id and
credentials and with the consumers it had except `k`. -/
theorem DeregisterBranch_prunes (h : HubGitOps) (hreach : Reachable h) (k : NamespacedName)
    (r0 : String) (hk : mapGet h.subRecords k = some r0) :
    ∃ h1, DeregisterBranch h k = .ok h1 ∧
      mapGet h1.subRecords k = none ∧
      (∀ k2, k2 ≠ k → mapGet h1.subRecords k2 = mapGet h.subRecords k2) ∧
      (∀ r b bi1, getBranch h1 r b = some bi1 →
        k ∉ bi1.registeredSub ∧ bi1.registeredSub ≠ []) ∧
      (∀ r repo1, mapGet h1.repoRecords r = some repo1 → repo1.branchs ≠ []) ∧
      (∃ b0 bi0, getBranch h r0 b0 = some bi0 ∧ k ∈ bi0.registeredSub) ∧
      (∀ b0 bi0, getBranch h r0 b0 = some bi0 → k ∈ bi0.registeredSub →
        (getBranch h1 r0 b0 = none ↔ ∀ x ∈ bi0.registeredSub, x = k) ∧
        (mapGet h1.repoRecords r0 = none ↔
          (getBranch h1 r0 b0 = none ∧ ∀ b bi, getBranch h r0 b = some bi → b = b0))) ∧
      (∀ r b bi, getBranch h r b = some bi → (∃ x ∈ bi.registeredSub, x ≠ k) →
        ∃ bi1, getBranch h1 r b = some bi1 ∧ bi1.lastCommitID = bi.lastCommitID ∧
          bi1.username = bi.username ∧ bi1.secret = bi.secret ∧
          ∀ x, x ∈ bi1.registeredSub ↔ x ∈ bi.registeredSub ∧ x ≠ k) := by
  have hinv := Reachable_inv h hreach
  obtain ⟨h1, hrun, hsub, _, _, _, hrepo, _, _⟩ := DeregisterBranch_spec h hinv k r0 hk
  have hU := DeregisterBranch_branches h hinv k r0 hk h1 hrun
  have hinv1 := DeregisterBranch_inv h hinv k h1 hrun
  refine ⟨h1, hrun, ?_, ?_, ?_, ?_, ?_, ?_, ?_⟩
  · rw [hsub]
    exact mapGet_mapDelete_self _ _
  · intro k2 hne
    rw [hsub]
    exact mapGet_mapDelete_ne _ _ _ hne
  · intro r b bi1 hb1
    refine ⟨?_, hinv1.branchNonempty r b bi1 hb1⟩
    rw [hU r b] at hb1
    cases hb : getBranch h r b with
    | none => simp [hb] at hb1
    | some bi =>
      simp only [hb, Option.some_bind] at hb1
      obtain ⟨_, heq⟩ := (pruneBranch_eq_some k bi bi1).1 hb1
      rw [heq]
      intro hin
      exact ((mem_setDelete _ _ _).1 hin).2 rfl
  · exact hinv1.repoNonempty
  · exact hinv.subRegistered k r0 hk
  · intro b0 bi0 hb0 hin0
    have hfirst : getBranch h1 r0 b0 = none ↔ ∀ x ∈ bi0.registeredSub, x = k := by
      rw [hU r0 b0, hb0, Option.some_bind, pruneBranch_eq_none, setDelete_eq_nil_iff]
    refine ⟨hfirst, ?_⟩
    constructor
    · intro hgone
      have hall : ∀ b, getBranch h1 r0 b = none :=
        fun b => getBranch_none_of_repo h1 r0 b hgone
      refine ⟨hall b0, ?_⟩
      intro b bi hb
      by_contra hne
      have hnot : k ∉ bi.registeredSub := fun hin =>
        hne (hinv.consumerOneBranch r0 b b0 bi bi0 k hb hb0 hin hin0)
      have := hall b
      rw [hU r0 b, hb, Option.some_bind,
        pruneBranch_of_not_mem k bi hnot (hinv.branchNonempty r0 b bi hb)] at this
      cases this
    · rintro ⟨hb0gone, honly⟩
      cases hr1 : mapGet h1.repoRecords r0 with
      | none => rfl
      | some repo1 =>
        exfalso
        apply (hrepo repo1 hr1).1
        apply mapGet_none_of_nil
        intro b
        rw [← getBranch_of_repo h1 r0 b repo1 hr1, hU r0 b]
        cases hb : getBranch h r0 b with
        | none => rfl
        | some bi =>
          have hbb : b = b0 := honly b bi hb
          subst hbb
          rw [← hb, ← hU r0 b]
          exact hb0gone
  · intro r b bi hb hex
    obtain ⟨x, hx, hxk⟩ := hex
    have hne : setDelete bi.registeredSub k ≠ [] :=
      List.ne_nil_of_mem ((mem_setDelete _ _ _).2 ⟨hx, hxk⟩)
    refine ⟨{ bi with registeredSub := setDelete bi.registeredSub k }, ?_, rfl, rfl, rfl, ?_⟩
    · rw [hU r b, hb, Option.some_bind]
      exact (pruneBranch_eq_some k bi _).2 ⟨hne, rfl⟩
    · intro y
      exact mem_setDelete _ _ _

/-- C4 at the polling scenario: `ns/sub1` leaves the branch `main`, which keeps
`ns/sub2`. -/
theorem DeregisterBranch_prunes_witness :
    Reachable (scenarioRegistry "abc123") ∧
    mapGet (scenarioRegistry "abc123").subRecords ⟨"ns", "sub1"⟩ = some "github.com/org/repo" ∧
    ∃ h1, DeregisterBranch (scenarioRegistry "abc123") ⟨"ns", "sub1"⟩ = .ok h1 ∧
      mapGet h1.subRecords ⟨"ns", "sub1"⟩ = none ∧
      (∀ k2, k2 ≠ (⟨"ns", "sub1"⟩ : NamespacedName) →
        mapGet h1.subRecords k2 = mapGet (scenarioRegistry "abc123").subRecords k2) ∧
      (∀ r b bi1, getBranch h1 r b = some bi1 →
        (⟨"ns", "sub1"⟩ : NamespacedName) ∉ bi1.registeredSub ∧ bi1.registeredSub ≠ []) ∧
      (∀ r repo1, mapGet h1.repoRecords r = some repo1 → repo1.branchs ≠ []) ∧
      (∃ b0 bi0, getBranch (scenarioRegistry "abc123") "github.com/org/repo" b0 = some bi0 ∧
        (⟨"ns", "sub1"⟩ : NamespacedName) ∈ bi0.registeredSub) ∧
      (∀ b0 bi0, getBranch (scenarioRegistry "abc123") "github.com/org/repo" b0 = some bi0 →
        (⟨"ns", "sub1"⟩ : NamespacedName) ∈ bi0.registeredSub →
        (getBranch h1 "github.com/org/repo" b0 = none ↔
          ∀ x ∈ bi0.registeredSub, x = (⟨"ns", "sub1"⟩ : NamespacedName)) ∧
        (mapGet h1.repoRecords "github.com/org/repo" = none ↔
          (getBranch h1 "github.com/org/repo" b0 = none ∧
            ∀ b bi, getBranch (scenarioRegistry "abc123") "github.com/org/repo" b = some bi →
              b = b0))) ∧
      (∀ r b bi, getBranch (scenarioRegistry "abc123") r b = some bi →
        (∃ x ∈ bi.registeredSub, x ≠ (⟨"ns", "sub1"⟩ : NamespacedName)) →
        ∃ bi1, getBranch h1 r b = some bi1 ∧ bi1.lastCommitID = bi.lastCommitID ∧
          bi1.username = bi.username ∧ bi1.secret = bi.secret ∧
          ∀ x, x ∈ bi1.registeredSub ↔
            x ∈ bi.registeredSub ∧ x ≠ (⟨"ns", "sub1"⟩ : NamespacedName)) :=
  ⟨scenario_reachable, by decide,
    DeregisterBranch_prunes (scenarioRegistry "abc123") scenario_reachable ⟨"ns", "sub1"⟩
      "github.com/org/repo" (by decide)⟩

/-- C6 (as stated, refuted): the branch `main` stores the empty commit id and the fetch
returns the empty commit id, the same marker; the tick still calls
`updateCommitAnnotation` for both consumers. -/
theorem GitWatch_same_marker_counterexample :
    (getBranch (scenarioRegistry "") "github.com/org/repo" "main").map
        (fun bi => bi.lastCommitID) = some "" ∧
    Except.map (fun res => (res.1, res.2.2))
        (GitWatch (fun _ _ _ _ => ("", none)) (scenarioRegistry "") scenarioClient) =
      .ok (scenarioRegistry "",
        [Event.fetch "github.com/org/repo" "main" "" "",
         Event.annotate "github.com/org/repo" "main" ⟨"ns", "sub1"⟩ "",
         Event.annotate "github.com/org/repo" "main" ⟨"ns", "sub2"⟩ ""]) := by
  refine ⟨by decide, rfl⟩

/-- C6 (amended): if the commit id stored for a branch is not empty and the fetch of the
tick returns that same commit id, a tick that returns leaves the branch entry as it was
and has called `updateCommitAnnotation` on account of this branch for no consumer; the
tick returns whenever every record the cluster serves carries an annotation map. -/
theorem GitWatch_same_marker_no_update (f : GetCommitFunc) (h : HubGitOps) (clt : Client)
    (r : String) (repo : RepoRegistery) (b : String) (bi : branchInfo)
    (hk : keysNodup h.repoRecords) (hr : mapGet h.repoRecords r = some repo)
    (hbk : keysNodup repo.branchs) (hb : mapGet repo.branchs b = some bi)
    (hnd : bi.registeredSub.Nodup) (hstored : bi.lastCommitID ≠ "")
    (hsame : (f repo.url b bi.username bi.secret).1 = bi.lastCommitID) :
    (clt.annotated → ∃ res, GitWatch f h clt = .ok res) ∧
    ∀ h1 clt1 evs, GitWatch f h clt = .ok (h1, clt1, evs) →
      getBranch h1 r b = some bi ∧ ∀ k c, evs.count (Event.annotate r b k c) = 0 := by
  refine ⟨GitWatch_total f h clt, ?_⟩
  intro h1 clt1 evs hrun
  obtain ⟨hbr, hcount⟩ := GitWatch_branch f h h1 clt clt1 evs hrun hk r repo hr hbk b bi hb hnd
  have hc : bi.lastCommitID ≠ "" ∧ (f repo.url b bi.username bi.secret).1 = bi.lastCommitID :=
    ⟨hstored, hsame⟩
  rw [if_pos hc] at hbr
  refine ⟨hbr, ?_⟩
  intro k c
  rw [hcount k c]
  simp [hc]

/-- The amended C6 at the polling scenario: stored `abc123`, fetched `abc123`. -/
theorem GitWatch_same_marker_no_update_witness :
    (keysNodup (scenarioRegistry "abc123").repoRecords ∧ ("abc123" : String) ≠ "" ∧
      scenarioClient.annotated) ∧
    ((scenarioClient.annotated →
        ∃ res, GitWatch (fun _ _ _ _ => ("abc123", none)) (scenarioRegistry "abc123")
          scenarioClient = .ok res) ∧
      ∀ h1 clt1 evs,
        GitWatch (fun _ _ _ _ => ("abc123", none)) (scenarioRegistry "abc123") scenarioClient =
          .ok (h1, clt1, evs) →
        getBranch h1 "github.com/org/repo" "main" =
            some ⟨"abc123", "", "", [⟨"ns", "sub1"⟩, ⟨"ns", "sub2"⟩]⟩ ∧
          ∀ k c, evs.count (Event.annotate "github.com/org/repo" "main" k c) = 0) ∧
    Except.map (fun res => (res.1, res.2.2))
        (GitWatch (fun _ _ _ _ => ("abc123", none)) (scenarioRegistry "abc123")
          scenarioClient) =
      .ok (scenarioRegistry "abc123", [Event.fetch "github.com/org/repo" "main" "" ""]) :=
  ⟨⟨by decide, by decide, scenarioClient_annotated⟩,
    GitWatch_same_marker_no_update (fun _ _ _ _ => ("abc123", none)) (scenarioRegistry "abc123")
      scenarioClient "github.com/org/repo"
      ⟨"github.com/org/repo", [("main", ⟨"abc123", "", "", [⟨"ns", "sub1"⟩, ⟨"ns", "sub2"⟩]⟩)]⟩
      "main" ⟨"abc123", "", "", [⟨"ns", "sub1"⟩, ⟨"ns", "sub2"⟩]⟩
      (by decide) (by decide) (by decide) (by decide) (by decide) (by decide) (by decide),
    rfl⟩

/-- The key of a subscription is the one `setCommitID` leaves it. -/
theorem setCommitID_key (subIns : Subscription) (commitID : String) :
    (setCommitID subIns commitID).Namespace = subIns.Namespace ∧
      (setCommitID subIns commitID).Name = subIns.Name := by
  simp [setCommitID]

/-- C10: the two registry consistency errors are no-ops.  `RegisterBranch` of a
subscription whose key is in `subRecords` returns the registry (and the subscription) as
it was; `DeregisterBranch` of a key that is not in `subRecords` returns the registry as
it was; and after a `RegisterBranch` that returned, registering the same subscription
again, in the same surroundings, returns the registry of the first registration. -/
theorem register_deregister_noop (env : RegisterEnv) (h h1 : HubGitOps)
    (subIns subIns1 : Subscription) (k : NamespacedName) :
    ((mapGet h.subRecords ⟨subIns.Namespace, subIns.Name⟩).isSome = true →
        RegisterBranch env h subIns = .ok (h, subIns)) ∧
    (mapGet h.subRecords k = none → DeregisterBranch h k = .ok h) ∧
    (RegisterBranch env h subIns = .ok (h1, subIns1) →
        RegisterBranch env h1 subIns = .ok (h1, subIns) ∧
        RegisterBranch env h1 subIns1 = .ok (h1, subIns1)) := by
  have hnoop : ∀ (hh : HubGitOps) (s : Subscription),
      (mapGet hh.subRecords ⟨s.Namespace, s.Name⟩).isSome = true →
      RegisterBranch env hh s = .ok (hh, s) := by
    intro hh s hs
    simp [RegisterBranch, hs]
  refine ⟨hnoop h subIns, ?_, ?_⟩
  · intro hk
    simp [DeregisterBranch, hk]
  · intro hrun
    rcases RegisterBranch_cases env h h1 subIns subIns1 hrun with
      ⟨hsame, hs⟩ | ⟨r, url, u, p, c, _, _, hs1, hsub1, _⟩ |
      ⟨r, repo, bi, _, _, _, hs1, _, hsub1, _⟩
    · subst hsame
      subst hs
      exact ⟨hrun, hrun⟩
    · have hkey : (mapGet h1.subRecords ⟨subIns.Namespace, subIns.Name⟩).isSome = true := by
        rw [hs1, mapGet_mapSet_self]
        rfl
      refine ⟨hnoop h1 subIns hkey, hnoop h1 subIns1 ?_⟩
      rw [hsub1, (setCommitID_key subIns c).1, (setCommitID_key subIns c).2]
      exact hkey
    · have hkey : (mapGet h1.subRecords ⟨subIns.Namespace, subIns.Name⟩).isSome = true := by
        rw [hs1, mapGet_mapSet_self]
        rfl
      subst hsub1
      exact ⟨hnoop h1 subIns1 hkey, hnoop h1 subIns1 hkey⟩

/-- C10 at the polling scenario: `ns/sub1` registers a second time, the unknown
`ns/sub9` deregisters, and on the empty registry `ns/sub1` registers twice. -/
theorem register_deregister_noop_witness :
    RegisterBranch scenarioEnv (scenarioRegistry "abc123") scenarioSub1 =
      .ok (scenarioRegistry "abc123", scenarioSub1) ∧
    DeregisterBranch (scenarioRegistry "abc123") ⟨"ns", "sub9"⟩ =
      .ok (scenarioRegistry "abc123") ∧
    RegisterBranch scenarioEnv NewHookGit scenarioSub1 =
      .ok (⟨"/tmp/repo", [(⟨"ns", "sub1"⟩, "github.com/org/repo")],
          [("github.com/org/repo",
            ⟨"github.com/org/repo", [("main", ⟨"abc123", "", "", [⟨"ns", "sub1"⟩]⟩)]⟩)]⟩,
        setCommitID scenarioSub1 "abc123") ∧
    RegisterBranch scenarioEnv
        ⟨"/tmp/repo", [(⟨"ns", "sub1"⟩, "github.com/org/repo")],
          [("github.com/org/repo",
            ⟨"github.com/org/repo", [("main", ⟨"abc123", "", "", [⟨"ns", "sub1"⟩]⟩)]⟩)]⟩
        scenarioSub1 =
      .ok (⟨"/tmp/repo", [(⟨"ns", "sub1"⟩, "github.com/org/repo")],
          [("github.com/org/repo",
            ⟨"github.com/org/repo", [("main", ⟨"abc123", "", "", [⟨"ns", "sub1"⟩]⟩)]⟩)]⟩,
        scenarioSub1) :=
  ⟨(register_deregister_noop scenarioEnv (scenarioRegistry "abc123") (scenarioRegistry "abc123")
      scenarioSub1 scenarioSub1 ⟨"ns", "sub9"⟩).1 (by decide),
    (register_deregister_noop scenarioEnv (scenarioRegistry "abc123") (scenarioRegistry "abc123")
      scenarioSub1 scenarioSub1 ⟨"ns", "sub9"⟩).2.1 (by decide),
    rfl,
    ((register_deregister_noop scenarioEnv NewHookGit
      ⟨"/tmp/repo", [(⟨"ns", "sub1"⟩, "github.com/org/repo")],
        [("github.com/org/repo",
          ⟨"github.com/org/repo", [("main", ⟨"abc123", "", "", [⟨"ns", "sub1"⟩]⟩)]⟩)]⟩
      scenarioSub1 (setCommitID scenarioSub1 "abc123") ⟨"ns", "sub9"⟩).2.2 rfl).1⟩

end mcmhub


/-! ## More claims about the registry -/

namespace mcmhub

/-- C11: in every reachable registry, each key of `subRecords` is mapped to a source that
is in `repoRecords`, and is a consumer of a branch of that source and of no other branch
of any source; conversely every consumer of any branch is a key of `subRecords`. -/
theorem Reachable_consumer_on_one_branch (h : HubGitOps) (hreach : Reachable h) :
    (∀ k r, mapGet h.subRecords k = some r →
      (∃ repo, mapGet h.repoRecords r = some repo) ∧
      ∃ b bi, getBranch h r b = some bi ∧ k ∈ bi.registeredSub ∧
        ∀ r2 b2 bi2, getBranch h r2 b2 = some bi2 → k ∈ bi2.registeredSub →
          r2 = r ∧ b2 = b) ∧
    (∀ r b bi k, getBranch h r b = some bi → k ∈ bi.registeredSub →
      (mapGet h.subRecords k).isSome = true) := by
  have hinv := Reachable_inv h hreach
  refine ⟨?_, ?_⟩
  · intro k r hk
    obtain ⟨b, bi, hb, hin⟩ := hinv.subRegistered k r hk
    obtain ⟨repo, hr, _⟩ := getBranch_some h r b bi hb
    refine ⟨⟨repo, hr⟩, b, bi, hb, hin, ?_⟩
    intro r2 b2 bi2 hb2 hin2
    have hrec := hinv.consumerRecorded r2 b2 bi2 k hb2 hin2
    rw [hk] at hrec
    have hr2 : r2 = r := (Option.some.inj hrec).symm
    subst hr2
    exact ⟨rfl, hinv.consumerOneBranch r2 b2 b bi2 bi k hb2 hb hin2 hin⟩
  · intro r b bi k hb hin
    rw [hinv.consumerRecorded r b bi k hb hin]
    rfl

/-- C11 at the registry of the polling scenario. -/
theorem Reachable_consumer_on_one_branch_witness :
    Reachable (scenarioRegistry "abc123") ∧
    ((∀ k r, mapGet (scenarioRegistry "abc123").subRecords k = some r →
      (∃ repo, mapGet (scenarioRegistry "abc123").repoRecords r = some repo) ∧
      ∃ b bi, getBranch (scenarioRegistry "abc123") r b = some bi ∧ k ∈ bi.registeredSub ∧
        ∀ r2 b2 bi2, getBranch (scenarioRegistry "abc123") r2 b2 = some bi2 →
          k ∈ bi2.registeredSub → r2 = r ∧ b2 = b) ∧
    (∀ r b bi k, getBranch (scenarioRegistry "abc123") r b = some bi → k ∈ bi.registeredSub →
      (mapGet (scenarioRegistry "abc123").subRecords k).isSome = true)) :=
  ⟨scenario_reachable, Reachable_consumer_on_one_branch _ scenario_reachable⟩

theorem fetchCalls_append (a b : List Event) :
    fetchCalls (a ++ b) = fetchCalls a ++ fetchCalls b := by
  simp [fetchCalls]

/-- A returning pass of the inner loop body calls `getCommitFunc` once, with the url of
the source, the branch name and the stored credentials. -/
theorem watchBranch_fetchCalls (f : GetCommitFunc) (repoName url bName : String)
    (bi bi1 : branchInfo) (clt clt1 : Client) (evs : List Event)
    (h : watchBranch f repoName url bName bi clt = .ok (bi1, clt1, evs)) :
    fetchCalls evs = [Event.fetch url bName bi.username bi.secret] := by
  obtain ⟨h1, h2⟩ := watchBranch_ok f repoName url bName bi bi1 clt clt1 evs h
  by_cases hc : bi.lastCommitID ≠ "" ∧ (f url bName bi.username bi.secret).1 = bi.lastCommitID
  · rw [(h1 hc).2]
    simp [fetchCalls]
  · rw [(h2 hc).2]
    simp [fetchCalls, List.filter_cons, List.filter_eq_nil_iff]

theorem watchBranchs_fetchCalls (f : GetCommitFunc) (repoName url : String)
    (bs bs1 : List (String × branchInfo)) (clt clt1 : Client) (evs : List Event)
    (h : watchBranchs f repoName url bs clt = .ok (bs1, clt1, evs)) :
    fetchCalls evs = bs.map (fun e => Event.fetch url e.1 e.2.username e.2.secret) := by
  induction bs generalizing bs1 clt evs with
  | nil =>
    simp only [watchBranchs, Except.ok.injEq, Prod.mk.injEq] at h
    simp [h.2.2.symm, fetchCalls]
  | cons e rest ih =>
    obtain ⟨bName, bi⟩ := e
    obtain ⟨bi1, cltA, evsA, rest1, evsB, hw, hr, _, hevs⟩ :=
      watchBranchs_cons_ok f repoName url bName bi rest bs1 clt clt1 evs h
    rw [hevs, fetchCalls_append, watchBranch_fetchCalls f repoName url bName bi bi1 clt cltA evsA hw,
      ih rest1 cltA evsB hr]
    simp

theorem watchRepos_fetchCalls (f : GetCommitFunc) (rs rs1 : List (String × RepoRegistery))
    (clt clt1 : Client) (evs : List Event)
    (h : watchRepos f rs clt = .ok (rs1, clt1, evs)) :
    fetchCalls evs = registeredFetches rs := by
  induction rs generalizing rs1 clt evs with
  | nil =>
    simp only [watchRepos, Except.ok.injEq, Prod.mk.injEq] at h
    simp [h.2.2.symm, fetchCalls, registeredFetches]
  | cons e rest ih =>
    obtain ⟨repoName, repo⟩ := e
    obtain ⟨bs1, cltA, evsA, rest1, evsB, hw, hr, _, hevs⟩ :=
      watchRepos_cons_ok f repoName repo rest rs1 clt clt1 evs h
    rw [hevs, fetchCalls_append,
      watchBranchs_fetchCalls f repoName repo.url repo.branchs bs1 clt cltA evsA hw,
      ih rest1 cltA evsB hr]
    simp [registeredFetches, branchFetches]

/-- C13 (the code departs from the claim): `ns/sub1` is registered on the branch `main`,
whose stored commit id is `abc123`; its record now names the branch `dev`.
`GetLatestCommitID` looks the branch up by the name the record gives, finds no entry and
panics, reading `lastCommitID` through a nil pointer, where the claim has it return
`abc123` without error. -/
theorem GetLatestCommitID_moved_branch_panics :
    Reachable (scenarioRegistry "abc123") ∧
    mapGet (scenarioRegistry "abc123").subRecords ⟨"ns", "sub1"⟩ = some "github.com/org/repo" ∧
    getBranch (scenarioRegistry "abc123") "github.com/org/repo" "main" =
      some ⟨"abc123", "", "", [⟨"ns", "sub1"⟩, ⟨"ns", "sub2"⟩]⟩ ∧
    genBranchString scenarioSub1Moved = "dev" ∧
    GetLatestCommitID scenarioEnv (scenarioRegistry "abc123") scenarioSub1Moved =
      .error Panic.nilDeref := by
  refine ⟨scenario_reachable, by decide, by decide, by decide, rfl⟩

/-- The commit annotation `setCommitID` writes is the one read back. -/
theorem setCommitID_commit (subIns : Subscription) (commitID : String) :
    annoGet (setCommitID subIns commitID).Annotations AnnotationGitCommit = commitID := by
  simp [setCommitID, annoGet, mapGet_mapSet_self]

/-- The three ways `initialDownload` returns. -/
theorem initialDownload_result (env : RegisterEnv) (h : HubGitOps) :
    (h.localDir ≠ "" → initialDownload env h = (("", none), h)) ∧
    (h.localDir = "" → ∀ err, env.getChannel = .error err →
      initialDownload env h = (("", some err), h)) ∧
    (h.localDir = "" → ∀ chn, env.getChannel = .ok chn →
      initialDownload env h = (env.clone, { h with localDir := env.localGitFolder })) := by
  refine ⟨?_, ?_, ?_⟩
  · intro hd
    simp [initialDownload, hd]
  · intro hd err hg
    simp [initialDownload, hd, hg]
  · intro hd chn hg
    simp [initialDownload, hd, hg]

/-- The result of `RegisterBranch` when it creates a new source. -/
theorem RegisterBranch_new_source_eq (env : RegisterEnv) (h : HubGitOps)
    (subIns : Subscription) (channel : Channel) (user pwd : String)
    (hnew : mapGet h.subRecords ⟨subIns.Namespace, subIns.Name⟩ = none)
    (hch : env.refChannel = .ok channel) (hgit : isGitChannel channel = true)
    (hsec : env.channelSecret = .ok (user, pwd))
    (hrepo : mapGet h.repoRecords (genRepoName channel.Pathname user pwd) = none)
    (res : (String × Option GoError) × HubGitOps)
    (hres : res = initialDownload env ⟨h.localDir,
      mapSet h.subRecords ⟨subIns.Namespace, subIns.Name⟩
        (genRepoName channel.Pathname user pwd), h.repoRecords⟩) :
    RegisterBranch env h subIns =
      .ok (⟨res.2.localDir, res.2.subRecords,
          mapSet res.2.repoRecords (genRepoName channel.Pathname user pwd)
            ⟨channel.Pathname, [(genBranchString subIns,
              ⟨res.1.1, user, pwd, [⟨subIns.Namespace, subIns.Name⟩]⟩)]⟩⟩,
        setCommitID subIns res.1.1) := by
  have hnew2 : mapGet h.subRecords { Name := subIns.Name, Namespace := subIns.Namespace } = none :=
    hnew
  subst hres
  simp only [RegisterBranch, hnew2, hch, hgit, hsec, hrepo]
  rfl

/-- What `RegisterBranch` stores for a new source: whenever it creates one (the consumer
is not registered, its channel is a git channel whose secret can be read, and the source name is
not in `repoRecords`), it returns, and the new branch holds the consumer, the credentials
and, as stored commit id, the commit id `initialDownload` returns; the same id is written
to the commit annotation of the subscription.  When no local directory is recorded and
the channel can be read, that id is the one the clone returns and the local directory is
recorded; when a local directory is already recorded, or the channel cannot be read, no
clone is made and the id is empty. -/
theorem RegisterBranch_new_source_marker (env : RegisterEnv) (h : HubGitOps)
    (subIns : Subscription) (channel : Channel) (user pwd : String)
    (hnew : mapGet h.subRecords ⟨subIns.Namespace, subIns.Name⟩ = none)
    (hch : env.refChannel = .ok channel) (hgit : isGitChannel channel = true)
    (hsec : env.channelSecret = .ok (user, pwd))
    (hrepo : mapGet h.repoRecords (genRepoName channel.Pathname user pwd) = none) :
    ∃ h1 subIns1 commitID, RegisterBranch env h subIns = .ok (h1, subIns1) ∧
      getBranch h1 (genRepoName channel.Pathname user pwd) (genBranchString subIns) =
        some ⟨commitID, user, pwd, [⟨subIns.Namespace, subIns.Name⟩]⟩ ∧
      subIns1 = setCommitID subIns commitID ∧
      annoGet subIns1.Annotations AnnotationGitCommit = commitID ∧
      (h.localDir = "" → ∀ chn, env.getChannel = .ok chn →
        commitID = env.clone.1 ∧ h1.localDir = env.localGitFolder) ∧
      (h.localDir = "" → ∀ err, env.getChannel = .error err →
        commitID = "" ∧ h1.localDir = h.localDir) ∧
      (h.localDir ≠ "" → commitID = "" ∧ h1.localDir = h.localDir) := by
  obtain ⟨res, hres⟩ : ∃ res, res = initialDownload env ⟨h.localDir,
      mapSet h.subRecords ⟨subIns.Namespace, subIns.Name⟩
        (genRepoName channel.Pathname user pwd), h.repoRecords⟩ := ⟨_, rfl⟩
  have heq := RegisterBranch_new_source_eq env h subIns channel user pwd hnew hch hgit hsec
    hrepo res hres
  obtain ⟨hA, hB, hC⟩ := initialDownload_result env ⟨h.localDir,
      mapSet h.subRecords ⟨subIns.Namespace, subIns.Name⟩
        (genRepoName channel.Pathname user pwd), h.repoRecords⟩
  refine ⟨_, _, res.1.1, heq, ?_, rfl, setCommitID_commit _ _, ?_, ?_, ?_⟩
  · simp [getBranch, mapGet_mapSet_self, mapGet]
  · intro hd chn hg
    rw [hres, hC hd chn hg]
    exact ⟨rfl, rfl⟩
  · intro hd err hg
    rw [hres, hB hd err hg]
    exact ⟨rfl, rfl⟩
  · intro hd
    rw [hres, hA hd]
    exact ⟨rfl, rfl⟩

/-- The new source at the empty registry: `ns/sub1` registers, the clone returns
`abc123`. -/
theorem RegisterBranch_new_source_marker_witness :
    ∃ h1 subIns1 commitID, RegisterBranch scenarioEnv NewHookGit scenarioSub1 =
        .ok (h1, subIns1) ∧
      getBranch h1 (genRepoName "github.com/org/repo" "" "") (genBranchString scenarioSub1) =
        some ⟨commitID, "", "", [⟨"ns", "sub1"⟩]⟩ ∧
      subIns1 = setCommitID scenarioSub1 commitID ∧
      annoGet subIns1.Annotations AnnotationGitCommit = commitID ∧
      (NewHookGit.localDir = "" → ∀ chn, scenarioEnv.getChannel = .ok chn →
        commitID = scenarioEnv.clone.1 ∧ h1.localDir = scenarioEnv.localGitFolder) ∧
      (NewHookGit.localDir = "" → ∀ err, scenarioEnv.getChannel = .error err →
        commitID = "" ∧ h1.localDir = NewHookGit.localDir) ∧
      (NewHookGit.localDir ≠ "" → commitID = "" ∧ h1.localDir = NewHookGit.localDir) :=
  RegisterBranch_new_source_marker scenarioEnv NewHookGit scenarioSub1
    ⟨"github.com/org/repo", "GitHub"⟩ "" "" (by decide) rfl (by decide) rfl (by decide)

/-- C14 (the code departs from the claim): the registry has recorded the local directory
of the clone of `github.com/org/repo`; the repository `github.com/org/other` is not
registered and was never downloaded.  `ns/other` registers: a new source with a new
branch is made, the channel can be read and a clone would return `fedcba` without error,
but `initialDownload` returns at its first lines, under the comment "the repo is
downloaded already", with the empty commit id and no error.  No clone is made, and the
new branch and the commit annotation get the empty commit id although no fetch has
failed.  At a registry without a local directory the same registration clones and stores
`fedcba`.  In general a new source that is registered while a local directory is
recorded gets the empty commit id, whatever the environment would answer to a clone. -/
theorem RegisterBranch_new_source_not_fetched :
    (scenarioRegistry "abc123").localDir = "/tmp/repo" ∧
    mapGet (scenarioRegistry "abc123").repoRecords "github.com/org/other" = none ∧
    scenarioOtherEnv.getChannel = .ok ⟨"github.com/org/other", "Git"⟩ ∧
    scenarioOtherEnv.clone = ("fedcba", none) ∧
    (∃ h1, initialDownload scenarioOtherEnv (scenarioRegistry "abc123") = (("", none), h1)) ∧
    RegisterBranchSteps scenarioOtherEnv (scenarioRegistry "abc123") scenarioOtherSub =
      [.lock, .download, .unlock] ∧
    (∃ res, RegisterBranch scenarioOtherEnv (scenarioRegistry "abc123") scenarioOtherSub =
        .ok res ∧
      getBranch res.1 "github.com/org/other" "master" = some ⟨"", "", "", [⟨"ns", "other"⟩]⟩ ∧
      annoGet res.2.Annotations AnnotationGitCommit = "") ∧
    (∃ res, RegisterBranch scenarioOtherEnv NewHookGit scenarioOtherSub = .ok res ∧
      getBranch res.1 "github.com/org/other" "master" =
        some ⟨"fedcba", "", "", [⟨"ns", "other"⟩]⟩ ∧
      annoGet res.2.Annotations AnnotationGitCommit = "fedcba") ∧
    (∀ (env : RegisterEnv) (h : HubGitOps) (subIns : Subscription) (channel : Channel)
      (user pwd : String),
      mapGet h.subRecords ⟨subIns.Namespace, subIns.Name⟩ = none →
      env.refChannel = .ok channel → isGitChannel channel = true →
      env.channelSecret = .ok (user, pwd) →
      mapGet h.repoRecords (genRepoName channel.Pathname user pwd) = none →
      h.localDir ≠ "" →
      ∃ h1 subIns1, RegisterBranch env h subIns = .ok (h1, subIns1) ∧
        getBranch h1 (genRepoName channel.Pathname user pwd) (genBranchString subIns) =
          some ⟨"", user, pwd, [⟨subIns.Namespace, subIns.Name⟩]⟩ ∧
        annoGet subIns1.Annotations AnnotationGitCommit = "" ∧
        RegisterBranchSteps env h subIns = [.lock, .download, .unlock]) := by
  refine ⟨rfl, by decide, rfl, rfl, ⟨_, rfl⟩, by decide, ⟨_, rfl, by decide, by decide⟩,
    ⟨_, rfl, by decide, by decide⟩, ?_⟩
  intro env h subIns channel user pwd hnew hch hgit hsec hrepo hdir
  obtain ⟨h1, subIns1, commitID, hrun, hbr, _, hanno, _, _, hempty⟩ :=
    RegisterBranch_new_source_marker env h subIns channel user pwd hnew hch hgit hsec hrepo
  obtain ⟨hc, _⟩ := hempty hdir
  subst hc
  refine ⟨h1, subIns1, hrun, hbr, hanno, ?_⟩
  unfold RegisterBranchSteps
  dsimp only
  rw [hnew, hch]
  simp only [Option.isSome_none, Bool.false_eq_true, if_false, hgit, Bool.not_true, hsec, hrepo]
  simp [initialDownloadSteps, hdir]

/-- C18 (the code departs from the claim): `genRepoName` appends the user name to the URL
without a separator, so the repository `https://github.com/org/repo` with user `s` and
the repository `https://github.com/org/repos` with a token and no user name get one
name, with non-empty secrets on both sides.  Registered one after the other, `ns/a` and
`ns/b` end as consumers of one source entry, which holds the URL and the credentials of
the first. -/
theorem genRepoName_collision :
    genRepoName "https://github.com/org/repo" "s" "token" =
      genRepoName "https://github.com/org/repos" "" "token" ∧
    ("https://github.com/org/repo" : String) ≠ "https://github.com/org/repos" ∧
    ("s" : String) ≠ "" ∧ ("token" : String) ≠ "" ∧
    (∃ hA sA, RegisterBranch collisionEnvA NewHookGit collisionSubA = .ok (hA, sA) ∧
      RegisterBranch collisionEnvB hA collisionSubB =
        .ok (⟨"/tmp/a",
            [(⟨"ns", "a"⟩, "https://github.com/org/repos"),
             (⟨"ns", "b"⟩, "https://github.com/org/repos")],
            [("https://github.com/org/repos",
              ⟨"https://github.com/org/repo",
                [("master", ⟨"aaa111", "s", "token", [⟨"ns", "a"⟩, ⟨"ns", "b"⟩]⟩)]⟩)]⟩,
          collisionSubB)) := by
  refine ⟨by decide, by decide, by decide, by decide, ⟨_, _, rfl, rfl⟩⟩

end mcmhub


/-! ## More claims about the synchronizer client -/

theorem mapSet_of_not_mem {K V : Type} [DecidableEq K] (m : List (K × V)) (k : K) (v : V)
    (h : k ∉ mapKeys m) : mapSet m k v = m ++ [(k, v)] := by
  induction m with
  | nil => simp [mapSet]
  | cons e m ih =>
    obtain ⟨k', v'⟩ := e
    simp only [mapKeys, List.map_cons, List.mem_cons, not_or] at h
    have hk : ¬ k' = k := fun hh => h.1 hh.symm
    simp only [mapKeys] at ih
    simp [mapSet, hk, ih h.2]

namespace kubernetes

/-- C15: the two waits of `AddTemplates` follow one another.  If the order is not sent
within the first wait, the call returns the error "timeout on writing templates", whatever
the acknowledgment would have been, and nothing is enqueued; if the order is sent and no
acknowledgment comes within the second wait, it returns the error "timeout on waiting
templates write result", which is another error; if the worker acknowledges with a nil
error it returns nil.  An order that is sent is enqueued behind the earlier ones. -/
theorem AddTemplates_two_waits (sync : KubeSynchronizer) (subType : String)
    (hostSub : NamespacedName) (dpls : List DplUnit) :
    (∀ ack, AddTemplates sync subType hostSub dpls .timedOut ack =
      (some (.new "timeout on writing templates to syncrhonizer"), sync)) ∧
    (AddTemplates sync subType hostSub dpls .sent .timedOut).1 =
      some (.new "timeout on waiting templates write result from syncrhonizer") ∧
    GoError.new "timeout on writing templates to syncrhonizer" ≠
      GoError.new "timeout on waiting templates write result from syncrhonizer" ∧
    (AddTemplates sync subType hostSub dpls .sent (.received none)).1 = none ∧
    (∀ ack, (AddTemplates sync subType hostSub dpls .sent ack).2.tplCh =
      sync.tplCh ++ [⟨subType, hostSub, dpls⟩]) := by
  refine ⟨fun _ => rfl, rfl, by decide, rfl, ?_⟩
  intro ack
  cases ack with
  | received serr => cases serr <;> rfl
  | timedOut => rfl

/-- C16: `CleanupByHost host tag` is one call of `AddTemplates tag host` with no
resources, and returns nothing of it but the synchronizer it leaves: when the order is
sent, the queue holds one more order, for that host, with that tag and with no resource;
when it is not sent, the synchronizer is as it was.  This holds whatever the call of
`AddTemplates` returns, an error included. -/
theorem CleanupByHost_submits_empty_order (sync : KubeSynchronizer) (host : NamespacedName)
    (syncsource : String) (enq : SendOutcome) (ack : RecvOutcome) :
    CleanupByHost sync host syncsource enq ack =
      (AddTemplates sync syncsource host [] enq ack).2 ∧
    (CleanupByHost sync host syncsource .sent ack).tplCh =
      sync.tplCh ++ [⟨syncsource, host, []⟩] ∧
    (CleanupByHost sync host syncsource .sent ack).KubeResources = sync.KubeResources ∧
    CleanupByHost sync host syncsource .timedOut ack = sync := by
  refine ⟨rfl, ?_, ?_, rfl⟩
  · cases ack with
    | received serr => cases serr <;> rfl
    | timedOut => rfl
  · cases ack with
    | received serr => cases serr <;> rfl
    | timedOut => rfl

/-- C20: `GetValidatedGVK` only appends to `KubeResources`.  The table after the call is
the table before it followed by at most one new entry; a new entry is for the resolved
GVK, which was no key before, while another key with its group/kind was, and the call
then returns that GVK; nothing is added when the call returns nil, nor when the resolved
GVK was a key already (the exact match).  The other fields of the synchronizer are
kept. -/
theorem GetValidatedGVK_appends_only (t : Tables) (sync : KubeSynchronizer)
    (g : GroupVersionKind) :
    ∃ added, (GetValidatedGVK t sync g).2.KubeResources = sync.KubeResources ++ added ∧
      added.length ≤ 1 ∧
      (∀ e ∈ added, e.1 = validOf t g ∧ e.1 ∉ mapKeys sync.KubeResources ∧
        (∃ reg ∈ mapKeys sync.KubeResources, reg.GroupKind = e.1.GroupKind ∧
          mapGet sync.KubeResources reg = some e.2) ∧
        (GetValidatedGVK t sync g).1 = some e.1) ∧
      ((GetValidatedGVK t sync g).1 = none → added = []) ∧
      (validOf t g ∈ mapKeys sync.KubeResources → added = []) ∧
      (GetValidatedGVK t sync g).2.tplCh = sync.tplCh ∧
      (GetValidatedGVK t sync g).2.Interval = sync.Interval := by
  by_cases hign : isIgnored t sync (validOf t g).GroupKind = true
  · refine ⟨[], ?_, by simp, by simp, fun _ => rfl, fun _ => rfl, ?_, ?_⟩ <;>
      simp [GetValidatedGVK, groupKind_eq, hign]
  · by_cases hmem : validOf t g ∈ mapKeys sync.KubeResources
    · have hscan := scan_of_mem (validOf t g) sync.KubeResources hmem false ⟨"", "", ""⟩
      refine ⟨[], ?_, by simp, by simp, fun _ => rfl, fun _ => rfl, ?_, ?_⟩ <;>
        simp [GetValidatedGVK, groupKind_eq, hign, hscan]
    · rcases scan_of_not_mem (validOf t g) sync.KubeResources hmem false ⟨"", "", ""⟩ with
        ⟨_, hfin⟩ | ⟨reg, hreg, hrgk, hfin⟩
      · refine ⟨[], ?_, by simp, by simp, fun _ => rfl, fun _ => rfl, ?_, ?_⟩ <;>
          simp [GetValidatedGVK, groupKind_eq, hign, hfin]
      · have hsome : (mapGet sync.KubeResources reg).isSome :=
          (mapGet_isSome_iff sync.KubeResources reg).2 hreg
        obtain ⟨r, hr⟩ := Option.isSome_iff_exists.1 hsome
        have hcall : GetValidatedGVK t sync g =
            (some (validOf t g),
              { sync with KubeResources := sync.KubeResources ++ [(validOf t g, r)] }) := by
          simp only [GetValidatedGVK, groupKind_eq, hign, hfin]
          simp [kubeResourceAddVersionToGK, hr, mapSet_of_not_mem _ _ _ hmem]
        refine ⟨[(validOf t g, r)], by rw [hcall], by simp, ?_, ?_, ?_, by rw [hcall],
          by rw [hcall]⟩
        · intro e he
          simp only [List.mem_singleton] at he
          subst he
          exact ⟨rfl, hmem, ⟨reg, hreg, hrgk, hr⟩, by rw [hcall]⟩
        · intro hnone
          rw [hcall] at hnone
          cases hnone
        · intro hh
          exact absurd hh hmem

end kubernetes


/-! ## The subscriber item: `subscribeResources` -/

namespace kubernetes

/-- An unresolved GVK leaves the synchronizer as it was. -/
theorem GetValidatedGVK_none_sync (t : Tables) (sync : KubeSynchronizer)
    (org : GroupVersionKind) (h : (GetValidatedGVK t sync org).1 = none) :
    (GetValidatedGVK t sync org).2 = sync := by
  unfold GetValidatedGVK at h ⊢
  dsimp only at h ⊢
  by_cases hig : isIgnored t sync { Group := (validOf t org).Group, Kind := (validOf t org).Kind } = true
  · rw [if_pos hig]
  · rw [if_neg hig] at h ⊢
    cases hs : scanKubeResources (validOf t org) sync.KubeResources false ⟨"", "", ""⟩ with
    | returned gvk => rfl
    | finished found regGvk =>
      cases found with
      | true =>
        rw [hs] at h
        simp at h
      | false => rfl

/-- A resolved GVK is a key of `KubeResources` afterwards. -/
theorem GetValidatedGVK_some_key (t : Tables) (sync : KubeSynchronizer)
    (org g : GroupVersionKind) (h : (GetValidatedGVK t sync org).1 = some g) :
    ∃ r, mapGet (GetValidatedGVK t sync org).2.KubeResources g = some r := by
  have hsome : ∀ (m : List (GroupVersionKind × ResourceMap)) (k : GroupVersionKind),
      k ∈ mapKeys m → ∃ r, mapGet m k = some r := by
    intro m k hk
    have := (mapGet_isSome_iff m k).2 hk
    exact Option.isSome_iff_exists.1 this
  unfold GetValidatedGVK at h ⊢
  dsimp only at h ⊢
  by_cases hig : isIgnored t sync { Group := (validOf t org).Group, Kind := (validOf t org).Kind } = true
  · rw [if_pos hig] at h
    simp at h
  · rw [if_neg hig] at h ⊢
    by_cases hmem : validOf t org ∈ mapKeys sync.KubeResources
    · have hs := scan_of_mem (validOf t org) sync.KubeResources hmem false ⟨"", "", ""⟩
      rw [hs] at h ⊢
      simp only [Option.some.injEq] at h
      subst h
      exact hsome _ _ hmem
    · rcases scan_of_not_mem (validOf t org) sync.KubeResources hmem false ⟨"", "", ""⟩ with
        ⟨_, hs⟩ | ⟨reg, hreg, _, hs⟩
      · rw [hs] at h
        simp at h
      · rw [hs] at h ⊢
        simp only [if_true, Option.some.injEq] at h ⊢
        subst h
        obtain ⟨r, hr⟩ := hsome _ _ hreg
        refine ⟨r, ?_⟩
        simp only [kubeResourceAddVersionToGK, hr]
        exact mapGet_mapSet_self _ _ _

end kubernetes

namespace github

/-- Replacing the records twice keeps the last replacement. -/
theorem withRecords_withRecords (st : SyncRun) (a c : List (String × Option GoError))
    (b d : List (String × Bool)) :
    (st.withRecords a b).withRecords c d = st.withRecords c d := rfl

/-- Replacing the records by themselves changes nothing. -/
theorem withRecords_self (st : SyncRun) :
    st.withRecords st.ghsi.Subscription.Status st.pkgMap = st := rfl

/-- Putting back the synchronizer of the run changes nothing. -/
theorem withSynchronizer_self (st : SyncRun) :
    st.withSynchronizer st.ghsi.synchronizer = st := rfl

/-- The step of `subscribeResource` at a resource whose GVK is not resolved: the "not
supported" error, one call of the status setter and one entry of `pkgMap`, both under
the name of its deployable. -/
theorem subscribeResource_unresolved (env : SubscriberEnv) (st : SyncRun) (rsc : Unstructured)
    (hunres : (kubernetes.GetValidatedGVK env.tables st.ghsi.synchronizer rsc.Gvk).1 = none) :
    subscribeResource env st rsc =
      .ok (.error (notSupported rsc.Gvk),
        st.withRecords
          (env.SetInClusterPackageStatus st.ghsi.Subscription.Status (dplName st.ghsi rsc)
            (notSupported rsc.Gvk)).1
          (mapSet st.pkgMap (dplName st.ghsi rsc) true)) := by
  have hsync := kubernetes.GetValidatedGVK_none_sync env.tables st.ghsi.synchronizer rsc.Gvk hunres
  unfold subscribeResource
  dsimp only
  rw [hunres, hsync]
  rfl

/-- The step of `subscribeResourceFile` at a resource whose GVK is not resolved. -/
theorem subscribeResourceFile_unresolved (env : SubscriberEnv) (hostkey : NamespacedName)
    (syncsource : String) (st : SyncRun) (rsc : Unstructured)
    (hunres : (kubernetes.GetValidatedGVK env.tables st.ghsi.synchronizer rsc.Gvk).1 = none) :
    subscribeResourceFile env hostkey syncsource st rsc =
      .ok (some (notSupported rsc.Gvk),
        st.withRecords
          (env.SetInClusterPackageStatus st.ghsi.Subscription.Status (dplName st.ghsi rsc)
            (notSupported rsc.Gvk)).1
          (mapSet st.pkgMap (dplName st.ghsi rsc) true)) := by
  unfold subscribeResourceFile
  rw [subscribeResource_unresolved env st rsc hunres]

/-- The loop over a list in two parts is the loop over the second part from where the
loop over the first part ends. -/
theorem subscribeParsed_append (env : SubscriberEnv) (hostkey : NamespacedName)
    (syncsource : String) (l1 l2 : List ParsedResource) (st : SyncRun) :
    subscribeParsed env hostkey syncsource (l1 ++ l2) st =
      match subscribeParsed env hostkey syncsource l1 st with
      | .error p => .error p
      | .ok s => subscribeParsed env hostkey syncsource l2 s := by
  induction l1 generalizing st with
  | nil => rfl
  | cons r l1 ih =>
    simp only [List.cons_append, subscribeParsed]
    by_cases hh : r.headerErr = true
    · rw [if_pos hh, if_pos hh]
      exact ih st
    · rw [if_neg hh, if_neg hh]
      cases hstep : subscribeResourceFile env hostkey syncsource st r.rsc with
      | error p => rfl
      | ok res => exact ih res.2

/-- The method goes through the resources of the readable files in one pass. -/
theorem subscribeResources_eq (env : SubscriberEnv) (hostkey : NamespacedName)
    (syncsource : String) (files : List String) (st : SyncRun) :
    subscribeResources env hostkey syncsource files st =
      subscribeParsed env hostkey syncsource (resourcesOf env files) st := by
  induction files generalizing st with
  | nil => rfl
  | cons f files ih =>
    simp only [subscribeResources, resourcesOf]
    cases hread : env.readResources f with
    | error e => exact ih st
    | ok resources =>
      dsimp only
      rw [subscribeParsed_append]
      by_cases hlen : resources.length > 0
      · rw [if_pos hlen]
        cases hrun : subscribeParsed env hostkey syncsource resources st with
        | error p => rfl
        | ok s => exact ih s
      · rw [if_neg hlen]
        have hnil : resources = [] := by
          cases resources with
          | nil => rfl
          | cons a b => simp at hlen
        subst hnil
        exact ih st

/-- The status and the package map are written and never read: from a run that differs
in them only, the resolved part of `subscribeResource` gives the same answer up to the
text of an error, and a run that again differs in them only; provided the override helper
does not read the status. -/
theorem subscribeResolved_frame (env : SubscriberEnv)
    (hover : ∀ r sub status, env.OverrideResourceBySubscription r
      { sub with Status := status } = env.OverrideResourceBySubscription r sub)
    (st1 : SyncRun) (status : List (String × Option GoError)) (pm : List (String × Bool))
    (rsc : Unstructured) (g : kubernetes.GroupVersionKind) (n : Bool) :
    ∃ res1 status1 pm1,
      subscribeResolved env (st1.withRecords status pm) rsc g n =
        (res1, (subscribeResolved env st1 rsc g n).2.withRecords status1 pm1) ∧
      (∀ d, (subscribeResolved env st1 rsc g n).1 = .ok d ↔ res1 = .ok d) := by
  have h1 : (st1.withRecords status pm).ghsi.Subscription.PackageFilter =
      st1.ghsi.Subscription.PackageFilter := rfl
  have h2 : ∀ r, checkFilters env (st1.withRecords status pm).ghsi r =
      checkFilters env st1.ghsi r := fun _ => rfl
  have h3 : setNamespaceIf n (st1.withRecords status pm).ghsi rsc =
      setNamespaceIf n st1.ghsi rsc := rfl
  have h4 : dplName (st1.withRecords status pm).ghsi rsc = dplName st1.ghsi rsc := rfl
  have h5 : dplNamespace (st1.withRecords status pm).ghsi = dplNamespace st1.ghsi := rfl
  have h6 : (st1.withRecords status pm).ghsi.Subscription.PackageOverrides =
      st1.ghsi.Subscription.PackageOverrides := rfl
  have h7 : ∀ r, env.OverrideResourceBySubscription r (st1.withRecords status pm).ghsi.Subscription =
      env.OverrideResourceBySubscription r st1.ghsi.Subscription :=
    fun r => hover r st1.ghsi.Subscription status
  unfold subscribeResolved
  dsimp only
  rw [h1, h2, h3, h4, h5, h6, h7]
  by_cases hf : (if st1.ghsi.Subscription.PackageFilter.isSome = true then
      checkFilters env st1.ghsi (setNamespaceIf n st1.ghsi rsc) else "") ≠ ""
  · rw [if_pos hf, if_pos hf]
    exact ⟨_, status, pm, rfl, fun d => by simp⟩
  · rw [if_neg hf, if_neg hf]
    cases hov : (if st1.ghsi.Subscription.PackageOverrides.isSome = true then
        env.OverrideResourceBySubscription (setNamespaceIf n st1.ghsi rsc) st1.ghsi.Subscription
        else Except.ok (setNamespaceIf n st1.ghsi rsc)) with
    | error err =>
      dsimp only
      exact ⟨_, _, _, rfl, fun d => by simp⟩
    | ok rsc2 =>
      dsimp only
      cases hm : env.marshalErr rsc2 with
      | some err =>
        dsimp only
        exact ⟨_, status, pm, rfl, fun d => by simp⟩
      | none =>
        dsimp only
        exact ⟨_, status, pm, rfl, fun d => Iff.rfl⟩

/-- The step of `subscribeResource` at a resource whose GVK is resolved. -/
theorem subscribeResource_resolved (env : SubscriberEnv) (st : SyncRun) (rsc : Unstructured)
    (g : kubernetes.GroupVersionKind) (r : kubernetes.ResourceMap)
    (hres : (kubernetes.GetValidatedGVK env.tables st.ghsi.synchronizer rsc.Gvk).1 = some g)
    (hr : mapGet (kubernetes.GetValidatedGVK env.tables st.ghsi.synchronizer rsc.Gvk).2.KubeResources
      g = some r) :
    subscribeResource env st rsc =
      .ok (subscribeResolved env
        (st.withSynchronizer (kubernetes.GetValidatedGVK env.tables st.ghsi.synchronizer rsc.Gvk).2)
        rsc g r.Namespaced) := by
  have hr2 : mapGet (st.withSynchronizer
      (kubernetes.GetValidatedGVK env.tables st.ghsi.synchronizer rsc.Gvk).2).ghsi.synchronizer.KubeResources
      g = some r := hr
  unfold subscribeResource
  dsimp only
  rw [hres]
  dsimp only
  rw [hr2]

/-- The method `subscribeResource` returns: the resolver leaves every GVK it resolves among
the keys of `KubeResources`. -/
theorem subscribeResource_total (env : SubscriberEnv) (st : SyncRun) (rsc : Unstructured) :
    ∃ res, subscribeResource env st rsc = .ok res := by
  cases hres : (kubernetes.GetValidatedGVK env.tables st.ghsi.synchronizer rsc.Gvk).1 with
  | none => exact ⟨_, subscribeResource_unresolved env st rsc hres⟩
  | some g =>
    obtain ⟨r, hr⟩ :=
      kubernetes.GetValidatedGVK_some_key env.tables st.ghsi.synchronizer rsc.Gvk g hres
    exact ⟨_, subscribeResource_resolved env st rsc g r hres hr⟩

/-- The frame property of `subscribeResource`. -/
theorem subscribeResource_frame (env : SubscriberEnv)
    (hover : ∀ r sub status, env.OverrideResourceBySubscription r
      { sub with Status := status } = env.OverrideResourceBySubscription r sub)
    (st : SyncRun) (status : List (String × Option GoError)) (pm : List (String × Bool))
    (rsc : Unstructured) :
    ∃ res st1 res1 status1 pm1, subscribeResource env st rsc = .ok (res, st1) ∧
      subscribeResource env (st.withRecords status pm) rsc =
        .ok (res1, st1.withRecords status1 pm1) ∧
      (∀ d, res = .ok d ↔ res1 = .ok d) := by
  cases hres : (kubernetes.GetValidatedGVK env.tables st.ghsi.synchronizer rsc.Gvk).1 with
  | none =>
    rw [subscribeResource_unresolved env st rsc hres,
      subscribeResource_unresolved env (st.withRecords status pm) rsc hres]
    exact ⟨_, _, _, _, _, rfl, rfl, fun d => Iff.rfl⟩
  | some g =>
    obtain ⟨r, hr⟩ :=
      kubernetes.GetValidatedGVK_some_key env.tables st.ghsi.synchronizer rsc.Gvk g hres
    have e1 := subscribeResource_resolved env st rsc g r hres hr
    have e2 : subscribeResource env (st.withRecords status pm) rsc =
        .ok (subscribeResolved env
          ((st.withSynchronizer
            (kubernetes.GetValidatedGVK env.tables st.ghsi.synchronizer rsc.Gvk).2).withRecords
              status pm) rsc g r.Namespaced) :=
      subscribeResource_resolved env (st.withRecords status pm) rsc g r hres hr
    obtain ⟨res1, status1, pm1, hfr, hiff⟩ := subscribeResolved_frame env hover
      (st.withSynchronizer (kubernetes.GetValidatedGVK env.tables st.ghsi.synchronizer rsc.Gvk).2)
      status pm rsc g r.Namespaced
    rw [hfr] at e2
    exact ⟨_, _, res1, status1, pm1, e1, e2, hiff⟩

/-- The method `subscribeResourceFile` returns. -/
theorem subscribeResourceFile_total (env : SubscriberEnv) (hostkey : NamespacedName)
    (syncsource : String) (st : SyncRun) (rsc : Unstructured) :
    ∃ res, subscribeResourceFile env hostkey syncsource st rsc = .ok res := by
  obtain ⟨⟨res, st1⟩, h⟩ := subscribeResource_total env st rsc
  unfold subscribeResourceFile
  rw [h]
  cases res with
  | error e => exact ⟨_, rfl⟩
  | ok d =>
    obtain ⟨dpl, gvk⟩ := d
    dsimp only
    cases env.RegisterTemplate
      (st1.withRecords st1.ghsi.Subscription.Status (mapSet st1.pkgMap dpl.Name true)).templates
      hostkey dpl syncsource with
    | some e => exact ⟨_, rfl⟩
    | none => exact ⟨_, rfl⟩

/-- The frame property of `subscribeResourceFile`: the templates, the validator and the
synchronizer after a step do not depend on the status and the package map before it. -/
theorem subscribeResourceFile_frame (env : SubscriberEnv)
    (hover : ∀ r sub status, env.OverrideResourceBySubscription r
      { sub with Status := status } = env.OverrideResourceBySubscription r sub)
    (hostkey : NamespacedName) (syncsource : String)
    (st : SyncRun) (status : List (String × Option GoError)) (pm : List (String × Bool))
    (rsc : Unstructured) :
    ∃ e st1 e1 status1 pm1, subscribeResourceFile env hostkey syncsource st rsc = .ok (e, st1) ∧
      subscribeResourceFile env hostkey syncsource (st.withRecords status pm) rsc =
        .ok (e1, st1.withRecords status1 pm1) := by
  obtain ⟨res, st1, res1, status1, pm1, h1, h2, hiff⟩ :=
    subscribeResource_frame env hover st status pm rsc
  unfold subscribeResourceFile
  rw [h1, h2]
  cases res with
  | error e =>
    cases res1 with
    | error e1 => exact ⟨_, _, _, _, _, rfl, rfl⟩
    | ok d1 => exact absurd ((hiff d1).2 rfl) (by simp)
  | ok d =>
    have hd := (hiff d).1 rfl
    subst hd
    obtain ⟨dpl, gvk⟩ := d
    dsimp only
    have ht : (st1.withRecords status1 pm1).withRecords
        (st1.withRecords status1 pm1).ghsi.Subscription.Status
        (mapSet (st1.withRecords status1 pm1).pkgMap dpl.Name true) =
        st1.withRecords status1 (mapSet pm1 dpl.Name true) := rfl
    rw [ht]
    have ht2 : (st1.withRecords status1 (mapSet pm1 dpl.Name true)).templates =
        (st1.withRecords st1.ghsi.Subscription.Status (mapSet st1.pkgMap dpl.Name true)).templates := rfl
    rw [ht2]
    cases env.RegisterTemplate
      (st1.withRecords st1.ghsi.Subscription.Status (mapSet st1.pkgMap dpl.Name true)).templates
      hostkey dpl syncsource with
    | some e => exact ⟨_, _, _, _, _, rfl, rfl⟩
    | none => exact ⟨_, _, _, _, _, rfl, rfl⟩

/-- The method `checkFilters` does not read the namespace of the resource. -/
theorem checkFilters_setNamespaceIf (env : SubscriberEnv) (ghsi ghsi2 : SubscriberItem)
    (n : Bool) (rsc : Unstructured) :
    checkFilters env ghsi (setNamespaceIf n ghsi2 rsc) = checkFilters env ghsi rsc := by
  cases n with
  | true => rfl
  | false => rfl

/-- The resolved part of `subscribeResource` writes the status and the package map only. -/
theorem subscribeResolved_state (env : SubscriberEnv) (st1 : SyncRun) (rsc : Unstructured)
    (g : kubernetes.GroupVersionKind) (n : Bool) :
    ∃ status1 pm1, (subscribeResolved env st1 rsc g n).2 = st1.withRecords status1 pm1 := by
  unfold subscribeResolved
  dsimp only
  repeat (first | exact ⟨_, _, rfl⟩ | split)

/-- The resolved part of `subscribeResource` builds the deployable of a resource that
passes the filters, when the override helper and the encoder do not fail. -/
theorem subscribeResolved_ok (env : SubscriberEnv) (st1 : SyncRun) (rsc : Unstructured)
    (g : kubernetes.GroupVersionKind) (n : Bool)
    (hfilt : st1.ghsi.Subscription.PackageFilter.isSome = true →
      checkFilters env st1.ghsi rsc = "")
    (hov : st1.ghsi.Subscription.PackageOverrides.isSome = true →
      ∀ r, ∃ r2, env.OverrideResourceBySubscription r st1.ghsi.Subscription = .ok r2)
    (hm : ∀ r, env.marshalErr r = none) :
    ∃ rsc2, subscribeResolved env st1 rsc g n =
      (.ok (⟨dplName st1.ghsi rsc, dplNamespace st1.ghsi, some (.resource rsc2),
          some (mapSet [] env.AnnotationLocal "true")⟩, g), st1) := by
  unfold subscribeResolved
  dsimp only
  have hf : ¬ ((if st1.ghsi.Subscription.PackageFilter.isSome = true then
      checkFilters env st1.ghsi (setNamespaceIf n st1.ghsi rsc) else "") ≠ "") := by
    by_cases hp : st1.ghsi.Subscription.PackageFilter.isSome = true
    · rw [if_pos hp, checkFilters_setNamespaceIf, hfilt hp]
      simp
    · rw [if_neg hp]
      simp
  rw [if_neg hf]
  by_cases hpo : st1.ghsi.Subscription.PackageOverrides.isSome = true
  · obtain ⟨r2, hr2⟩ := hov hpo (setNamespaceIf n st1.ghsi rsc)
    rw [if_pos hpo, hr2]
    dsimp only
    rw [hm r2]
    exact ⟨r2, rfl⟩
  · rw [if_neg hpo]
    dsimp only
    rw [hm]
    exact ⟨_, rfl⟩

/-- A step of `subscribeResourceFile` keeps the templates accepted so far, the subscription
apart from its status, and the channel. -/
theorem subscribeResourceFile_keeps (env : SubscriberEnv) (hostkey : NamespacedName)
    (syncsource : String) (st st1 : SyncRun) (rsc : Unstructured) (e : Option GoError)
    (h : subscribeResourceFile env hostkey syncsource st rsc = .ok (e, st1)) :
    (∃ added, st1.templates = st.templates ++ added) ∧
      (∀ r, dplName st1.ghsi r = dplName st.ghsi r) ∧
      dplNamespace st1.ghsi = dplNamespace st.ghsi := by
  have hkey : ∃ res s1 status1 pm1 sync1, subscribeResource env st rsc = .ok (res, s1) ∧
      s1 = (st.withSynchronizer sync1).withRecords status1 pm1 := by
    cases hres : (kubernetes.GetValidatedGVK env.tables st.ghsi.synchronizer rsc.Gvk).1 with
    | none =>
      exact ⟨_, _, _, _, st.ghsi.synchronizer, subscribeResource_unresolved env st rsc hres, rfl⟩
    | some g =>
      obtain ⟨r, hr⟩ :=
        kubernetes.GetValidatedGVK_some_key env.tables st.ghsi.synchronizer rsc.Gvk g hres
      obtain ⟨status1, pm1, hs⟩ := subscribeResolved_state env
        (st.withSynchronizer (kubernetes.GetValidatedGVK env.tables st.ghsi.synchronizer rsc.Gvk).2)
        rsc g r.Namespaced
      exact ⟨_, _, status1, pm1, _, subscribeResource_resolved env st rsc g r hres hr, hs⟩
  obtain ⟨res, s1, status1, pm1, sync1, hsr, hs1⟩ := hkey
  unfold subscribeResourceFile at h
  rw [hsr] at h
  subst hs1
  cases res with
  | error err =>
    simp only [Except.ok.injEq, Prod.mk.injEq] at h
    rw [← h.2]
    exact ⟨⟨[], by simp [SyncRun.withRecords, SyncRun.withSynchronizer]⟩, fun _ => rfl, rfl⟩
  | ok d =>
    obtain ⟨dpl, gvk⟩ := d
    dsimp only at h
    split at h
    · simp only [Except.ok.injEq, Prod.mk.injEq] at h
      rw [← h.2]
      exact ⟨⟨[], by simp [SyncRun.withRecords, SyncRun.withSynchronizer, setPackageStatus]⟩,
        fun _ => rfl, rfl⟩
    · simp only [Except.ok.injEq, Prod.mk.injEq] at h
      rw [← h.2]
      exact ⟨⟨_, rfl⟩, fun _ => rfl, rfl⟩

/-- The loop keeps the templates accepted so far, and the names it gives deployables. -/
theorem subscribeParsed_keeps (env : SubscriberEnv) (hostkey : NamespacedName)
    (syncsource : String) (l : List ParsedResource) (st r : SyncRun)
    (h : subscribeParsed env hostkey syncsource l st = .ok r) :
    (∃ added, r.templates = st.templates ++ added) ∧
      (∀ y, dplName r.ghsi y = dplName st.ghsi y) ∧
      dplNamespace r.ghsi = dplNamespace st.ghsi := by
  induction l generalizing st with
  | nil =>
    simp only [subscribeParsed, Except.ok.injEq] at h
    subst h
    exact ⟨⟨[], by simp⟩, fun _ => rfl, rfl⟩
  | cons y l ih =>
    simp only [subscribeParsed] at h
    by_cases hh : y.headerErr = true
    · rw [if_pos hh] at h
      exact ih st h
    · rw [if_neg hh] at h
      obtain ⟨⟨e, st1⟩, hstep⟩ := subscribeResourceFile_total env hostkey syncsource st y.rsc
      rw [hstep] at h
      dsimp only at h
      obtain ⟨⟨a1, ha1⟩, hn1, hns1⟩ :=
        subscribeResourceFile_keeps env hostkey syncsource st st1 y.rsc e hstep
      obtain ⟨⟨a2, ha2⟩, hn2, hns2⟩ := ih st1 h
      refine ⟨⟨a1 ++ a2, by rw [ha2, ha1, List.append_assoc]⟩, fun z => ?_, ?_⟩
      · rw [hn2, hn1]
      · rw [hns2, hns1]

/-- The loop returns. -/
theorem subscribeParsed_total (env : SubscriberEnv) (hostkey : NamespacedName)
    (syncsource : String) (l : List ParsedResource) (st : SyncRun) :
    ∃ r, subscribeParsed env hostkey syncsource l st = .ok r := by
  induction l generalizing st with
  | nil => exact ⟨st, rfl⟩
  | cons y l ih =>
    simp only [subscribeParsed]
    by_cases hh : y.headerErr = true
    · rw [if_pos hh]
      exact ih st
    · rw [if_neg hh]
      obtain ⟨⟨e, st1⟩, hstep⟩ := subscribeResourceFile_total env hostkey syncsource st y.rsc
      rw [hstep]
      exact ih st1

/-- The frame property of the loop: the templates, the validator and the synchronizer at
its end do not depend on the status and the package map at its start. -/
theorem subscribeParsed_frame (env : SubscriberEnv)
    (hover : ∀ r sub status, env.OverrideResourceBySubscription r
      { sub with Status := status } = env.OverrideResourceBySubscription r sub)
    (hostkey : NamespacedName) (syncsource : String) (l : List ParsedResource)
    (st : SyncRun) (status : List (String × Option GoError)) (pm : List (String × Bool)) :
    ∃ r status1 pm1, subscribeParsed env hostkey syncsource l st = .ok r ∧
      subscribeParsed env hostkey syncsource l (st.withRecords status pm) =
        .ok (r.withRecords status1 pm1) := by
  induction l generalizing st status pm with
  | nil => exact ⟨st, status, pm, rfl, rfl⟩
  | cons y l ih =>
    simp only [subscribeParsed]
    by_cases hh : y.headerErr = true
    · rw [if_pos hh, if_pos hh]
      exact ih st status pm
    · rw [if_neg hh, if_neg hh]
      obtain ⟨e, st1, e1, status1, pm1, h1, h2⟩ :=
        subscribeResourceFile_frame env hover hostkey syncsource st status pm y.rsc
      rw [h1, h2]
      exact ih st1 status1 pm1

/-- A resource that resolves and passes the filters is registered by its step, when the
override helper and the encoder do not fail and the synchronizer accepts the template. -/
theorem subscribeResourceFile_registers (env : SubscriberEnv) (hostkey : NamespacedName)
    (syncsource : String) (t : SyncRun) (rsc : Unstructured) (g : kubernetes.GroupVersionKind)
    (hres : (kubernetes.GetValidatedGVK env.tables t.ghsi.synchronizer rsc.Gvk).1 = some g)
    (hfilt : t.ghsi.Subscription.PackageFilter.isSome = true →
      checkFilters env t.ghsi rsc = "")
    (hov : t.ghsi.Subscription.PackageOverrides.isSome = true →
      ∀ r, ∃ r2, env.OverrideResourceBySubscription r t.ghsi.Subscription = .ok r2)
    (hm : ∀ r, env.marshalErr r = none)
    (hreg : ∀ d, env.RegisterTemplate t.templates hostkey d syncsource = none) :
    ∃ dpl t1, subscribeResourceFile env hostkey syncsource t rsc = .ok (none, t1) ∧
      dpl.Name = dplName t.ghsi rsc ∧ dpl.Namespace = dplNamespace t.ghsi ∧
      t1.templates = t.templates ++ [(hostkey, dpl, syncsource)] ∧
      t1.kvalid = t.kvalid ++ [(g, hostkey, ⟨dpl.Namespace, dpl.Name⟩)] := by
  obtain ⟨r, hr⟩ :=
    kubernetes.GetValidatedGVK_some_key env.tables t.ghsi.synchronizer rsc.Gvk g hres
  obtain ⟨rsc2, hok⟩ := subscribeResolved_ok env
    (t.withSynchronizer (kubernetes.GetValidatedGVK env.tables t.ghsi.synchronizer rsc.Gvk).2)
    rsc g r.Namespaced hfilt hov hm
  unfold subscribeResourceFile
  rw [subscribeResource_resolved env t rsc g r hres hr, hok]
  dsimp only
  have hreg2 := hreg ⟨dplName t.ghsi rsc, dplNamespace t.ghsi, some (.resource rsc2),
    some (mapSet [] env.AnnotationLocal "true")⟩
  have hreg3 : env.RegisterTemplate
      ((t.withSynchronizer
        (kubernetes.GetValidatedGVK env.tables t.ghsi.synchronizer rsc.Gvk).2).withRecords
          (t.withSynchronizer
            (kubernetes.GetValidatedGVK env.tables t.ghsi.synchronizer
              rsc.Gvk).2).ghsi.Subscription.Status
          (mapSet (t.withSynchronizer
            (kubernetes.GetValidatedGVK env.tables t.ghsi.synchronizer rsc.Gvk).2).pkgMap
            (dplName (t.withSynchronizer
              (kubernetes.GetValidatedGVK env.tables t.ghsi.synchronizer rsc.Gvk).2).ghsi rsc)
            true)).templates hostkey
      ⟨dplName (t.withSynchronizer
          (kubernetes.GetValidatedGVK env.tables t.ghsi.synchronizer rsc.Gvk).2).ghsi rsc,
        dplNamespace (t.withSynchronizer
          (kubernetes.GetValidatedGVK env.tables t.ghsi.synchronizer rsc.Gvk).2).ghsi,
        some (.resource rsc2), some (mapSet [] env.AnnotationLocal "true")⟩ syncsource = none := hreg2
  rw [hreg3]
  exact ⟨_, _, rfl, rfl, rfl, rfl, rfl⟩

/-- A resource of the list that resolves at its turn and passes the filters has its
deployable among the templates at the end of the loop, when the override helper and the
encoder do not fail and the synchronizer accepts the template. -/
theorem subscribeParsed_registers (env : SubscriberEnv) (hostkey : NamespacedName)
    (syncsource : String) (p1 p2 : List ParsedResource) (y : ParsedResource)
    (st t r : SyncRun) (g : kubernetes.GroupVersionKind)
    (hrun : subscribeParsed env hostkey syncsource (p1 ++ y :: p2) st = .ok r)
    (ht : subscribeParsed env hostkey syncsource p1 st = .ok t)
    (hy : y.headerErr = false)
    (hres : (kubernetes.GetValidatedGVK env.tables t.ghsi.synchronizer y.rsc.Gvk).1 = some g)
    (hfilt : t.ghsi.Subscription.PackageFilter.isSome = true →
      checkFilters env t.ghsi y.rsc = "")
    (hov : t.ghsi.Subscription.PackageOverrides.isSome = true →
      ∀ r, ∃ r2, env.OverrideResourceBySubscription r t.ghsi.Subscription = .ok r2)
    (hm : ∀ r, env.marshalErr r = none)
    (hreg : ∀ d, env.RegisterTemplate t.templates hostkey d syncsource = none) :
    ∃ dpl, dpl.Name = dplName st.ghsi y.rsc ∧ dpl.Namespace = dplNamespace st.ghsi ∧
      (hostkey, dpl, syncsource) ∈ r.templates := by
  obtain ⟨dpl, t1, hstep, hname, hns, htpl, hkv⟩ :=
    subscribeResourceFile_registers env hostkey syncsource t y.rsc g hres hfilt hov hm hreg
  obtain ⟨_, hn, hnsp⟩ := subscribeParsed_keeps env hostkey syncsource p1 st t ht
  rw [subscribeParsed_append, ht] at hrun
  simp only [subscribeParsed] at hrun
  rw [if_neg (by simp [hy]), hstep] at hrun
  dsimp only at hrun
  obtain ⟨⟨added, hadd⟩, _, _⟩ := subscribeParsed_keeps env hostkey syncsource p2 t1 r hrun
  refine ⟨dpl, by rw [hname, hn], by rw [hns, hnsp], ?_⟩
  rw [hadd, htpl]
  simp

/-- The resolved part of `subscribeResource` builds the deployable of a resource that
passes the filters, from what the override returns for it, when the encoder does not fail
on that. -/
theorem subscribeResolved_exact (env : SubscriberEnv) (st1 : SyncRun) (rsc rsc2 : Unstructured)
    (g : kubernetes.GroupVersionKind) (n : Bool)
    (hfilt : st1.ghsi.Subscription.PackageFilter.isSome = true →
      checkFilters env st1.ghsi (setNamespaceIf n st1.ghsi rsc) = "")
    (hov : overrideResource env st1.ghsi (setNamespaceIf n st1.ghsi rsc) = .ok rsc2)
    (hm : env.marshalErr rsc2 = none) :
    subscribeResolved env st1 rsc g n =
      (.ok (⟨dplName st1.ghsi rsc, dplNamespace st1.ghsi, some (.resource rsc2),
          some (mapSet [] env.AnnotationLocal "true")⟩, g), st1) := by
  unfold subscribeResolved
  dsimp only
  have hf : ¬ ((if st1.ghsi.Subscription.PackageFilter.isSome = true then
      checkFilters env st1.ghsi (setNamespaceIf n st1.ghsi rsc) else "") ≠ "") := by
    by_cases hp : st1.ghsi.Subscription.PackageFilter.isSome = true
    · rw [if_pos hp, hfilt hp]
      simp
    · rw [if_neg hp]
      simp
  have hov2 : (if st1.ghsi.Subscription.PackageOverrides.isSome = true then
      env.OverrideResourceBySubscription (setNamespaceIf n st1.ghsi rsc) st1.ghsi.Subscription
      else .ok (setNamespaceIf n st1.ghsi rsc)) = .ok rsc2 := hov
  rw [if_neg hf, hov2]
  dsimp only
  rw [hm]

/-- A resource that resolves and passes the filters is registered by its step, when the
override and the encoder do not fail on it and the synchronizer accepts its template. -/
theorem subscribeResourceFile_registers_exact (env : SubscriberEnv) (hostkey : NamespacedName)
    (syncsource : String) (t : SyncRun) (rsc rsc2 : Unstructured)
    (g : kubernetes.GroupVersionKind) (n : Bool)
    (hres : (kubernetes.GetValidatedGVK env.tables t.ghsi.synchronizer rsc.Gvk).1 = some g)
    (hn : kubernetes.IsResourceNamespaced
      (kubernetes.GetValidatedGVK env.tables t.ghsi.synchronizer rsc.Gvk).2 g = .ok n)
    (hfilt : t.ghsi.Subscription.PackageFilter.isSome = true →
      checkFilters env t.ghsi (setNamespaceIf n t.ghsi rsc) = "")
    (hov : overrideResource env t.ghsi (setNamespaceIf n t.ghsi rsc) = .ok rsc2)
    (hm : env.marshalErr rsc2 = none)
    (hreg : env.RegisterTemplate t.templates hostkey
      ⟨dplName t.ghsi rsc, dplNamespace t.ghsi, some (.resource rsc2),
        some (mapSet [] env.AnnotationLocal "true")⟩ syncsource = none) :
    ∃ t1, subscribeResourceFile env hostkey syncsource t rsc = .ok (none, t1) ∧
      t1.templates = t.templates ++ [(hostkey,
        ⟨dplName t.ghsi rsc, dplNamespace t.ghsi, some (.resource rsc2),
          some (mapSet [] env.AnnotationLocal "true")⟩, syncsource)] ∧
      t1.kvalid = t.kvalid ++
        [(g, hostkey, ⟨dplNamespace t.ghsi, dplName t.ghsi rsc⟩)] := by
  obtain ⟨r, hr, hrn⟩ : ∃ r, mapGet
      (kubernetes.GetValidatedGVK env.tables t.ghsi.synchronizer rsc.Gvk).2.KubeResources g =
        some r ∧ r.Namespaced = n := by
    unfold kubernetes.IsResourceNamespaced at hn
    cases hg : mapGet
        (kubernetes.GetValidatedGVK env.tables t.ghsi.synchronizer rsc.Gvk).2.KubeResources g with
    | none =>
      rw [hg] at hn
      cases hn
    | some r =>
      rw [hg] at hn
      simp only [Except.ok.injEq] at hn
      exact ⟨r, rfl, hn⟩
  subst hrn
  have hok := subscribeResolved_exact env
    (t.withSynchronizer (kubernetes.GetValidatedGVK env.tables t.ghsi.synchronizer rsc.Gvk).2)
    rsc rsc2 g r.Namespaced hfilt hov hm
  unfold subscribeResourceFile
  rw [subscribeResource_resolved env t rsc g r hres hr, hok]
  dsimp only
  have hreg3 : env.RegisterTemplate
      ((t.withSynchronizer
        (kubernetes.GetValidatedGVK env.tables t.ghsi.synchronizer rsc.Gvk).2).withRecords
          (t.withSynchronizer
            (kubernetes.GetValidatedGVK env.tables t.ghsi.synchronizer
              rsc.Gvk).2).ghsi.Subscription.Status
          (mapSet (t.withSynchronizer
            (kubernetes.GetValidatedGVK env.tables t.ghsi.synchronizer rsc.Gvk).2).pkgMap
            (dplName (t.withSynchronizer
              (kubernetes.GetValidatedGVK env.tables t.ghsi.synchronizer rsc.Gvk).2).ghsi rsc)
            true)).templates hostkey
      ⟨dplName (t.withSynchronizer
          (kubernetes.GetValidatedGVK env.tables t.ghsi.synchronizer rsc.Gvk).2).ghsi rsc,
        dplNamespace (t.withSynchronizer
          (kubernetes.GetValidatedGVK env.tables t.ghsi.synchronizer rsc.Gvk).2).ghsi,
        some (.resource rsc2), some (mapSet [] env.AnnotationLocal "true")⟩ syncsource = none := hreg
  rw [hreg3]
  exact ⟨_, rfl, rfl, rfl⟩

/-- A resource of the list that resolves at its turn and passes the filters has its
deployable among the templates at the end of the loop, when the override and the encoder
do not fail on it and the synchronizer accepts its template. -/
theorem subscribeParsed_registers_exact (env : SubscriberEnv) (hostkey : NamespacedName)
    (syncsource : String) (p1 p2 : List ParsedResource) (y : ParsedResource)
    (st t r : SyncRun) (g : kubernetes.GroupVersionKind) (n : Bool) (rsc2 : Unstructured)
    (hrun : subscribeParsed env hostkey syncsource (p1 ++ y :: p2) st = .ok r)
    (ht : subscribeParsed env hostkey syncsource p1 st = .ok t)
    (hy : y.headerErr = false)
    (hres : (kubernetes.GetValidatedGVK env.tables t.ghsi.synchronizer y.rsc.Gvk).1 = some g)
    (hn : kubernetes.IsResourceNamespaced
      (kubernetes.GetValidatedGVK env.tables t.ghsi.synchronizer y.rsc.Gvk).2 g = .ok n)
    (hfilt : t.ghsi.Subscription.PackageFilter.isSome = true →
      checkFilters env t.ghsi (setNamespaceIf n t.ghsi y.rsc) = "")
    (hov : overrideResource env t.ghsi (setNamespaceIf n t.ghsi y.rsc) = .ok rsc2)
    (hm : env.marshalErr rsc2 = none)
    (hreg : env.RegisterTemplate t.templates hostkey
      ⟨dplName t.ghsi y.rsc, dplNamespace t.ghsi, some (.resource rsc2),
        some (mapSet [] env.AnnotationLocal "true")⟩ syncsource = none) :
    (hostkey, ⟨dplName t.ghsi y.rsc, dplNamespace t.ghsi, some (.resource rsc2),
      some (mapSet [] env.AnnotationLocal "true")⟩, syncsource) ∈ r.templates := by
  obtain ⟨t1, hstep, htpl, hkv⟩ :=
    subscribeResourceFile_registers_exact env hostkey syncsource t y.rsc rsc2 g n hres hn hfilt
      hov hm hreg
  rw [subscribeParsed_append, ht] at hrun
  simp only [subscribeParsed] at hrun
  rw [if_neg (by simp [hy]), hstep] at hrun
  dsimp only at hrun
  obtain ⟨⟨added, hadd⟩, _, _⟩ := subscribeParsed_keeps env hostkey syncsource p2 t1 r hrun
  rw [hadd, htpl]
  simp

/-- C17 (as stated, refuted): the files hold a config map, a widget of a kind the
synchronizer does not know, and a deployment, and the synchronizer does not accept the
template of the deployment.  The deployment resolves and passes the filters (the
subscription names no package and has no filter), and it is not registered: the run ends
with the template of the config map alone, and with the errors of the widget and of the
deployment in the status, each under its own package name.  The run ends with the
template of the config map alone as well when the encoder fails on the deployment, and
when the subscription has package overrides and the override helper fails on the
deployment. -/
theorem subscribeResources_unresolved_counterexample :
    (kubernetes.GetValidatedGVK batchRejectEnv.tables batchSynchronizer batchWidget.rsc.Gvk).1 =
      none ∧
    (kubernetes.GetValidatedGVK batchRejectEnv.tables batchSynchronizer
        batchDeployment.rsc.Gvk).1 = some ⟨"apps", "v1", "Deployment"⟩ ∧
    batchItem.Subscription.PackageFilter = none ∧
    checkFilters batchRejectEnv batchItem batchDeployment.rsc = "" ∧
    (∃ r, subscribeResources batchRejectEnv ⟨"ns", "sub"⟩ "subgbk8s-ns/sub" batchFiles batchRun =
        .ok r ∧
      r.templates =
        [(⟨"ns", "sub"⟩, batchDeployable batchConfigMap.rsc, "subgbk8s-ns/sub")] ∧
      r.ghsi.Subscription.Status =
        [("ch-Widget-gadget",
          some (.new "Resource example.com/v1, Kind=Widget is not supported")),
         ("ch-Deployment-web", some (.new "template rejected"))]) ∧
    (∃ r, subscribeResources batchEncodeEnv ⟨"ns", "sub"⟩ "subgbk8s-ns/sub" batchFiles batchRun =
        .ok r ∧
      r.templates =
        [(⟨"ns", "sub"⟩, batchDeployable batchConfigMap.rsc, "subgbk8s-ns/sub")]) ∧
    batchOverrideRun.ghsi.Subscription.PackageFilter = none ∧
    (∃ r, subscribeResources batchOverrideEnv ⟨"ns", "sub"⟩ "subgbk8s-ns/sub" batchFiles
        batchOverrideRun = .ok r ∧
      r.templates =
        [(⟨"ns", "sub"⟩, batchDeployable batchConfigMap.rsc, "subgbk8s-ns/sub")] ∧
      r.ghsi.Subscription.Status =
        [("ch-Widget-gadget",
          some (.new "Resource example.com/v1, Kind=Widget is not supported")),
         ("ch-Deployment-web", some (.new "no override for the package"))]) :=
  ⟨rfl, rfl, rfl, rfl, ⟨_, rfl, rfl, rfl⟩, ⟨_, rfl, rfl⟩, rfl, ⟨_, rfl, rfl, rfl⟩⟩

/-- C17 (amended): in a run of `subscribeResources` over the resources `pre ++ x :: post`
of the readable files, let `x` be a resource whose GVK the resolver does not resolve at
its turn.  Its step returns the "not supported" error and touches nothing but the status,
through one call of the status setter under the name of the deployable of `x`, and the
entry of `pkgMap` under that name: no template is registered, nothing is added to the
validator, the synchronizer is as before.  The run goes on with the resources after `x`
and returns.  Its templates, validator entries and synchronizer are those of the loop
over `pre ++ post`, the list without `x` (given that the override helper does not read
the status).  Every resource `y` of the list that resolves at its turn and passes the
filters has its deployable among the templates at the end, provided that the override of
`y` does not fail, the encoder does not fail on what the override returns, and the
synchronizer accepts the template of `y`. -/
theorem subscribeResources_unresolved_skipped (env : SubscriberEnv) (hostkey : NamespacedName)
    (syncsource : String) (files : List String) (pre post : List ParsedResource)
    (x : ParsedResource) (st s : SyncRun)
    (hfiles : resourcesOf env files = pre ++ x :: post)
    (hpre : subscribeParsed env hostkey syncsource pre st = .ok s)
    (hx : x.headerErr = false)
    (hunres : (kubernetes.GetValidatedGVK env.tables s.ghsi.synchronizer x.rsc.Gvk).1 = none) :
    ∃ s1 r,
      subscribeResourceFile env hostkey syncsource s x.rsc =
        .ok (some (notSupported x.rsc.Gvk), s1) ∧
      s1 = s.withRecords
        (env.SetInClusterPackageStatus s.ghsi.Subscription.Status (dplName s.ghsi x.rsc)
          (notSupported x.rsc.Gvk)).1
        (mapSet s.pkgMap (dplName s.ghsi x.rsc) true) ∧
      s1.templates = s.templates ∧ s1.kvalid = s.kvalid ∧
      s1.ghsi.synchronizer = s.ghsi.synchronizer ∧
      subscribeResources env hostkey syncsource files st =
        subscribeParsed env hostkey syncsource post s1 ∧
      subscribeResources env hostkey syncsource files st = .ok r ∧
      ((∀ rsc sub status, env.OverrideResourceBySubscription rsc { sub with Status := status } =
          env.OverrideResourceBySubscription rsc sub) →
        ∃ r0, subscribeParsed env hostkey syncsource (pre ++ post) st = .ok r0 ∧
          r.templates = r0.templates ∧ r.kvalid = r0.kvalid ∧
          r.ghsi.synchronizer = r0.ghsi.synchronizer) ∧
      (∀ p1 y p2 t g n rsc2, pre ++ x :: post = p1 ++ y :: p2 → y.headerErr = false →
        subscribeParsed env hostkey syncsource p1 st = .ok t →
        (kubernetes.GetValidatedGVK env.tables t.ghsi.synchronizer y.rsc.Gvk).1 = some g →
        kubernetes.IsResourceNamespaced
          (kubernetes.GetValidatedGVK env.tables t.ghsi.synchronizer y.rsc.Gvk).2 g = .ok n →
        (t.ghsi.Subscription.PackageFilter.isSome = true →
          checkFilters env t.ghsi (setNamespaceIf n t.ghsi y.rsc) = "") →
        overrideResource env t.ghsi (setNamespaceIf n t.ghsi y.rsc) = .ok rsc2 →
        env.marshalErr rsc2 = none →
        env.RegisterTemplate t.templates hostkey
          ⟨dplName t.ghsi y.rsc, dplNamespace t.ghsi, some (.resource rsc2),
            some (mapSet [] env.AnnotationLocal "true")⟩ syncsource = none →
        (hostkey, ⟨dplName t.ghsi y.rsc, dplNamespace t.ghsi, some (.resource rsc2),
          some (mapSet [] env.AnnotationLocal "true")⟩, syncsource) ∈ r.templates) := by
  have hstep := subscribeResourceFile_unresolved env hostkey syncsource s x.rsc hunres
  have hcont : subscribeResources env hostkey syncsource files st =
      subscribeParsed env hostkey syncsource post
        (s.withRecords
          (env.SetInClusterPackageStatus s.ghsi.Subscription.Status (dplName s.ghsi x.rsc)
            (notSupported x.rsc.Gvk)).1
          (mapSet s.pkgMap (dplName s.ghsi x.rsc) true)) := by
    rw [subscribeResources_eq, hfiles, subscribeParsed_append, hpre]
    simp only [subscribeParsed]
    rw [if_neg (by simp [hx]), hstep]
  obtain ⟨r, hr⟩ := subscribeParsed_total env hostkey syncsource post
    (s.withRecords
      (env.SetInClusterPackageStatus s.ghsi.Subscription.Status (dplName s.ghsi x.rsc)
        (notSupported x.rsc.Gvk)).1
      (mapSet s.pkgMap (dplName s.ghsi x.rsc) true))
  refine ⟨_, r, hstep, rfl, rfl, rfl, rfl, hcont, hcont.trans hr, ?_, ?_⟩
  · intro hover
    obtain ⟨r0, status1, pm1, h0, h1⟩ := subscribeParsed_frame env hover hostkey syncsource post s
      (env.SetInClusterPackageStatus s.ghsi.Subscription.Status (dplName s.ghsi x.rsc)
        (notSupported x.rsc.Gvk)).1
      (mapSet s.pkgMap (dplName s.ghsi x.rsc) true)
    rw [h1] at hr
    simp only [Except.ok.injEq] at hr
    subst hr
    refine ⟨r0, ?_, rfl, rfl, rfl⟩
    rw [subscribeParsed_append, hpre]
    exact h0
  · intro p1 y p2 t g n rsc2 hsplit hy ht hres hn hfilt hov hm hreg
    have hrun : subscribeParsed env hostkey syncsource (p1 ++ y :: p2) st = .ok r := by
      rw [← hsplit, ← hfiles, ← subscribeResources_eq]
      exact hcont.trans hr
    exact subscribeParsed_registers_exact env hostkey syncsource p1 p2 y st t r g n rsc2 hrun ht
      hy hres hn hfilt hov hm hreg

/-- C17 (amended), the scenario: the files hold a config map, a widget of a kind the
synchronizer does not know, and a deployment.  The widget is reported under its own
package name `ch-Widget-gadget`, and the run ends with the templates of the config map
and of the deployment. -/
theorem subscribeResources_unresolved_skipped_witness :
    (∃ r, subscribeResources batchEnv ⟨"ns", "sub"⟩ "subgbk8s-ns/sub" batchFiles batchRun = .ok r ∧
      r.templates =
        [(⟨"ns", "sub"⟩, batchDeployable batchConfigMap.rsc, "subgbk8s-ns/sub"),
         (⟨"ns", "sub"⟩, batchDeployable batchDeployment.rsc, "subgbk8s-ns/sub")] ∧
      r.ghsi.Subscription.Status =
        [("ch-Widget-gadget",
          some (.new "Resource example.com/v1, Kind=Widget is not supported"))]) ∧
    ∃ s1 r,
      subscribeResourceFile batchEnv ⟨"ns", "sub"⟩ "subgbk8s-ns/sub" batchAfterConfigMap
          batchWidget.rsc =
        .ok (some (notSupported batchWidget.rsc.Gvk), s1) ∧
      s1 = batchAfterConfigMap.withRecords
        (batchEnv.SetInClusterPackageStatus batchAfterConfigMap.ghsi.Subscription.Status
          (dplName batchAfterConfigMap.ghsi batchWidget.rsc)
          (notSupported batchWidget.rsc.Gvk)).1
        (mapSet batchAfterConfigMap.pkgMap (dplName batchAfterConfigMap.ghsi batchWidget.rsc)
          true) ∧
      s1.templates = batchAfterConfigMap.templates ∧ s1.kvalid = batchAfterConfigMap.kvalid ∧
      s1.ghsi.synchronizer = batchAfterConfigMap.ghsi.synchronizer ∧
      subscribeResources batchEnv ⟨"ns", "sub"⟩ "subgbk8s-ns/sub" batchFiles batchRun =
        subscribeParsed batchEnv ⟨"ns", "sub"⟩ "subgbk8s-ns/sub" [batchDeployment] s1 ∧
      subscribeResources batchEnv ⟨"ns", "sub"⟩ "subgbk8s-ns/sub" batchFiles batchRun = .ok r ∧
      ((∀ rsc sub status,
          batchEnv.OverrideResourceBySubscription rsc { sub with Status := status } =
            batchEnv.OverrideResourceBySubscription rsc sub) →
        ∃ r0, subscribeParsed batchEnv ⟨"ns", "sub"⟩ "subgbk8s-ns/sub"
            ([batchConfigMap] ++ [batchDeployment]) batchRun = .ok r0 ∧
          r.templates = r0.templates ∧ r.kvalid = r0.kvalid ∧
          r.ghsi.synchronizer = r0.ghsi.synchronizer) ∧
      (∀ p1 y p2 t g n rsc2,
        [batchConfigMap] ++ batchWidget :: [batchDeployment] = p1 ++ y :: p2 →
        y.headerErr = false →
        subscribeParsed batchEnv ⟨"ns", "sub"⟩ "subgbk8s-ns/sub" p1 batchRun = .ok t →
        (kubernetes.GetValidatedGVK batchEnv.tables t.ghsi.synchronizer y.rsc.Gvk).1 = some g →
        kubernetes.IsResourceNamespaced
          (kubernetes.GetValidatedGVK batchEnv.tables t.ghsi.synchronizer y.rsc.Gvk).2 g =
            .ok n →
        (t.ghsi.Subscription.PackageFilter.isSome = true →
          checkFilters batchEnv t.ghsi (setNamespaceIf n t.ghsi y.rsc) = "") →
        overrideResource batchEnv t.ghsi (setNamespaceIf n t.ghsi y.rsc) = .ok rsc2 →
        batchEnv.marshalErr rsc2 = none →
        batchEnv.RegisterTemplate t.templates ⟨"ns", "sub"⟩
          ⟨dplName t.ghsi y.rsc, dplNamespace t.ghsi, some (.resource rsc2),
            some (mapSet [] batchEnv.AnnotationLocal "true")⟩ "subgbk8s-ns/sub" = none →
        ((⟨"ns", "sub"⟩ : NamespacedName),
          (⟨dplName t.ghsi y.rsc, dplNamespace t.ghsi, some (.resource rsc2),
            some (mapSet [] batchEnv.AnnotationLocal "true")⟩ : Deployable),
          "subgbk8s-ns/sub") ∈ r.templates) :=
  ⟨⟨_, rfl, rfl, rfl⟩,
    subscribeResources_unresolved_skipped batchEnv ⟨"ns", "sub"⟩ "subgbk8s-ns/sub" batchFiles
      [batchConfigMap] [batchDeployment] batchWidget batchRun batchAfterConfigMap
      rfl rfl rfl rfl⟩

end github


/-! ## The commit annotation, the branch name and the filters -/

namespace mcmhub

/-- C29: `genBranchString` never returns the empty string.  It returns the value of the
git-branch annotation when that is not empty (whatever the github-branch annotation
holds), else the value of the github-branch annotation when that is not empty, else
`master`. -/
theorem genBranchString_never_empty (subIns : Subscription) :
    genBranchString subIns ≠ "" ∧
    (annoGet subIns.Annotations AnnotationGitBranch ≠ "" →
      genBranchString subIns = annoGet subIns.Annotations AnnotationGitBranch) ∧
    (annoGet subIns.Annotations AnnotationGitBranch = "" →
      annoGet subIns.Annotations AnnotationGithubBranch ≠ "" →
      genBranchString subIns = annoGet subIns.Annotations AnnotationGithubBranch) ∧
    (annoGet subIns.Annotations AnnotationGitBranch = "" →
      annoGet subIns.Annotations AnnotationGithubBranch = "" →
      genBranchString subIns = "master") := by
  unfold genBranchString
  dsimp only
  by_cases hgit : annoGet subIns.Annotations AnnotationGitBranch = ""
  · by_cases hgh : annoGet subIns.Annotations AnnotationGithubBranch = ""
    · simp [hgit, hgh]
    · simp [hgit, hgh]
  · by_cases hgh : annoGet subIns.Annotations AnnotationGithubBranch = ""
    · simp [hgit, hgh]
    · simp [hgit, hgh]

/-- C26: when the lookup of the record fails with an error that is not a not-found
error, `updateCommitAnnotation` returns nil and leaves the cluster, its history of
`Update` calls included, as it was; when the lookup fails with a not-found error it
returns that error and again leaves the cluster as it was; and whenever the function
returns after the history of `Update` calls has changed, the lookup succeeded and
exactly one call was added, for the record that was looked up. -/
theorem updateCommitAnnotation_lookup_failure (clt : Client) (subKey : NamespacedName)
    (newCommit : String) :
    (∀ err, clt.Get subKey = .error err → IsNotFound err = false →
      updateCommitAnnotation clt subKey newCommit = .ok (none, clt)) ∧
    (∀ err, clt.Get subKey = .error err → IsNotFound err = true →
      updateCommitAnnotation clt subKey newCommit = .ok (some err, clt)) ∧
    (∀ res clt1, updateCommitAnnotation clt subKey newCommit = .ok (res, clt1) →
      clt1.updateCalls ≠ clt.updateCalls →
      ∃ subIns obj, clt.Get subKey = .ok subIns ∧ obj.Namespace = subIns.Namespace ∧
        obj.Name = subIns.Name ∧ clt1.updateCalls = clt.updateCalls ++ [obj]) := by
  refine ⟨?_, ?_, ?_⟩
  · intro err hget hnf
    unfold updateCommitAnnotation
    rw [hget]
    simp [hnf]
  · intro err hget hnf
    unfold updateCommitAnnotation
    rw [hget]
    simp [hnf]
  · intro res clt1 hrun hchg
    unfold updateCommitAnnotation at hrun
    cases hget : clt.Get subKey with
    | error e =>
      rw [hget] at hrun
      dsimp only at hrun
      by_cases hnf : IsNotFound e = true
      · simp [hnf] at hrun
        exact absurd (by rw [← hrun.2]) hchg
      · simp [hnf] at hrun
        exact absurd (by rw [← hrun.2]) hchg
    | ok subIns =>
      rw [hget] at hrun
      dsimp only at hrun
      cases han : subIns.Annotations with
      | none =>
        rw [han] at hrun
        cases hrun
      | some anno =>
        rw [han] at hrun
        simp only [Except.ok.injEq] at hrun
        refine ⟨subIns, { subIns with
          Annotations := some (mapSet anno AnnotationGitCommit newCommit) }, rfl, rfl, rfl, ?_⟩
        have h2 : clt1 = (clt.Update { subIns with
            Annotations := some (mapSet anno AnnotationGitCommit newCommit) }).2 := by
          rw [hrun]
        rw [h2]
        unfold Client.Update
        dsimp only
        split
        · rfl
        · split <;> rfl

/-- C24 (the code departs from the claim): the record `ns/other` exists in the cluster and
has no annotations, so the annotation map of the fetched object is nil.
`updateCommitAnnotation` writes the commit id into that map and panics; no update is
issued.  The sibling `setCommitID` allocates a map first and writes the same record. -/
theorem updateCommitAnnotation_nil_annotations_panics :
    (⟨[(⟨"ns", "other"⟩, scenarioOtherSub)], [], [], []⟩ : Client).Get ⟨"ns", "other"⟩ =
      .ok scenarioOtherSub ∧
    scenarioOtherSub.Annotations = none ∧
    updateCommitAnnotation ⟨[(⟨"ns", "other"⟩, scenarioOtherSub)], [], [], []⟩
      ⟨"ns", "other"⟩ "abc123" = .error Panic.nilMapAssign ∧
    (setCommitID scenarioOtherSub "abc123").Annotations =
      some [(AnnotationGitCommit, "abc123")] := by
  refine ⟨rfl, rfl, rfl, by decide⟩

end mcmhub

namespace github

/-- C28: `checkFilters` returns the empty string exactly when the package name of the
subscription is empty or is the name of the resource, and the subscription has no
package filter or the label check passes and every key/value pair of the annotations of
the filter is matched by the annotation of the resource under that key, read as the
empty string when the resource has none; in every other case the message is not empty.
A resource without annotations passes a filter whose only annotation has the empty
value. -/
theorem checkFilters_empty_iff (env : SubscriberEnv) (ghsi : SubscriberItem)
    (rsc : Unstructured) :
    (checkFilters env ghsi rsc = "" ↔
      (ghsi.Subscription.Package = "" ∨ ghsi.Subscription.Package = rsc.Name) ∧
      (ghsi.Subscription.PackageFilter = none ∨
        ∃ pf, ghsi.Subscription.PackageFilter = some pf ∧
          env.LabelChecker pf.LabelSelector rsc.Labels = true ∧
          ∀ annotations, pf.Annotations = some annotations →
            ∀ kv ∈ annotations, annoGet rsc.Annotations kv.1 = kv.2)) ∧
    (∀ pf key, ghsi.Subscription.PackageFilter = some pf →
      (ghsi.Subscription.Package = "" ∨ ghsi.Subscription.Package = rsc.Name) →
      env.LabelChecker pf.LabelSelector rsc.Labels = true →
      pf.Annotations = some [(key, "")] → rsc.Annotations = none →
      checkFilters env ghsi rsc = "") := by
  have hmsg : ∀ (a b : String), a.length > 0 → a ++ b ≠ "" := by
    intro a b ha h
    have := congrArg String.length h
    simp at this
    omega
  have hiff : checkFilters env ghsi rsc = "" ↔
      (ghsi.Subscription.Package = "" ∨ ghsi.Subscription.Package = rsc.Name) ∧
      (ghsi.Subscription.PackageFilter = none ∨
        ∃ pf, ghsi.Subscription.PackageFilter = some pf ∧
          env.LabelChecker pf.LabelSelector rsc.Labels = true ∧
          ∀ annotations, pf.Annotations = some annotations →
            ∀ kv ∈ annotations, annoGet rsc.Annotations kv.1 = kv.2) := by
    unfold checkFilters
    by_cases hname : ghsi.Subscription.Package ≠ "" ∧ ghsi.Subscription.Package ≠ rsc.Name
    · rw [if_pos hname]
      constructor
      · intro h
        exact absurd h (by
          rw [String.append_assoc, String.append_assoc]
          exact hmsg _ _ (by decide))
      · rintro ⟨hp | hp, _⟩
        · exact absurd hp hname.1
        · exact absurd hp hname.2
    · rw [if_neg hname]
      have hpkg : ghsi.Subscription.Package = "" ∨ ghsi.Subscription.Package = rsc.Name := by
        by_contra hcon
        push_neg at hcon
        exact hname hcon
      cases hpf : ghsi.Subscription.PackageFilter with
      | none => simp [hpkg]
      | some pf =>
        dsimp only
        by_cases hl : env.LabelChecker pf.LabelSelector rsc.Labels = true
        · rw [if_pos hl]
          cases hpa : pf.Annotations with
          | none => simp [hpkg, hl, hpa]
          | some annotations =>
            dsimp only
            split
            · rename_i hbad
              have hfalse : (annotations.all fun kv =>
                  annoGet rsc.Annotations kv.1 == kv.2) = false := by
                cases hra : rsc.Annotations with
                | none =>
                  rw [hra] at hbad
                  simpa [annoGet, mapGet] using hbad
                | some m =>
                  rw [hra] at hbad
                  simpa using hbad
              constructor
              · intro h
                exact absurd h (hmsg _ _ (by decide))
              · rintro ⟨_, hno | ⟨pf2, hpf2, _, hall2⟩⟩
                · cases hno
                · exfalso
                  have hpfeq : pf2 = pf := (Option.some.inj hpf2).symm
                  subst hpfeq
                  have htrue : (annotations.all fun kv =>
                      annoGet rsc.Annotations kv.1 == kv.2) = true := by
                    apply List.all_eq_true.2
                    intro kv hkv
                    rw [hall2 annotations hpa kv hkv]
                    exact beq_self_eq_true _
                  rw [htrue] at hfalse
                  cases hfalse
            · rename_i hgood
              have htrue : (annotations.all fun kv =>
                  annoGet rsc.Annotations kv.1 == kv.2) = true := by
                cases hra : rsc.Annotations with
                | none =>
                  rw [hra] at hgood
                  simpa [annoGet, mapGet] using hgood
                | some m =>
                  rw [hra] at hgood
                  simpa using hgood
              have hall2 : ∀ kv ∈ annotations, annoGet rsc.Annotations kv.1 = kv.2 := by
                intro kv hkv
                exact eq_of_beq (List.all_eq_true.1 htrue kv hkv)
              simp only [true_iff]
              exact ⟨hpkg, Or.inr ⟨pf, rfl, hl, fun a ha => by
                rw [hpa] at ha
                cases ha
                exact hall2⟩⟩
        · rw [if_neg hl]
          constructor
          · intro h
            exact absurd h (hmsg _ _ (by decide))
          · rintro ⟨_, hno | ⟨pf2, hpf2, hl2, _⟩⟩
            · cases hno
            · have hpfeq : pf2 = pf := (Option.some.inj hpf2).symm
              subst hpfeq
              exact absurd hl2 hl
  refine ⟨hiff, ?_⟩
  intro pf key hpf hpkg hl hpa hra
  apply hiff.2
  refine ⟨hpkg, Or.inr ⟨pf, hpf, hl, ?_⟩⟩
  intro annotations ha kv hkv
  rw [hpa] at ha
  cases ha
  simp only [List.mem_singleton] at hkv
  subst hkv
  rw [hra]
  rfl

end github


/-! ## The comparison of helm releases -/

namespace github

/-- The comparison returns `true` exactly in the case described: both specs are encoded,
to the same string, and every field read is there and agrees. -/
theorem compareHelmRelease_true
    (jsonMarshal : Option (List (String × String)) → Except GoError String)
    (a b : HelmRelease) :
    compareHelmRelease jsonMarshal a b = .ok true ↔
      ∃ spec type url, jsonMarshal a.Spec = .ok spec ∧ jsonMarshal b.Spec = .ok spec ∧
        sourceType a.Repo.Source = .ok type ∧ sourceType b.Repo.Source = .ok type ∧
        firstUrl a.Repo.Source = .ok url ∧ firstUrl b.Repo.Source = .ok url ∧
        a.Repo.ConfigMapRef = b.Repo.ConfigMapRef ∧ a.Repo.SecretRef = b.Repo.SecretRef ∧
        a.Repo.ChartName = b.Repo.ChartName ∧ a.Repo.Version = b.Repo.Version := by
  unfold compareHelmRelease
  dsimp only
  cases hma : jsonMarshal a.Spec with
  | error e => simp
  | ok sa =>
    cases hmb : jsonMarshal b.Spec with
    | error e => simp
    | ok sb =>
      dsimp only
      by_cases hs : sa = sb
      · subst hs
        rw [if_neg (by simp)]
        cases hta : sourceType a.Repo.Source with
        | error p => simp
        | ok ta =>
          cases htb : sourceType b.Repo.Source with
          | error p => simp
          | ok tb =>
            dsimp only
            by_cases ht : ta = tb
            · subst ht
              rw [if_neg (by simp)]
              cases hua : firstUrl a.Repo.Source with
              | error p => simp
              | ok ua =>
                cases hub : firstUrl b.Repo.Source with
                | error p => simp
                | ok ub =>
                  dsimp only
                  by_cases hu : ua = ub
                  · subst hu
                    rw [if_neg (by simp)]
                    simp [and_assoc]
                  · rw [if_pos hu]
                    simp only [Except.ok.injEq, Bool.false_eq_true, false_iff]
                    rintro ⟨spec, type, url, _, _, _, _, h1, h2, _⟩
                    exact hu (h1.trans h2.symm)
            · rw [if_pos ht]
              simp only [Except.ok.injEq, Bool.false_eq_true, false_iff]
              rintro ⟨spec, type, url, _, _, h1, h2, _⟩
              exact ht (h1.trans h2.symm)
      · rw [if_pos hs]
        simp only [Except.ok.injEq, Bool.false_eq_true, false_iff]
        rintro ⟨spec, type, url, h1, h2, _⟩
        exact hs (h1.trans h2.symm)

/-- The comparison gives the same answer with its arguments exchanged, whenever it
returns. -/
theorem compareHelmRelease_symm
    (jsonMarshal : Option (List (String × String)) → Except GoError String)
    (a b : HelmRelease) (v : Bool) (h : compareHelmRelease jsonMarshal a b = .ok v) :
    compareHelmRelease jsonMarshal b a = .ok v := by
  cases v with
  | true =>
    obtain ⟨spec, type, url, h1, h2, h3, h4, h5, h6, h7, h8, h9, h10⟩ :=
      (compareHelmRelease_true jsonMarshal a b).1 h
    exact (compareHelmRelease_true jsonMarshal b a).2
      ⟨spec, type, url, h2, h1, h4, h3, h6, h5, h7.symm, h8.symm, h9.symm, h10.symm⟩
  | false =>
    unfold compareHelmRelease at h ⊢
    dsimp only at h ⊢
    cases hma : jsonMarshal a.Spec with
    | error e =>
      cases hmb : jsonMarshal b.Spec with
      | error e2 => rfl
      | ok sb => rfl
    | ok sa =>
      rw [hma] at h
      cases hmb : jsonMarshal b.Spec with
      | error e => rfl
      | ok sb =>
        rw [hmb] at h
        dsimp only at h ⊢
        by_cases hs : sa = sb
        · subst hs
          rw [if_neg (by simp)] at h ⊢
          cases hta : sourceType a.Repo.Source with
          | error p => rw [hta] at h; cases h
          | ok ta =>
            rw [hta] at h
            cases htb : sourceType b.Repo.Source with
            | error p => rw [htb] at h; cases h
            | ok tb =>
              rw [htb] at h
              dsimp only at h ⊢
              by_cases ht : ta = tb
              · subst ht
                rw [if_neg (by simp)] at h ⊢
                cases hua : firstUrl a.Repo.Source with
                | error p => rw [hua] at h; cases h
                | ok ua =>
                  rw [hua] at h
                  cases hub : firstUrl b.Repo.Source with
                  | error p => rw [hub] at h; cases h
                  | ok ub =>
                    rw [hub] at h
                    dsimp only at h ⊢
                    by_cases hu : ua = ub
                    · subst hu
                      rw [if_neg (by simp)] at h ⊢
                      simp only [Except.ok.injEq] at h ⊢
                      rw [← h]
                      simp only [eq_comm]
                    · rw [if_pos (fun hh => hu hh.symm)]
              · rw [if_pos (fun hh => ht hh.symm)]
        · rw [if_pos (fun hh => hs hh.symm)]

/-- C21 (as stated, refuted): the release `repoRelease` has a source with a helm
repository source and a first URL, so the comparison of the release with itself reads
nothing that is absent; its spec holds a value the encoder fails on.
`compareHelmRelease` returns `false` on the release and itself: it is not reflexive on a
release whose spec cannot be encoded. -/
theorem compareHelmRelease_not_reflexive_counterexample :
    nanMarshal repoRelease.Spec = .error (.new "json: unsupported value: NaN") ∧
    sourceType repoRelease.Repo.Source = .ok "helmrepo" ∧
    firstUrl repoRelease.Repo.Source = .ok "https://charts.example.com/stable" ∧
    compareHelmRelease nanMarshal repoRelease repoRelease = .ok false :=
  ⟨rfl, rfl, rfl, rfl⟩

/-- C21 (amended): `compareHelmRelease existing new` returns `true` exactly when the two
specs are encoded to the same JSON string and the two releases agree on the source type,
on the first URL of the helm repository source, on the config-map reference, on the
secret reference (the two references are pointers, compared with `==`), on the chart
name and on the chart version.  It returns `false` when a spec cannot be encoded, when
the encodings differ (whatever the repos hold), when the source types differ (whatever
the sources hold beyond them), and in general whenever it returns and one of the
compared items differs.  Whenever it returns, it returns the same with its arguments
exchanged; and on one release whose spec can be encoded it returns `true` whenever it
returns, which it does when the release has a source with a helm repository source and
a first URL. -/
theorem compareHelmRelease_iff
    (jsonMarshal : Option (List (String × String)) → Except GoError String)
    (a b : HelmRelease) :
    (compareHelmRelease jsonMarshal a b = .ok true ↔
      ∃ spec type url, jsonMarshal a.Spec = .ok spec ∧ jsonMarshal b.Spec = .ok spec ∧
        sourceType a.Repo.Source = .ok type ∧ sourceType b.Repo.Source = .ok type ∧
        firstUrl a.Repo.Source = .ok url ∧ firstUrl b.Repo.Source = .ok url ∧
        a.Repo.ConfigMapRef = b.Repo.ConfigMapRef ∧ a.Repo.SecretRef = b.Repo.SecretRef ∧
        a.Repo.ChartName = b.Repo.ChartName ∧ a.Repo.Version = b.Repo.Version) ∧
    (∀ e, jsonMarshal a.Spec = .error e → compareHelmRelease jsonMarshal a b = .ok false) ∧
    (∀ e, jsonMarshal b.Spec = .error e → compareHelmRelease jsonMarshal a b = .ok false) ∧
    (∀ sa sb, jsonMarshal a.Spec = .ok sa → jsonMarshal b.Spec = .ok sb → sa ≠ sb →
      compareHelmRelease jsonMarshal a b = .ok false) ∧
    (∀ spec ta tb, jsonMarshal a.Spec = .ok spec → jsonMarshal b.Spec = .ok spec →
      sourceType a.Repo.Source = .ok ta → sourceType b.Repo.Source = .ok tb → ta ≠ tb →
      compareHelmRelease jsonMarshal a b = .ok false) ∧
    (∀ v, compareHelmRelease jsonMarshal a b = .ok v →
      (v = false ↔
        ¬ ∃ spec type url, jsonMarshal a.Spec = .ok spec ∧ jsonMarshal b.Spec = .ok spec ∧
          sourceType a.Repo.Source = .ok type ∧ sourceType b.Repo.Source = .ok type ∧
          firstUrl a.Repo.Source = .ok url ∧ firstUrl b.Repo.Source = .ok url ∧
          a.Repo.ConfigMapRef = b.Repo.ConfigMapRef ∧ a.Repo.SecretRef = b.Repo.SecretRef ∧
          a.Repo.ChartName = b.Repo.ChartName ∧ a.Repo.Version = b.Repo.Version)) ∧
    (∀ v, compareHelmRelease jsonMarshal a b = .ok v →
      compareHelmRelease jsonMarshal b a = .ok v) ∧
    (∀ v spec, jsonMarshal a.Spec = .ok spec → compareHelmRelease jsonMarshal a a = .ok v →
      v = true) ∧
    (∀ spec type url, jsonMarshal a.Spec = .ok spec → sourceType a.Repo.Source = .ok type →
      firstUrl a.Repo.Source = .ok url → compareHelmRelease jsonMarshal a a = .ok true) := by
  have hrefl : ∀ spec type url, jsonMarshal a.Spec = .ok spec →
      sourceType a.Repo.Source = .ok type → firstUrl a.Repo.Source = .ok url →
      compareHelmRelease jsonMarshal a a = .ok true := by
    intro spec type url h1 h2 h3
    exact (compareHelmRelease_true jsonMarshal a a).2
      ⟨spec, type, url, h1, h1, h2, h2, h3, h3, rfl, rfl, rfl, rfl⟩
  refine ⟨compareHelmRelease_true jsonMarshal a b, ?_, ?_, ?_, ?_, ?_,
    compareHelmRelease_symm jsonMarshal a b, ?_, hrefl⟩
  · intro e he
    unfold compareHelmRelease
    dsimp only
    rw [he]
  · intro e he
    unfold compareHelmRelease
    dsimp only
    rw [he]
    cases jsonMarshal a.Spec <;> rfl
  · intro sa sb ha hb hne
    unfold compareHelmRelease
    dsimp only
    rw [ha, hb]
    dsimp only
    rw [if_pos hne]
  · intro spec ta tb ha hb hta htb hne
    unfold compareHelmRelease
    dsimp only
    rw [ha, hb]
    dsimp only
    rw [if_neg (by simp), hta, htb]
    dsimp only
    rw [if_pos hne]
  · intro v hv
    rw [← compareHelmRelease_true jsonMarshal a b, hv]
    cases v <;> simp
  · intro v spec hspec hv
    unfold compareHelmRelease at hv
    dsimp only at hv
    rw [hspec] at hv
    dsimp only at hv
    rw [if_neg (by simp)] at hv
    cases hta : sourceType a.Repo.Source with
    | error p => rw [hta] at hv; cases hv
    | ok ta =>
      rw [hta] at hv
      dsimp only at hv
      rw [if_neg (by simp)] at hv
      cases hua : firstUrl a.Repo.Source with
      | error p => rw [hua] at hv; cases hv
      | ok ua =>
        have := hrefl spec ta ua hspec hta hua
        unfold compareHelmRelease at this
        dsimp only at this
        rw [hspec] at this
        dsimp only at this
        rw [if_neg (by simp), hta] at this
        dsimp only at this
        rw [if_neg (by simp)] at this
        rw [this] at hv
        exact (Except.ok.inj hv).symm

/-- C25 (the code departs from the claim): the release of the chart `nginx` has the repo
`subscribeHelmCharts` builds, a source of GitHub type without a helm repository source.
Compared with itself, as happens when the cluster holds the release of an earlier poll
and the chart has not changed, `compareHelmRelease` finds the specs and the source types
equal, reads `Source.HelmRepo.Urls[0]` through the nil `HelmRepo` and panics; the poll
`doSubscription` of a new commit ends in that panic.  The same holds of every pair of
releases with equal encoded specs and equal source types of which the first has no helm
repository source. -/
theorem compareHelmRelease_github_source_panics :
    releaseRepo (pollEnv []) (pollItem "9f8e7d") "nginx" [⟨"1.0.0", ["charts/nginx"]⟩] =
      .ok pollRelease.Repo ∧
    (pollRelease.Repo.Source.map fun src => (src.SourceType, src.HelmRepo)) =
      some ("github", none) ∧
    compareHelmRelease (pollEnv []).jsonMarshal pollRelease pollRelease =
      .error Panic.nilDeref ∧
    (∃ ghsi1, cloneGitRepo (pollEnv [(⟨"ns", "nginx-0f3a9"⟩, pollRelease)]) (pollItem "9f8e7d") =
      .ok (("abc123", none), ghsi1)) ∧
    doSubscription batchEnv (pollEnv [(⟨"ns", "nginx-0f3a9"⟩, pollRelease)])
      (pollState "9f8e7d") = .error Panic.nilDeref ∧
    (∀ (jsonMarshal : Option (List (String × String)) → Except GoError String)
      (a b : HelmRelease) (spec : String) (sa sb : Source),
      jsonMarshal a.Spec = .ok spec → jsonMarshal b.Spec = .ok spec →
      a.Repo.Source = some sa → b.Repo.Source = some sb → sa.SourceType = sb.SourceType →
      sa.HelmRepo = none → compareHelmRelease jsonMarshal a b = .error Panic.nilDeref) := by
  refine ⟨rfl, rfl, rfl, ⟨_, rfl⟩, rfl, ?_⟩
  intro jsonMarshal a b spec sa sb ha hb hsa hsb ht hh
  unfold compareHelmRelease
  dsimp only
  rw [ha, hb]
  dsimp only
  rw [if_neg (by simp), hsa, hsb]
  simp only [sourceType]
  rw [if_neg (by simp [ht])]
  simp only [firstUrl, hh]

end github


/-! ## The poll of a subscriber item: `doSubscription` -/

namespace github

/-- Every item is itself apart from its subscription and its synchronizer. -/
theorem sameRest_refl (a : SubscriberItem) : a.sameRest a :=
  ⟨a.Subscription, a.synchronizer, rfl⟩

/-- The relation `sameRest` is transitive. -/
theorem sameRest_trans (a b c : SubscriberItem) (hab : a.sameRest b) (hbc : b.sameRest c) :
    a.sameRest c := by
  obtain ⟨s1, y1, h1⟩ := hab
  obtain ⟨s2, y2, h2⟩ := hbc
  subst h1
  subst h2
  exact ⟨s2, y2, rfl⟩

/-- Items that differ in subscription and synchronizer only record one commit id. -/
theorem sameRest_commitID (a b : SubscriberItem) (h : a.sameRest b) :
    b.commitID = a.commitID := by
  obtain ⟨s, y, h⟩ := h
  subst h
  rfl

/-- Replacing the records of a run writes the subscription of the item only. -/
theorem sameRest_withRecords (st : SyncRun) (status : List (String × Option GoError))
    (pkgMap : List (String × Bool)) : st.ghsi.sameRest (st.withRecords status pkgMap).ghsi :=
  ⟨_, _, rfl⟩

/-- Setting the status of a package writes the subscription of the item only. -/
theorem sameRest_setPackageStatus (env : SubscriberEnv) (st : SyncRun) (pkgname : String)
    (pkgerr : GoError) : st.ghsi.sameRest (setPackageStatus env st pkgname pkgerr).1.ghsi :=
  ⟨_, _, rfl⟩

/-- The method `subscribeResource` writes the subscription and the synchronizer of the
item only. -/
theorem subscribeResource_sameRest (env : SubscriberEnv) (st : SyncRun) (rsc : Unstructured) :
    ∃ res st1, subscribeResource env st rsc = .ok (res, st1) ∧
      st.ghsi.sameRest st1.ghsi ∧ st1.templates = st.templates ∧ st1.kvalid = st.kvalid := by
  cases hres : (kubernetes.GetValidatedGVK env.tables st.ghsi.synchronizer rsc.Gvk).1 with
  | none =>
    exact ⟨_, _, subscribeResource_unresolved env st rsc hres, ⟨_, _, rfl⟩, rfl, rfl⟩
  | some g =>
    obtain ⟨r, hr⟩ :=
      kubernetes.GetValidatedGVK_some_key env.tables st.ghsi.synchronizer rsc.Gvk g hres
    obtain ⟨status1, pm1, hs⟩ := subscribeResolved_state env
      (st.withSynchronizer (kubernetes.GetValidatedGVK env.tables st.ghsi.synchronizer rsc.Gvk).2)
      rsc g r.Namespaced
    have hstep := subscribeResource_resolved env st rsc g r hres hr
    generalize subscribeResolved env
      (st.withSynchronizer (kubernetes.GetValidatedGVK env.tables st.ghsi.synchronizer rsc.Gvk).2)
      rsc g r.Namespaced = q at hstep hs
    obtain ⟨res, s1⟩ := q
    dsimp only at hs
    subst hs
    exact ⟨res, _, hstep, ⟨_, _, rfl⟩, rfl, rfl⟩

/-- The method `subscribeResourceFile` writes the subscription and the synchronizer of
the item only, and keeps the templates accepted so far. -/
theorem subscribeResourceFile_sameRest (env : SubscriberEnv) (hostkey : NamespacedName)
    (syncsource : String) (st : SyncRun) (rsc : Unstructured) :
    ∃ e st1, subscribeResourceFile env hostkey syncsource st rsc = .ok (e, st1) ∧
      st.ghsi.sameRest st1.ghsi := by
  obtain ⟨res, s1, hsr, hsame, _, _⟩ := subscribeResource_sameRest env st rsc
  unfold subscribeResourceFile
  rw [hsr]
  cases res with
  | error err => exact ⟨_, _, rfl, hsame⟩
  | ok d =>
    obtain ⟨dpl, gvk⟩ := d
    dsimp only
    split
    · refine ⟨_, _, rfl, ?_⟩
      exact sameRest_trans _ _ _ hsame (sameRest_trans _ _ _ (sameRest_withRecords _ _ _)
        (sameRest_trans _ _ _ (sameRest_setPackageStatus env _ _ _)
          (sameRest_withRecords _ _ _)))
    · refine ⟨_, _, rfl, ?_⟩
      exact sameRest_trans _ _ _ hsame
        (sameRest_withRecords s1 s1.ghsi.Subscription.Status (mapSet s1.pkgMap dpl.Name true))

/-- The loop over the resources of the files writes the subscription and the
synchronizer of the item only. -/
theorem subscribeParsed_sameRest (env : SubscriberEnv) (hostkey : NamespacedName)
    (syncsource : String) (l : List ParsedResource) (st : SyncRun) :
    ∃ r, subscribeParsed env hostkey syncsource l st = .ok r ∧ st.ghsi.sameRest r.ghsi := by
  induction l generalizing st with
  | nil => exact ⟨st, rfl, sameRest_refl _⟩
  | cons y l ih =>
    simp only [subscribeParsed]
    by_cases hh : y.headerErr = true
    · rw [if_pos hh]
      exact ih st
    · rw [if_neg hh]
      obtain ⟨e, st1, hstep, hsame⟩ :=
        subscribeResourceFile_sameRest env hostkey syncsource st y.rsc
      rw [hstep]
      obtain ⟨r, hr, hsame2⟩ := ih st1
      exact ⟨r, hr, sameRest_trans _ _ _ hsame hsame2⟩

/-- The method `subscribeResources` returns, and it writes the subscription and the
synchronizer of the item only. -/
theorem subscribeResources_sameRest (env : SubscriberEnv) (hostkey : NamespacedName)
    (syncsource : String) (files : List String) (st : SyncRun) :
    ∃ r, subscribeResources env hostkey syncsource files st = .ok r ∧
      st.ghsi.sameRest r.ghsi := by
  rw [subscribeResources_eq]
  exact subscribeParsed_sameRest env hostkey syncsource _ st

/-- The loop over the documents of a kustomize build returns, and it writes the
subscription and the synchronizer of the item only. -/
theorem subscribeKustomized_sameRest (env : SubscriberEnv) (hostkey : NamespacedName)
    (syncsource : String) (l : List KustomizeResource) (st : SyncRun) :
    ∃ r, subscribeKustomized env hostkey syncsource l st = .ok r ∧
      st.ghsi.sameRest r.ghsi := by
  induction l generalizing st with
  | nil => exact ⟨st, rfl, sameRest_refl _⟩
  | cons y l ih =>
    simp only [subscribeKustomized]
    by_cases hh : y.headerErr = true
    · rw [if_pos hh]
      exact ih st
    · rw [if_neg hh]
      by_cases hk : y.APIVersion = "" ∨ y.Kind = ""
      · rw [if_pos hk]
        exact ih st
      · rw [if_neg hk]
        obtain ⟨e, st1, hstep, hsame⟩ :=
          subscribeResourceFile_sameRest env hostkey syncsource st y.rsc
        rw [hstep]
        obtain ⟨r, hr, hsame2⟩ := ih st1
        exact ⟨r, hr, sameRest_trans _ _ _ hsame hsame2⟩

/-- Whenever the loop over the kustomize directories returns, it has written the
subscription and the synchronizer of the item only. -/
theorem subscribeKustomizeDirs_sameRest (env : SubscriberEnv) (renv : RepoEnv)
    (hostkey : NamespacedName) (syncsource : String) (dirs : List (String × String))
    (st r : SyncRun) (h : subscribeKustomizeDirs env renv hostkey syncsource dirs st = .ok r) :
    st.ghsi.sameRest r.ghsi := by
  induction dirs generalizing st with
  | nil =>
    simp only [subscribeKustomizeDirs, Except.ok.injEq] at h
    subst h
    exact sameRest_refl _
  | cons d dirs ih =>
    obtain ⟨name, dir⟩ := d
    simp only [subscribeKustomizeDirs] at h
    split at h
    · cases h
    · obtain ⟨r1, hr1, hsame⟩ := subscribeKustomized_sameRest env hostkey syncsource
        (renv.kustomizeBuild dir) st
      rw [hr1] at h
      exact sameRest_trans _ _ _ hsame (ih r1 h)

/-- The end of the body of the loop of `subscribeHelmCharts` writes the subscription of
the item only. -/
theorem registerChart_sameRest (env : SubscriberEnv) (renv : RepoEnv) (hostkey : NamespacedName)
    (syncsource : String) (st : SyncRun) (dplname : String) (helmRelease : HelmRelease) :
    st.ghsi.sameRest (registerChart env renv hostkey syncsource st dplname helmRelease).run.ghsi := by
  unfold registerChart
  cases renv.marshalReleaseErr helmRelease with
  | some e => exact sameRest_refl _
  | none =>
    dsimp only
    split
    · exact sameRest_trans _ _ _ (sameRest_setPackageStatus env st _ _)
        (sameRest_withRecords _ _ _)
    · exact sameRest_refl _

/-- Whenever the body of the loop of `subscribeHelmCharts` ends, from the override on, it
has written the subscription of the item only. -/
theorem subscribeRelease_sameRest (env : SubscriberEnv) (renv : RepoEnv)
    (hostkey : NamespacedName) (syncsource : String) (st : SyncRun) (packageName : String)
    (chartVersions : List ChartVersion) (releaseKey : NamespacedName) (isCreate : Bool)
    (helmRelease : HelmRelease) (step : LoopStep)
    (h : subscribeRelease env renv hostkey syncsource st packageName chartVersions releaseKey
      isCreate helmRelease = .ok step) :
    st.ghsi.sameRest step.run.ghsi := by
  unfold subscribeRelease at h
  cases hov : override renv st.ghsi helmRelease with
  | error err =>
    rw [hov] at h
    simp only [Except.ok.injEq] at h
    subst h
    exact sameRest_refl _
  | ok overridden =>
    rw [hov] at h
    dsimp only at h
    cases chartVersions with
    | nil => cases h
    | cons first rest =>
      dsimp only at h
      split at h
      · cases h
      · simp only [Except.ok.injEq] at h
        subst h
        exact sameRest_refl _
      · simp only [Except.ok.injEq] at h
        subst h
        exact registerChart_sameRest env renv hostkey syncsource st _ _

/-- Whenever the body of the loop of `subscribeHelmCharts` ends, it has written the
subscription of the item only. -/
theorem subscribeChart_sameRest (env : SubscriberEnv) (renv : RepoEnv)
    (hostkey : NamespacedName) (syncsource : String) (st : SyncRun) (packageName : String)
    (chartVersions : List ChartVersion) (step : LoopStep)
    (h : subscribeChart env renv hostkey syncsource st packageName chartVersions = .ok step) :
    st.ghsi.sameRest step.run.ghsi := by
  unfold subscribeChart at h
  split at h
  · simp only [Except.ok.injEq] at h
    subst h
    exact sameRest_refl _
  · dsimp only at h
    split at h
    · split at h
      · split at h
        · cases h
        · exact subscribeRelease_sameRest env renv hostkey syncsource st packageName
            chartVersions _ _ _ step h
      · simp only [Except.ok.injEq] at h
        subst h
        exact sameRest_refl _
    · split at h
      · cases h
      · exact subscribeRelease_sameRest env renv hostkey syncsource st packageName
          chartVersions _ _ _ step h

/-- Whenever the loop of `subscribeHelmCharts` ends, it has written the subscription of
the item only. -/
theorem subscribeCharts_sameRest (env : SubscriberEnv) (renv : RepoEnv)
    (hostkey : NamespacedName) (syncsource : String)
    (entries : List (String × List ChartVersion)) (st st1 : SyncRun) (e : Option GoError)
    (h : subscribeCharts env renv hostkey syncsource entries st = .ok (e, st1)) :
    st.ghsi.sameRest st1.ghsi := by
  induction entries generalizing st with
  | nil =>
    simp only [subscribeCharts, Except.ok.injEq, Prod.mk.injEq] at h
    rw [← h.2]
    exact sameRest_refl _
  | cons entry entries ih =>
    obtain ⟨packageName, chartVersions⟩ := entry
    simp only [subscribeCharts] at h
    cases hstep : subscribeChart env renv hostkey syncsource st packageName chartVersions with
    | error p =>
      rw [hstep] at h
      cases h
    | ok step =>
      have hsame := subscribeChart_sameRest env renv hostkey syncsource st packageName
        chartVersions step hstep
      rw [hstep] at h
      cases step with
      | next s1 => exact sameRest_trans _ _ _ hsame (ih s1 h)
      | stop s1 =>
        simp only [Except.ok.injEq, Prod.mk.injEq] at h
        rw [← h.2]
        exact hsame
      | ret err s1 =>
        simp only [Except.ok.injEq, Prod.mk.injEq] at h
        rw [← h.2]
        exact hsame

/-- Whenever `subscribeHelmCharts` returns, it has written the subscription of the item
only. -/
theorem subscribeHelmCharts_sameRest (env : SubscriberEnv) (renv : RepoEnv) (st st1 : SyncRun)
    (indexFile : Option IndexFile) (e : Option GoError)
    (h : subscribeHelmCharts env renv st indexFile = .ok (e, st1)) :
    st.ghsi.sameRest st1.ghsi := by
  unfold subscribeHelmCharts at h
  dsimp only at h
  cases indexFile with
  | none => cases h
  | some index =>
    dsimp only at h
    cases hloop : subscribeCharts env renv
        { Name := st.ghsi.Subscription.Name, Namespace := st.ghsi.Subscription.Namespace }
        (renv.githubhelmsyncsource ++ hostkeyString
          { Name := st.ghsi.Subscription.Name, Namespace := st.ghsi.Subscription.Namespace })
        index.Entries { st with pkgMap := [] } with
    | error p =>
      rw [hloop] at h
      cases h
    | ok res =>
      obtain ⟨e1, s1⟩ := res
      have hsame : st.ghsi.sameRest s1.ghsi :=
        subscribeCharts_sameRest env renv _ _ index.Entries { st with pkgMap := [] } s1 e1 hloop
      rw [hloop] at h
      cases e1 with
      | some err =>
        simp only [Except.ok.injEq, Prod.mk.injEq] at h
        rw [← h.2]
        exact hsame
      | none =>
        dsimp only at h
        split at h
        · simp only [Except.ok.injEq, Prod.mk.injEq] at h
          rw [← h.2]
          exact sameRest_trans _ _ _ hsame ⟨_, _, rfl⟩
        · simp only [Except.ok.injEq, Prod.mk.injEq] at h
          rw [← h.2]
          exact sameRest_trans _ _ _ hsame ⟨_, _, rfl⟩

/-- Whenever the processing of a cloned repository returns, the templates accepted
before are kept, the item is the sorted item apart from its subscription and its
synchronizer when an error is returned, and records the cloned commit id when nil is
returned. -/
theorem processClonedRepo_commitID (env : SubscriberEnv) (renv : RepoEnv) (st st1 : ItemState)
    (ghsi2 : SubscriberItem) (commitID : String) (e : Option GoError)
    (h : processClonedRepo env renv st ghsi2 commitID = .ok (e, st1)) :
    (e ≠ none → ghsi2.sameRest st1.ghsi) ∧ (e = none → st1.ghsi.commitID = commitID) := by
  unfold processClonedRepo at h
  dsimp only at h
  obtain ⟨run1, h1, s1⟩ := subscribeResources_sameRest env
    { Name := ghsi2.Subscription.Name, Namespace := ghsi2.Subscription.Namespace }
    (renv.githubk8ssyncsource ++ hostkeyString
      { Name := ghsi2.Subscription.Name, Namespace := ghsi2.Subscription.Namespace })
    ghsi2.crdsAndNamespaceFiles
    { ghsi := ghsi2, pkgMap := [], kvalid := [], templates := st.templates }
  rw [h1] at h
  dsimp only at h
  obtain ⟨run2, h2, s2⟩ := subscribeResources_sameRest env
    { Name := ghsi2.Subscription.Name, Namespace := ghsi2.Subscription.Namespace }
    (renv.githubk8ssyncsource ++ hostkeyString
      { Name := ghsi2.Subscription.Name, Namespace := ghsi2.Subscription.Namespace })
    run1.ghsi.rbacFiles run1
  rw [h2] at h
  dsimp only at h
  obtain ⟨run3, h3, s3⟩ := subscribeResources_sameRest env
    { Name := ghsi2.Subscription.Name, Namespace := ghsi2.Subscription.Namespace }
    (renv.githubk8ssyncsource ++ hostkeyString
      { Name := ghsi2.Subscription.Name, Namespace := ghsi2.Subscription.Namespace })
    run2.ghsi.otherFiles run2
  rw [h3] at h
  dsimp only at h
  cases h4 : subscribeKustomizations env renv
      { Name := ghsi2.Subscription.Name, Namespace := ghsi2.Subscription.Namespace }
      (renv.githubk8ssyncsource ++ hostkeyString
        { Name := ghsi2.Subscription.Name, Namespace := ghsi2.Subscription.Namespace })
      run3 with
  | error p =>
    rw [h4] at h
    cases h
  | ok run4 =>
    have s4 : run3.ghsi.sameRest run4.ghsi :=
      subscribeKustomizeDirs_sameRest env renv _ _ run3.ghsi.kustomizeDirs run3 run4 h4
    rw [h4] at h
    dsimp only at h
    cases h5 : subscribeHelmCharts env renv run4 run4.ghsi.indexFile with
    | error p =>
      rw [h5] at h
      cases h
    | ok res =>
      obtain ⟨e5, run5⟩ := res
      have s5 := subscribeHelmCharts_sameRest env renv run4 run5 run4.ghsi.indexFile e5 h5
      have hall : ghsi2.sameRest run5.ghsi :=
        sameRest_trans _ _ _ s1 (sameRest_trans _ _ _ s2 (sameRest_trans _ _ _ s3
          (sameRest_trans _ _ _ s4 s5)))
      rw [h5] at h
      cases e5 with
      | some err =>
        simp only [Except.ok.injEq, Prod.mk.injEq] at h
        rw [← h.2]
        exact ⟨fun _ => hall, fun hn => absurd hn (by rw [← h.1]; simp)⟩
      | none =>
        simp only [Except.ok.injEq, Prod.mk.injEq] at h
        rw [← h.2]
        exact ⟨fun hn => absurd h.1.symm hn, fun _ => rfl⟩

/-- The methods `cloneGitRepo` and `sortClonedGitRepo` keep the recorded commit id. -/
theorem clone_sort_commitID (renv : RepoEnv) (ghsi ghsi1 : SubscriberItem)
    (res : String × Option GoError) (h : cloneGitRepo renv ghsi = .ok (res, ghsi1)) :
    ghsi1 = { ghsi with repoRoot := renv.GetLocalGitFolder ghsi.Channel ghsi.Subscription } ∧
      (sortClonedGitRepo renv ghsi1).2.commitID = ghsi.commitID := by
  have h1 : ghsi1 =
      { ghsi with repoRoot := renv.GetLocalGitFolder ghsi.Channel ghsi.Subscription } := by
    unfold cloneGitRepo at h
    dsimp only at h
    split at h
    · simp only [Except.ok.injEq, Prod.mk.injEq] at h
      exact h.2.symm
    · split at h
      · cases h
      · simp only [Except.ok.injEq, Prod.mk.injEq] at h
        exact h.2.symm
  refine ⟨h1, ?_⟩
  subst h1
  unfold sortClonedGitRepo
  dsimp only
  split
  · rfl
  · split <;> rfl

/-- C27 (as stated, refuted): the item recorded the commit `abc123` when it followed the
branch `main`; its subscription now names the branch `dev`, which is at the same commit.
The poll clones `abc123`, registers nothing and returns nil, and the item has changed:
`cloneGitRepo` has set `repoRoot` to the folder of the branch `dev`. -/
theorem doSubscription_same_commit_counterexample :
    (∃ ghsi1, cloneGitRepo (pollEnv []) (pollItem "abc123") = .ok (("abc123", none), ghsi1)) ∧
    (pollItem "abc123").commitID = "abc123" ∧
    (pollItem "abc123").repoRoot = "/tmp/ch-ns/ch/main" ∧
    (∃ st1, doSubscription batchEnv (pollEnv []) (pollState "abc123") = .ok (none, st1) ∧
      st1.templates = [] ∧ st1.ghsi.commitID = "abc123" ∧
      st1.ghsi.repoRoot = "/tmp/ch-ns/ch/dev" ∧
      st1.ghsi.repoRoot ≠ (pollState "abc123").ghsi.repoRoot) :=
  ⟨⟨_, rfl⟩, rfl, rfl, ⟨_, rfl, rfl, rfl, rfl, by decide⟩⟩

/-- C27 (amended): whenever `doSubscription` returns an error, the commit id the item
records is the one it recorded before; whenever it returns nil, the commit id the item
records is the one `cloneGitRepo` has just returned; and when `cloneGitRepo` returns,
without error, the commit id the item records, `doSubscription` returns nil, no template
is registered, no validator is applied, and the item is as before except for
`repoRoot`, which `cloneGitRepo` has set to the local git folder. -/
theorem doSubscription_commitID (env : SubscriberEnv) (renv : RepoEnv) (st : ItemState) :
    (∀ err st1, doSubscription env renv st = .ok (some err, st1) →
      st1.ghsi.commitID = st.ghsi.commitID) ∧
    (∀ st1, doSubscription env renv st = .ok (none, st1) →
      ∃ ghsi1, cloneGitRepo renv st.ghsi = .ok ((st1.ghsi.commitID, none), ghsi1)) ∧
    (∀ ghsi1, cloneGitRepo renv st.ghsi = .ok ((st.ghsi.commitID, none), ghsi1) →
      doSubscription env renv st = .ok (none,
        { ghsi := { st.ghsi with
            repoRoot := renv.GetLocalGitFolder st.ghsi.Channel st.ghsi.Subscription },
          templates := st.templates, applied := st.applied })) := by
  refine ⟨?_, ?_, ?_⟩
  · intro err st1 h
    unfold doSubscription at h
    cases hc : cloneGitRepo renv st.ghsi with
    | error p =>
      rw [hc] at h
      cases h
    | ok res =>
      obtain ⟨⟨commitID, cerr⟩, ghsi1⟩ := res
      obtain ⟨hg, hsort⟩ := clone_sort_commitID renv st.ghsi ghsi1 _ hc
      rw [hc] at h
      cases cerr with
      | some e =>
        simp only [Except.ok.injEq, Prod.mk.injEq] at h
        rw [← h.2, hg]
      | none =>
        dsimp only at h
        by_cases hne : commitID ≠ ghsi1.commitID
        · rw [if_pos hne] at h
          cases hs : sortClonedGitRepo renv ghsi1 with
          | mk serr ghsi2 =>
            rw [hs] at hsort
            rw [hs] at h
            cases serr with
            | some e =>
              simp only [Except.ok.injEq, Prod.mk.injEq] at h
              rw [← h.2]
              exact hsort
            | none =>
              dsimp only at h
              have := (processClonedRepo_commitID env renv st st1 ghsi2 commitID _ h).1
                (by simp)
              rw [sameRest_commitID _ _ this]
              exact hsort
        · rw [if_neg hne] at h
          simp only [Except.ok.injEq, Prod.mk.injEq] at h
          exact absurd h.1 (by simp)
  · intro st1 h
    unfold doSubscription at h
    cases hc : cloneGitRepo renv st.ghsi with
    | error p =>
      rw [hc] at h
      cases h
    | ok res =>
      obtain ⟨⟨commitID, cerr⟩, ghsi1⟩ := res
      obtain ⟨hg, hsort⟩ := clone_sort_commitID renv st.ghsi ghsi1 _ hc
      rw [hc] at h
      cases cerr with
      | some e =>
        simp only [Except.ok.injEq, Prod.mk.injEq] at h
        exact absurd h.1 (by simp)
      | none =>
        dsimp only at h
        by_cases hne : commitID ≠ ghsi1.commitID
        · rw [if_pos hne] at h
          cases hs : sortClonedGitRepo renv ghsi1 with
          | mk serr ghsi2 =>
            rw [hs] at h
            cases serr with
            | some e =>
              simp only [Except.ok.injEq, Prod.mk.injEq] at h
              exact absurd h.1 (by simp)
            | none =>
              dsimp only at h
              have := (processClonedRepo_commitID env renv st st1 ghsi2 commitID _ h).2 rfl
              rw [this]
              exact ⟨ghsi1, rfl⟩
        · rw [if_neg hne] at h
          simp only [Except.ok.injEq, Prod.mk.injEq] at h
          have heq : commitID = ghsi1.commitID := by
            by_contra hcon
            exact hne hcon
          rw [← h.2]
          dsimp only
          rw [← heq]
          exact ⟨ghsi1, rfl⟩
  · intro ghsi1 hc
    obtain ⟨hg, _⟩ := clone_sort_commitID renv st.ghsi ghsi1 _ hc
    unfold doSubscription
    rw [hc]
    dsimp only
    have hsame : ghsi1.commitID = st.ghsi.commitID := by rw [hg]
    rw [if_neg (by rw [hsame]; simp), hg]

end github


/-! ## The registry mutex -/

namespace mcmhub

/-- The calls of `getCommitFunc` as steps are those of the calls of the tick that are
calls of `getCommitFunc`. -/
theorem fetchSteps_fetchCalls (evs : List Event) :
    fetchSteps (fetchCalls evs) = fetchSteps evs := by
  induction evs with
  | nil => rfl
  | cons e rest ih =>
    cases e with
    | fetch url bName username secret =>
      simp only [fetchCalls, List.filter_cons_of_pos, fetchSteps] at ih ⊢
      rw [ih]
    | annotate r b k c =>
      simp only [fetchCalls, fetchSteps] at ih ⊢
      rw [List.filter_cons_of_neg (by simp)]
      exact ih

/-- Calls of `getCommitFunc` that are followed by the unlock are all made in the state of
the mutex they start in. -/
theorem remoteCalls_fetchSteps (held : Bool) (evs : List Event) :
    remoteCalls held (fetchSteps evs ++ [.unlock]) = (fetchSteps evs).map (fun s => (s, held)) := by
  induction evs with
  | nil => rfl
  | cons e rest ih =>
    cases e with
    | fetch url bName username secret =>
      exact congrArg (List.cons (MutexStep.fetch url bName username secret, held)) ih
    | annotate r b k c => exact ih

/-- No call of `getCommitFunc` is a lock or an unlock. -/
theorem fetchSteps_count (evs : List Event) :
    (fetchSteps evs).count .lock = 0 ∧ (fetchSteps evs).count .unlock = 0 := by
  induction evs with
  | nil => exact ⟨rfl, rfl⟩
  | cons e rest ih =>
    cases e with
    | fetch url bName username secret =>
      simp only [fetchSteps]
      rw [List.count_cons_of_ne (by simp), List.count_cons_of_ne (by simp)]
      exact ih
    | annotate r b k c => exact ih

/-- The calls of `getCommitFunc` among the calls of two parts of a tick. -/
theorem fetchSteps_append (a b : List Event) :
    fetchSteps (a ++ b) = fetchSteps a ++ fetchSteps b := by
  induction a with
  | nil => rfl
  | cons e rest ih =>
    cases e with
    | fetch url bName username secret =>
      exact congrArg (List.cons (MutexStep.fetch url bName username secret)) ih
    | annotate r b2 k c => exact ih

/-- When the inner loop returns, the calls it has made are those of its trace. -/
theorem branchTrace_ok (f : GetCommitFunc) (repoName url : String)
    (bs bs1 : List (String × branchInfo)) (clt clt1 : Client) (evs : List Event)
    (h : watchBranchs f repoName url bs clt = .ok (bs1, clt1, evs)) :
    branchTrace f repoName url bs clt = (fetchSteps evs, some clt1) := by
  induction bs generalizing bs1 clt evs with
  | nil =>
    simp only [watchBranchs, Except.ok.injEq, Prod.mk.injEq] at h
    rw [← h.2.1, ← h.2.2]
    rfl
  | cons e rest ih =>
    obtain ⟨bName, bi⟩ := e
    obtain ⟨bi1, cltA, evsA, rest1, evsB, hw, hr, _, hevs⟩ :=
      watchBranchs_cons_ok f repoName url bName bi rest bs1 clt clt1 evs h
    have hA : fetchSteps evsA = [.fetch url bName bi.username bi.secret] := by
      rw [← fetchSteps_fetchCalls, watchBranch_fetchCalls f repoName url bName bi bi1 clt cltA
        evsA hw]
      rfl
    simp only [branchTrace, hw]
    rw [ih rest1 cltA evsB hr, hevs, fetchSteps_append, hA]
    rfl

/-- When the outer loop returns, the calls it has made are those of its trace. -/
theorem repoTrace_ok (f : GetCommitFunc) (rs rs1 : List (String × RepoRegistery))
    (clt clt1 : Client) (evs : List Event)
    (h : watchRepos f rs clt = .ok (rs1, clt1, evs)) :
    repoTrace f rs clt = fetchSteps evs := by
  induction rs generalizing rs1 clt evs with
  | nil =>
    simp only [watchRepos, Except.ok.injEq, Prod.mk.injEq] at h
    rw [← h.2.2]
    rfl
  | cons e rest ih =>
    obtain ⟨repoName, repo⟩ := e
    obtain ⟨bs1, cltA, evsA, rest1, evsB, hw, hr, _, hevs⟩ :=
      watchRepos_cons_ok f repoName repo rest rs1 clt clt1 evs h
    simp only [repoTrace]
    rw [branchTrace_ok f repoName repo.url repo.branchs bs1 clt cltA evsA hw]
    dsimp only
    rw [ih rest1 cltA evsB hr, hevs, fetchSteps_append]

/-- The trace of the inner loop holds calls of `getCommitFunc` only. -/
theorem branchTrace_isFetch (f : GetCommitFunc) (repoName url : String)
    (bs : List (String × branchInfo)) (clt : Client) :
    ∀ s ∈ (branchTrace f repoName url bs clt).1, s.isFetch = true := by
  induction bs generalizing clt with
  | nil =>
    intro s hs
    simp [branchTrace] at hs
  | cons e rest ih =>
    obtain ⟨bName, bi⟩ := e
    intro s hs
    simp only [branchTrace] at hs
    split at hs
    · simp only [List.mem_singleton] at hs
      rw [hs]
      rfl
    · rename_i bi1 clt1 evs1 _
      simp only [List.mem_cons] at hs
      rcases hs with hs | hs
      · rw [hs]
        rfl
      · exact ih clt1 s hs

/-- The trace of the outer loop holds calls of `getCommitFunc` only. -/
theorem repoTrace_isFetch (f : GetCommitFunc) (rs : List (String × RepoRegistery))
    (clt : Client) : ∀ s ∈ repoTrace f rs clt, s.isFetch = true := by
  induction rs generalizing clt with
  | nil =>
    intro s hs
    simp [repoTrace] at hs
  | cons e rest ih =>
    obtain ⟨repoName, repo⟩ := e
    intro s hs
    have hb := branchTrace_isFetch f repoName repo.url repo.branchs clt
    simp only [repoTrace] at hs
    split at hs
    · rename_i steps heq
      rw [heq] at hb
      exact hb s hs
    · rename_i steps clt1 heq
      rw [heq] at hb
      rcases List.mem_append.1 hs with hs | hs
      · exact hb s hs
      · exact ih clt1 s hs

/-- Calls of `getCommitFunc` that are followed by the unlock are all made in the state of
the mutex they start in, and none of them is a lock or an unlock. -/
theorem remoteCalls_fetches (held : Bool) (steps : List MutexStep)
    (h : ∀ s ∈ steps, s.isFetch = true) :
    remoteCalls held (steps ++ [.unlock]) = steps.map (fun s => (s, held)) ∧
      steps.count .lock = 0 ∧ steps.count .unlock = 0 := by
  induction steps with
  | nil => exact ⟨rfl, rfl, rfl⟩
  | cons s rest ih =>
    obtain ⟨h1, h2, h3⟩ := ih (fun x hx => h x (List.mem_cons_of_mem _ hx))
    have hs := h s (List.mem_cons_self _ _)
    cases s with
    | fetch url bName username secret =>
      refine ⟨?_, ?_, ?_⟩
      · exact congrArg (List.cons (MutexStep.fetch url bName username secret, held)) h1
      · rw [List.count_cons_of_ne (by simp)]
        exact h2
      · rw [List.count_cons_of_ne (by simp)]
        exact h3
    | lock => cases hs
    | unlock => cases hs
    | download => cases hs
    | clone => cases hs

/-- The three ways of `RegisterBranch` with the mutex: it returns early, without a step
and with the registry and the subscription as they were; or the source is registered and
it takes and releases the mutex; or the source is new and it calls `initialDownload`
between taking and releasing the mutex. -/
theorem RegisterBranchSteps_cases (env : RegisterEnv) (h : HubGitOps) (subIns : Subscription) :
    (((mapGet h.subRecords ⟨subIns.Namespace, subIns.Name⟩).isSome = true ∨
        (∃ e, env.refChannel = .error e) ∨
        (∃ channel, env.refChannel = .ok channel ∧ isGitChannel channel = false) ∨
        (∃ e, env.channelSecret = .error e)) ∧
      RegisterBranchSteps env h subIns = [] ∧
      RegisterBranch env h subIns = .ok (h, subIns)) ∨
    (∃ channel user pwd repo,
      mapGet h.subRecords ⟨subIns.Namespace, subIns.Name⟩ = none ∧
      env.refChannel = .ok channel ∧ isGitChannel channel = true ∧
      env.channelSecret = .ok (user, pwd) ∧
      mapGet h.repoRecords (genRepoName channel.Pathname user pwd) = some repo ∧
      RegisterBranchSteps env h subIns = [.lock, .unlock]) ∨
    (∃ channel user pwd,
      mapGet h.subRecords ⟨subIns.Namespace, subIns.Name⟩ = none ∧
      env.refChannel = .ok channel ∧ isGitChannel channel = true ∧
      env.channelSecret = .ok (user, pwd) ∧
      mapGet h.repoRecords (genRepoName channel.Pathname user pwd) = none ∧
      RegisterBranchSteps env h subIns =
        [.lock, .download] ++
          initialDownloadSteps env ⟨h.localDir,
            mapSet h.subRecords ⟨subIns.Namespace, subIns.Name⟩
              (genRepoName channel.Pathname user pwd), h.repoRecords⟩ ++ [.unlock]) := by
  unfold RegisterBranchSteps RegisterBranch
  dsimp only
  by_cases hkey : (mapGet h.subRecords
      { Name := subIns.Name, Namespace := subIns.Namespace }).isSome = true
  · rw [if_pos hkey, if_pos hkey]
    exact Or.inl ⟨Or.inl hkey, rfl, rfl⟩
  · rw [if_neg hkey, if_neg hkey]
    have hnone : mapGet h.subRecords ⟨subIns.Namespace, subIns.Name⟩ = none := by
      cases hg : mapGet h.subRecords ⟨subIns.Namespace, subIns.Name⟩ with
      | none => rfl
      | some v =>
        rw [hg] at hkey
        exact absurd rfl hkey
    cases hch : env.refChannel with
    | error e => exact Or.inl ⟨Or.inr (Or.inl ⟨e, rfl⟩), rfl, rfl⟩
    | ok channel =>
      dsimp only
      by_cases hgit : isGitChannel channel = true
      · rw [if_neg (by simp [hgit]), if_neg (by simp [hgit])]
        cases hsec : env.channelSecret with
        | error e => exact Or.inl ⟨Or.inr (Or.inr (Or.inr ⟨e, rfl⟩)), rfl, rfl⟩
        | ok up =>
          obtain ⟨user, pwd⟩ := up
          dsimp only
          cases hrepo : mapGet h.repoRecords (genRepoName channel.Pathname user pwd) with
          | some repo =>
            exact Or.inr (Or.inl ⟨channel, user, pwd, repo, hnone, rfl, hgit, rfl, hrepo, rfl⟩)
          | none =>
            exact Or.inr (Or.inr ⟨channel, user, pwd, hnone, rfl, hgit, rfl, hrepo, rfl⟩)
      · rw [if_pos (by simp [hgit]), if_pos (by simp [hgit])]
        refine Or.inl ⟨Or.inr (Or.inr (Or.inl ⟨channel, rfl, ?_⟩)), rfl, rfl⟩
        cases hg : isGitChannel channel with
        | true => exact absurd hg hgit
        | false => rfl

/-- The steps of `initialDownload`: the clone when no local directory is recorded and the
channel can be read, else none. -/
theorem initialDownloadSteps_cases (env : RegisterEnv) (h : HubGitOps) :
    (h.localDir = "" → (∃ chn, env.getChannel = .ok chn) →
      initialDownloadSteps env h = [.clone]) ∧
    (h.localDir ≠ "" ∨ (∃ e, env.getChannel = .error e) → initialDownloadSteps env h = []) := by
  unfold initialDownloadSteps
  constructor
  · rintro hd ⟨chn, hc⟩
    rw [if_neg (by simp [hd]), hc]
  · rintro (hd | ⟨e, he⟩)
    · rw [if_pos hd]
    · rw [he]
      split <;> rfl

/-- C23 (as stated, refuted): in the polling scenario the tick takes the mutex, then calls
`getCommitFunc` for the branch `main`, then releases the mutex: the fetch is made with
the mutex held.  When `ns/sub1` registers at the empty registry, `RegisterBranch` takes
the mutex, calls `initialDownload`, which clones, and then releases the mutex. -/
theorem fetch_under_lock_counterexample :
    GitWatchSteps (fun _ _ _ _ => ("def456", none)) (scenarioRegistry "abc123") scenarioClient =
      .ok [.lock, .fetch "github.com/org/repo" "main" "" "", .unlock] ∧
    remoteCalls false [.lock, .fetch "github.com/org/repo" "main" "" "", .unlock] =
      [(.fetch "github.com/org/repo" "main" "" "", true)] ∧
    RegisterBranchSteps scenarioEnv NewHookGit scenarioSub1 =
      [.lock, .download, .clone, .unlock] ∧
    remoteCalls false [.lock, .download, .clone, .unlock] =
      [(.download, true), (.clone, true)] := by
  refine ⟨rfl, rfl, ?_, rfl⟩
  decide

/-- C23 (amended): a tick of `GitWatch`, whether it returns or panics, takes the mutex
once, at its start, and releases it once, at its end, and every call of `getCommitFunc`
it makes is made in between, with the mutex held.  A tick that returns has called
`getCommitFunc` once for every branch of the registry; the tick returns whenever every
record the cluster serves carries an annotation map.
`RegisterBranch` returns early, without a step and with the registry as it was, exactly
when the subscription is registered, its channel cannot be read or is no git channel, or
the secret of the channel cannot be read.  Otherwise it takes the mutex once and releases
it once, at its end: on a registered source it makes no remote call in between; on a new
source it calls `initialDownload` in between, which clones when no local directory is
recorded and the channel can be read, and makes no call else.  Every call of
`initialDownload` and every clone is made with the mutex held. -/
theorem fetch_under_lock (f : GetCommitFunc) (h : HubGitOps) (clt : Client)
    (env : RegisterEnv) (subIns : Subscription) :
    ((GitWatchTrace f h clt).head? = some .lock ∧
      (GitWatchTrace f h clt).getLast? = some .unlock ∧
      (GitWatchTrace f h clt).count .lock = 1 ∧ (GitWatchTrace f h clt).count .unlock = 1 ∧
      (∀ c ∈ remoteCalls false (GitWatchTrace f h clt), c.1.isFetch = true ∧ c.2 = true) ∧
      (∀ steps, GitWatchSteps f h clt = .ok steps → steps = GitWatchTrace f h clt)) ∧
    (clt.annotated → ∃ steps, GitWatchSteps f h clt = .ok steps) ∧
    (∀ steps, GitWatchSteps f h clt = .ok steps →
      (∃ calls, steps = .lock :: calls ++ [.unlock] ∧
        calls = fetchSteps (registeredFetches h.repoRecords)) ∧
      steps.count .lock = 1 ∧ steps.count .unlock = 1 ∧
      (remoteCalls false steps).map Prod.fst = fetchSteps (registeredFetches h.repoRecords) ∧
      ∀ c ∈ remoteCalls false steps, c.2 = true) ∧
    (RegisterBranchSteps env h subIns = [] ↔
      ((mapGet h.subRecords ⟨subIns.Namespace, subIns.Name⟩).isSome = true ∨
        (∃ e, env.refChannel = .error e) ∨
        (∃ channel, env.refChannel = .ok channel ∧ isGitChannel channel = false) ∨
        (∃ e, env.channelSecret = .error e))) ∧
    (RegisterBranchSteps env h subIns = [] → RegisterBranch env h subIns = .ok (h, subIns)) ∧
    (∀ channel user pwd, mapGet h.subRecords ⟨subIns.Namespace, subIns.Name⟩ = none →
      env.refChannel = .ok channel → isGitChannel channel = true →
      env.channelSecret = .ok (user, pwd) →
      ((∃ repo, mapGet h.repoRecords (genRepoName channel.Pathname user pwd) = some repo) →
        RegisterBranchSteps env h subIns = [.lock, .unlock]) ∧
      (mapGet h.repoRecords (genRepoName channel.Pathname user pwd) = none →
        (h.localDir = "" → (∃ chn, env.getChannel = .ok chn) →
          RegisterBranchSteps env h subIns = [.lock, .download, .clone, .unlock]) ∧
        (h.localDir ≠ "" ∨ (∃ e, env.getChannel = .error e) →
          RegisterBranchSteps env h subIns = [.lock, .download, .unlock]))) ∧
    ((RegisterBranchSteps env h subIns).count .lock =
        (RegisterBranchSteps env h subIns).count .unlock ∧
      (RegisterBranchSteps env h subIns).count .lock ≤ 1 ∧
      (RegisterBranchSteps env h subIns = [] ∨
        ((RegisterBranchSteps env h subIns).head? = some .lock ∧
          (RegisterBranchSteps env h subIns).getLast? = some .unlock)) ∧
      (∀ c ∈ remoteCalls false (RegisterBranchSteps env h subIns), c.2 = true)) := by
  have hcases := RegisterBranchSteps_cases env h subIns
  refine ⟨?_, ?_, ?_, ?_, ?_, ?_, ?_⟩
  · obtain ⟨hrc, hl, hu⟩ := remoteCalls_fetches true (repoTrace f h.repoRecords clt)
      (repoTrace_isFetch f h.repoRecords clt)
    have hrc2 : remoteCalls false (GitWatchTrace f h clt) =
        (repoTrace f h.repoRecords clt).map (fun s => (s, true)) := hrc
    refine ⟨rfl, ?_, ?_, ?_, ?_, ?_⟩
    · unfold GitWatchTrace
      rw [List.getLast?_append]
      rfl
    · unfold GitWatchTrace
      simp [List.count_cons, List.count_append, hl]
    · unfold GitWatchTrace
      simp [List.count_cons, List.count_append, hu]
    · intro c hc
      rw [hrc2] at hc
      simp only [List.mem_map] at hc
      obtain ⟨s, hs, hcs⟩ := hc
      rw [← hcs]
      exact ⟨repoTrace_isFetch f h.repoRecords clt s hs, rfl⟩
    · intro steps hsteps
      unfold GitWatchSteps at hsteps
      cases hrun : GitWatch f h clt with
      | error p =>
        rw [hrun] at hsteps
        cases hsteps
      | ok res =>
        obtain ⟨h1, clt1, evs⟩ := res
        rw [hrun] at hsteps
        simp only [Except.ok.injEq] at hsteps
        simp only [GitWatch] at hrun
        cases hw : watchRepos f h.repoRecords clt with
        | error p => simp [hw] at hrun
        | ok r =>
          obtain ⟨rs1, cltA, evsA⟩ := r
          simp only [hw, Except.ok.injEq, Prod.mk.injEq] at hrun
          rw [← hsteps, ← hrun.2.2]
          unfold GitWatchTrace
          rw [repoTrace_ok f h.repoRecords rs1 clt cltA evsA hw]
  · intro hann
    obtain ⟨res, hres⟩ := GitWatch_total f h clt hann
    unfold GitWatchSteps
    rw [hres]
    exact ⟨_, rfl⟩
  · intro steps hsteps
    unfold GitWatchSteps at hsteps
    cases hrun : GitWatch f h clt with
    | error p =>
      rw [hrun] at hsteps
      cases hsteps
    | ok res =>
      obtain ⟨h1, clt1, evs⟩ := res
      rw [hrun] at hsteps
      simp only [Except.ok.injEq] at hsteps
      have hfetch : fetchSteps evs = fetchSteps (registeredFetches h.repoRecords) := by
        simp only [GitWatch] at hrun
        cases hw : watchRepos f h.repoRecords clt with
        | error p => simp [hw] at hrun
        | ok r =>
          obtain ⟨rs1, cltA, evsA⟩ := r
          simp only [hw, Except.ok.injEq, Prod.mk.injEq] at hrun
          rw [← fetchSteps_fetchCalls evs, ← hrun.2.2,
            watchRepos_fetchCalls f h.repoRecords rs1 clt cltA evsA hw]
      subst hsteps
      have hcount := fetchSteps_count evs
      have hrc : remoteCalls false (.lock :: fetchSteps evs ++ [.unlock]) =
          (fetchSteps evs).map (fun s => (s, true)) := remoteCalls_fetchSteps true evs
      refine ⟨⟨_, rfl, hfetch⟩, ?_, ?_, ?_, ?_⟩
      · simp [List.count_cons, List.count_append, hcount.1]
      · simp [List.count_cons, List.count_append, hcount.2]
      · rw [hrc, ← hfetch, List.map_map]
        exact List.map_id _
      · intro c hc
        rw [hrc] at hc
        simp only [List.mem_map] at hc
        obtain ⟨s, _, hs⟩ := hc
        rw [← hs]
  · constructor
    · intro hnil
      rcases hcases with ⟨hearly, _, _⟩ | ⟨_, _, _, _, _, _, _, _, _, hs⟩ |
        ⟨_, _, _, _, _, _, _, _, hs⟩
      · exact hearly
      · rw [hs] at hnil
        cases hnil
      · rw [hs] at hnil
        cases hnil
    · intro hearly
      rcases hcases with ⟨_, hs, _⟩ | ⟨channel, _, _, _, hnone, hch, hgit, hsec, _, _⟩ |
        ⟨channel, _, _, hnone, hch, hgit, hsec, _, _⟩
      · exact hs
      · rcases hearly with hk | ⟨e, he⟩ | ⟨c2, hc2, hg2⟩ | ⟨e, he⟩
        · rw [hnone] at hk
          cases hk
        · rw [hch] at he
          cases he
        · rw [hch] at hc2
          cases hc2
          rw [hgit] at hg2
          cases hg2
        · rw [hsec] at he
          cases he
      · rcases hearly with hk | ⟨e, he⟩ | ⟨c2, hc2, hg2⟩ | ⟨e, he⟩
        · rw [hnone] at hk
          cases hk
        · rw [hch] at he
          cases he
        · rw [hch] at hc2
          cases hc2
          rw [hgit] at hg2
          cases hg2
        · rw [hsec] at he
          cases he
  · intro hnil
    rcases hcases with ⟨_, _, hr⟩ | ⟨_, _, _, _, _, _, _, _, _, hs⟩ |
      ⟨_, _, _, _, _, _, _, _, hs⟩
    · exact hr
    · rw [hs] at hnil
      cases hnil
    · rw [hs] at hnil
      cases hnil
  · intro channel user pwd hnone hch hgit hsec
    have hnot : ¬ ((mapGet h.subRecords ⟨subIns.Namespace, subIns.Name⟩).isSome = true ∨
        (∃ e, env.refChannel = .error e) ∨
        (∃ channel, env.refChannel = .ok channel ∧ isGitChannel channel = false) ∨
        (∃ e, env.channelSecret = .error e)) := by
      rintro (hk | ⟨e, he⟩ | ⟨c2, hc2, hg2⟩ | ⟨e, he⟩)
      · rw [hnone] at hk
        cases hk
      · rw [hch] at he
        cases he
      · rw [hch] at hc2
        cases hc2
        rw [hgit] at hg2
        cases hg2
      · rw [hsec] at he
        cases he
    constructor
    · rintro ⟨repo, hrepo⟩
      rcases hcases with ⟨hearly, _, _⟩ | ⟨c2, u2, p2, _, _, hc2, _, hs2, _, hs⟩ |
        ⟨c2, u2, p2, _, hc2, _, hs2, hr2, _⟩
      · exact absurd hearly hnot
      · exact hs
      · rw [hch] at hc2
        cases hc2
        rw [hsec] at hs2
        cases hs2
        rw [hrepo] at hr2
        cases hr2
    · intro hrepo
      have hsteps : RegisterBranchSteps env h subIns =
          [.lock, .download] ++
            initialDownloadSteps env ⟨h.localDir,
              mapSet h.subRecords ⟨subIns.Namespace, subIns.Name⟩
                (genRepoName channel.Pathname user pwd), h.repoRecords⟩ ++ [.unlock] := by
        rcases hcases with ⟨hearly, _, _⟩ | ⟨c2, u2, p2, _, _, hc2, _, hs2, hr2, _⟩ |
          ⟨c2, u2, p2, _, hc2, _, hs2, _, hs⟩
        · exact absurd hearly hnot
        · rw [hch] at hc2
          cases hc2
          rw [hsec] at hs2
          cases hs2
          rw [hrepo] at hr2
          cases hr2
        · rw [hch] at hc2
          cases hc2
          rw [hsec] at hs2
          cases hs2
          exact hs
      obtain ⟨hA, hB⟩ := initialDownloadSteps_cases env ⟨h.localDir,
        mapSet h.subRecords ⟨subIns.Namespace, subIns.Name⟩
          (genRepoName channel.Pathname user pwd), h.repoRecords⟩
      constructor
      · intro hd hc
        rw [hsteps, hA hd hc]
        rfl
      · intro hd
        rw [hsteps, hB hd]
        rfl
  · rcases hcases with ⟨_, hs, _⟩ | ⟨_, _, _, _, _, _, _, _, _, hs⟩ |
      ⟨_, _, _, _, _, _, _, _, hs⟩
    · rw [hs]
      exact ⟨rfl, by simp, Or.inl rfl, by simp [remoteCalls]⟩
    · rw [hs]
      exact ⟨rfl, by decide, Or.inr ⟨rfl, rfl⟩, by simp [remoteCalls]⟩
    · rw [hs]
      unfold initialDownloadSteps
      dsimp only
      split
      · exact ⟨rfl, by decide, Or.inr ⟨rfl, rfl⟩, by simp [remoteCalls]⟩
      · split
        · exact ⟨rfl, by decide, Or.inr ⟨rfl, rfl⟩, by simp [remoteCalls]⟩
        · exact ⟨rfl, by decide, Or.inr ⟨rfl, rfl⟩, by simp [remoteCalls]⟩

end mcmhub


/-! ## The worker and the Host Template Set -/

namespace kubernetes

/-- Entries whose kind/version the resolver returns as it is, leaving the synchronizer as
it was, all pass the resolution step unchanged. -/
theorem resolveEntries_resolved (t : Tables) (dpls : List DplUnit) (sync : KubeSynchronizer)
    (h : ∀ u ∈ dpls, GetValidatedGVK t sync u.Gvk = (some u.Gvk, sync)) :
    resolveEntries t dpls sync = (dpls, [], sync) := by
  induction dpls with
  | nil => rfl
  | cons u rest ih =>
    have hu := h u (List.mem_cons_self _ _)
    have hrest := ih (fun v hv => h v (List.mem_cons_of_mem _ hv))
    simp only [resolveEntries, hu, hrest]

/-- An idle worker that gets a batch of resolved entries processes that batch: the
synchronizer is left as it was, and the set of the host and the tag is replaced by the
identities of the batch. -/
theorem drain_submit (t : Tables) (w : Reconciler) (host : NamespacedName) (tag : String)
    (dpls : List DplUnit) (ack : RecvOutcome) (hidle : w.sync.tplCh = [])
    (hres : ∀ u ∈ dpls, GetValidatedGVK t w.sync u.Gvk = (some u.Gvk, w.sync)) :
    drain t (submit w tag host dpls ack) =
      { sync := w.sync,
        hostTemplates := mapSet w.hostTemplates (host, tag) (identities dpls),
        ops := w.ops ++
          (identities dpls).map (fun unit =>
            if unit ∈ recorded w host tag then ClusterOp.update unit
            else ClusterOp.create unit) ++
          ((recorded w host tag).filter
            (fun unit => !decide (unit ∈ identities dpls))).map ClusterOp.delete,
        skipped := w.skipped } := by
  have hsync : ({ w.sync with tplCh := [] } : KubeSynchronizer) = w.sync := by
    rw [← hidle]
  have hq : (AddTemplates w.sync tag host dpls .sent ack).2.tplCh = [⟨tag, host, dpls⟩] := by
    cases ack with
    | received serr => cases serr <;> simp [AddTemplates, hidle]
    | timedOut => simp [AddTemplates, hidle]
  have hs : ({ (AddTemplates w.sync tag host dpls .sent ack).2 with tplCh := [] } :
      KubeSynchronizer) = w.sync := by
    rw [← hsync]
    cases ack with
    | received serr => cases serr <;> rfl
    | timedOut => rfl
  unfold drain submit
  dsimp only
  rw [hq, hs]
  simp only [List.foldl_cons, List.foldl_nil, processOrder, recorded]
  rw [resolveEntries_resolved t dpls w.sync hres]
  simp

end kubernetes


/-! ## The validator of a poll -/

namespace github

end github

namespace kubernetes

end kubernetes
